import Mathlib

/-!
# os-locks-and-sync: a verification development

Shallow embeddings of the synchronisation primitives of the repository
(spin-lock semaphore, ticket-lock semaphore, reader-writer lock, condition
variable, producer-consumer pipeline) and theorems about them.

Concurrency is modelled by interleaving: every access to an atomic object (all
of them use the default sequentially consistent ordering) is one step of the
thread that performs it, threads are numbered by `Nat`, and a schedule is a
list of events saying which thread moves next.  The permit count of the
spin-lock semaphore and the waiter counter of the condition variable wrap
around as an `atomic_int` does; tickets, reader and writer counts and the
counters bounded by the number of threads or by the domain size are unbounded
integers.
-/

set_option autoImplicit false

/-! ## The C type `int`

The counters of the sources are `atomic_int` objects.  Arithmetic on them wraps
around in two's complement (C11, 7.17.7.5); `int` is taken to be 32 bits
wide. -/

/-- The largest value of an `int`. -/
def INT_MAX : Int := 2147483647

/-- The smallest value of an `int`. -/
def INT_MIN : Int := -2147483648

/-- The value an `atomic_int` holds after an arithmetic operation whose exact
result is `x` : the representative of `x` modulo 2^32 between `INT_MIN` and
`INT_MAX`. -/
def wrap32 (x : Int) : Int := (x + 2147483648) % 4294967296 - 2147483648

/-! ## task3/ticket_lock.h : the ticket lock

`ticket_lock.h` declares the type and the three functions; their bodies are
not among the sources and are taken from the specification (section 4.1). -/

/-- Source: the struct `ticket_lock` of `ticket_lock.h`; the specification calls
the two fields `next_ticket` and `serving`. -/
structure ticket_lock where
  /-- Field `ticket` : next ticket to hand out. -/
  ticket : Int
  /-- Field `cur_ticket` : ticket currently allowed to proceed. -/
  cur_ticket : Int
  deriving DecidableEq, Repr

/-- Modelled from the spec: `ticketlock_init`, whose body is missing.  The lock
"is free when no caller is between acquire and release", so a new lock serves
the first ticket it will hand out; both counters start at 0 as in
`semaphore_init` of `tl_semaphore.c`. -/
def ticketlock_init : ticket_lock := { ticket := 0, cur_ticket := 0 }

/-- Modelled from the spec: first action of `ticketlock_acquire`, whose body is
missing: "atomically fetch-and-increment `next_ticket` to obtain `my_ticket`".
Returns `my_ticket` and the new lock. -/
def ticketlock_draw (l : ticket_lock) : Int × ticket_lock :=
  (l.ticket, { l with ticket := l.ticket + 1 })

/-- Modelled from the spec: the test of the loop of `ticketlock_acquire`, whose
body is missing: "spin (yielding the processor each iteration) until
`serving == my_ticket`". -/
def ticketlock_served (l : ticket_lock) (my_ticket : Int) : Bool :=
  l.cur_ticket == my_ticket

/-- Modelled from the spec: `ticketlock_release`, whose body is missing:
"atomically increment `serving`". -/
def ticketlock_release (l : ticket_lock) : ticket_lock :=
  { l with cur_ticket := l.cur_ticket + 1 }

/-- Where a thread stands with respect to one ticket lock: outside, spinning
with a ticket, or between acquire and release. -/
inductive LockPhase
  | out
  | spin (my_ticket : Int)
  | held
  deriving DecidableEq, Repr

/-- The invariant of a ticket lock whose users stand at `ph`: tickets in use
are distinct, already handed out and not yet served; at most one thread is
between acquire and release, and while there is one its ticket is the one
served; and every ticket handed out and not yet released is in use. -/
structure TicketInv {ι : Type} (l : ticket_lock) (ph : ι → LockPhase) : Prop where
  bound : ∀ j t, ph j = LockPhase.spin t → t < l.ticket
  distinct : ∀ j1 j2 t, ph j1 = LockPhase.spin t → ph j2 = LockPhase.spin t → j1 = j2
  holder_unique : ∀ j1 j2, ph j1 = LockPhase.held → ph j2 = LockPhase.held → j1 = j2
  holder_serving : ∀ j, ph j = LockPhase.held →
    l.cur_ticket < l.ticket ∧ ∀ j2 t, ph j2 = LockPhase.spin t → t ≠ l.cur_ticket
  le : l.cur_ticket ≤ l.ticket
  spin_ge : ∀ j t, ph j = LockPhase.spin t → l.cur_ticket ≤ t
  complete : ∀ t, l.cur_ticket ≤ t → t < l.ticket →
    ∃ j, ph j = LockPhase.spin t ∨ (ph j = LockPhase.held ∧ t = l.cur_ticket)

/-- The integer `n` is the number of threads `j` with `b j`. -/
def Counted {ι : Type} (b : ι → Bool) (n : Int) : Prop :=
  ∃ F : Finset ι, (∀ j, j ∈ F ↔ b j = true) ∧ n = (F.card : Int)

/-- The integer `w` is 1 when exactly one thread `j` has `b j` and 0 when none
has; no two threads have `b`. -/
def Flagged {ι : Type} (b : ι → Bool) (w : Int) : Prop :=
  (w = 0 ∧ ∀ j, b j = false) ∨ (w = 1 ∧ ∃ j, b j = true ∧ ∀ j2, b j2 = true → j2 = j)

/-! ## task1/tas_semaphore.c : the test-and-set semaphore -/

namespace Tas

/-- Control points of a thread inside `semaphore_wait` / `semaphore_signal`
of `tas_semaphore.c`; the constructor names give the source line about to be
executed. -/
inductive Pc
  /-- Outside any call. -/
  | idle
  /-- Line 16 : `while (atomic_exchange(&sem->lock, 1))`. -/
  | w16
  /-- Line 20 : `while (sem->value <= 0)`, executed with the spin flag held. -/
  | w20
  /-- Line 22 : `atomic_store(&sem->lock, 0)`. -/
  | w22
  /-- Line 24 : `while (sem->value <= 0)`, executed without the spin flag. -/
  | w24
  /-- Line 28 : `while (atomic_exchange(&sem->lock, 1))`. -/
  | w28
  /-- Line 33 : `sem->value--`. -/
  | w33
  /-- Line 35 : `atomic_store(&sem->lock, 0)`. -/
  | w35
  /-- Line 43 : `while (atomic_exchange(&sem->lock, 1))`. -/
  | s43
  /-- Line 47 : `sem->value++`. -/
  | s47
  /-- Line 49 : `atomic_store(&sem->lock, 0)`. -/
  | s49
  deriving DecidableEq, Repr

/-- The semaphore of `tas_semaphore.h` together with the control point of every
thread.  The last four fields are history counters: they are written by the
steps that perform the counted action and read by no step. -/
structure State where
  /-- Field `value` of the semaphore. -/
  value : Int
  /-- Field `lock` of the semaphore : 0 unlocked, 1 locked. -/
  lock : Int
  /-- Control point of each thread. -/
  pc : Nat → Pc
  /-- History : number of executions of line 33. -/
  decs : Nat
  /-- History : number of executions of line 47. -/
  incs : Nat
  /-- History : number of `semaphore_wait` calls that have returned. -/
  waits : Nat
  /-- History : number of `semaphore_signal` calls that have returned. -/
  signals : Nat

/-- What the scheduler may pick: a thread that is outside any call enters
`semaphore_wait` or `semaphore_signal`, or a thread executes its next atomic
action. -/
inductive Ev
  | wait (i : Nat)
  | signal (i : Nat)
  | step (i : Nat)
  deriving DecidableEq, Repr

/-- Source: `semaphore_init(sem, initial_value)`; no thread is inside a call. -/
def semaphore_init (initial_value : Int) : State :=
  { value := initial_value, lock := 0, pc := fun _ => Pc.idle,
    decs := 0, incs := 0, waits := 0, signals := 0 }

/-- Thread `i` moves to control point `p`. -/
def State.goto (s : State) (i : Nat) (p : Pc) : State :=
  { s with pc := Function.update s.pc i p }

/-- One atomic action of thread `i`, following `semaphore_wait` (lines 14-36)
and `semaphore_signal` (lines 41-50). -/
def stepThread (s : State) (i : Nat) : State :=
  match s.pc i with
  | Pc.idle => s
  | Pc.w16 =>
      if s.lock ≠ 0 then { s with lock := 1 } else { s with lock := 1 }.goto i Pc.w20
  | Pc.w20 => if s.value ≤ 0 then s.goto i Pc.w22 else s.goto i Pc.w33
  | Pc.w22 => { s with lock := 0 }.goto i Pc.w24
  | Pc.w24 => if s.value ≤ 0 then s else s.goto i Pc.w28
  | Pc.w28 =>
      if s.lock ≠ 0 then { s with lock := 1 } else { s with lock := 1 }.goto i Pc.w20
  | Pc.w33 => { s with value := wrap32 (s.value - 1), decs := s.decs + 1 }.goto i Pc.w35
  | Pc.w35 => { s with lock := 0, waits := s.waits + 1 }.goto i Pc.idle
  | Pc.s43 =>
      if s.lock ≠ 0 then { s with lock := 1 } else { s with lock := 1 }.goto i Pc.s47
  | Pc.s47 => { s with value := wrap32 (s.value + 1), incs := s.incs + 1 }.goto i Pc.s49
  | Pc.s49 => { s with lock := 0, signals := s.signals + 1 }.goto i Pc.idle

/-- One scheduler event. -/
def step (s : State) : Ev → State
  | Ev.wait i => if s.pc i = Pc.idle then s.goto i Pc.w16 else s
  | Ev.signal i => if s.pc i = Pc.idle then s.goto i Pc.s43 else s
  | Ev.step i => stepThread s i

/-- The state after a schedule. -/
def run (s : State) (evs : List Ev) : State := evs.foldl step s

/-- The control points at which the thread holds the spin flag. -/
def Pc.inCS : Pc → Bool
  | Pc.w20 | Pc.w22 | Pc.w33 | Pc.w35 | Pc.s47 | Pc.s49 => true
  | _ => false

/-- Calls that have updated `value` but not yet returned, as seen from the
control point of the thread holding the spin flag: `(waits, signals)`. -/
def Pc.pending : Pc → Nat × Nat
  | Pc.w35 => (1, 0)
  | Pc.s49 => (0, 1)
  | _ => (0, 0)

/-- The invariant of the reachable states, for initial value `k`; `o` is the
thread holding the spin flag, if any.  The two statements about the value of
the count hold as long as the increments of line 47 cannot have overflowed
it. -/
structure Inv (k : Int) (s : State) (o : Option Nat) : Prop where
  free : o = none → s.lock = 0 ∧ s.decs = s.waits ∧ s.incs = s.signals
  held : ∀ j, o = some j →
    s.lock = 1 ∧ s.decs = s.waits + (s.pc j).pending.1 ∧ s.incs = s.signals + (s.pc j).pending.2
  owner : ∀ j, (s.pc j).inCS = true ↔ o = some j
  count : k + s.incs ≤ INT_MAX → s.value = k - s.decs + s.incs
  nonneg : k + s.incs ≤ INT_MAX → 0 ≤ s.value
  pos : ∀ j, s.pc j = Pc.w33 → 0 < s.value
  range : INT_MIN ≤ s.value ∧ s.value ≤ INT_MAX

/-- The events of one whole call of `semaphore_wait` by thread `i` that finds
the spin flag free and the count positive: the call, line 16, line 20, line 33
and line 35. -/
def waitCall (i : Nat) : List Ev := [Ev.wait i, Ev.step i, Ev.step i, Ev.step i, Ev.step i]

/-- The events of one whole call of `semaphore_signal` by thread `i` that finds
the spin flag free: the call, line 43, line 47 and line 49. -/
def signalCall (i : Nat) : List Ev := [Ev.signal i, Ev.step i, Ev.step i, Ev.step i]

end Tas
/-! ## task2/tl_semaphore.c : the ticket-lock semaphore -/

namespace Tl

/-- Control points of a thread inside `semaphore_wait` / `semaphore_signal`
of `tl_semaphore.c`; the constructor names give the source line about to be
executed. -/
inductive Pc
  /-- Outside any call. -/
  | idle
  /-- Line 20 : `int my_ticket = atomic_fetch_add(&sem->ticket, 1)`. -/
  | w20
  /-- Line 22 : `while (atomic_load(&sem->cur_ticket) != my_ticket)`, with the
  value of the local `my_ticket`; a failed test runs `sched_yield()` (line 23)
  and comes back here. -/
  | w22 (my_ticket : Int)
  /-- Line 26 : `atomic_fetch_sub(&sem->value, 1)`. -/
  | w26
  /-- Line 35 : `atomic_fetch_add(&sem->value, 1)`. -/
  | s35
  /-- Line 37 : `atomic_fetch_add(&sem->cur_ticket, 1)`. -/
  | s37
  deriving DecidableEq, Repr

/-- The semaphore of `tl_semaphore.h` together with the control point of every
thread.  The last two fields are history counters, read by no step. -/
structure State where
  /-- Field `value` : semaphore counter. -/
  value : Int
  /-- Field `ticket` : ticket to give. -/
  ticket : Int
  /-- Field `cur_ticket` : ticket being served. -/
  cur_ticket : Int
  /-- Control point of each thread. -/
  pc : Nat → Pc
  /-- History : number of `semaphore_wait` calls that have returned. -/
  waits : Nat
  /-- History : number of `semaphore_signal` calls that have returned. -/
  signals : Nat

/-- What the scheduler may pick: a thread that is outside any call enters
`semaphore_wait` or `semaphore_signal`, or a thread executes its next atomic
action. -/
inductive Ev
  | wait (i : Nat)
  | signal (i : Nat)
  | step (i : Nat)
  deriving DecidableEq, Repr

/-- Source: `semaphore_init(sem, initial_value)`; no thread is inside a call. -/
def semaphore_init (initial_value : Int) : State :=
  { value := initial_value, ticket := 0, cur_ticket := 0, pc := fun _ => Pc.idle,
    waits := 0, signals := 0 }

/-- Thread `i` moves to control point `p`. -/
def State.goto (s : State) (i : Nat) (p : Pc) : State :=
  { s with pc := Function.update s.pc i p }

/-- One atomic action of thread `i`, following `semaphore_wait` (lines 18-27)
and `semaphore_signal` (lines 33-38). -/
def stepThread (s : State) (i : Nat) : State :=
  match s.pc i with
  | Pc.idle => s
  | Pc.w20 => { s with ticket := s.ticket + 1 }.goto i (Pc.w22 s.ticket)
  | Pc.w22 my_ticket => if s.cur_ticket ≠ my_ticket then s else s.goto i Pc.w26
  | Pc.w26 => { s with value := s.value - 1, waits := s.waits + 1 }.goto i Pc.idle
  | Pc.s35 => { s with value := s.value + 1 }.goto i Pc.s37
  | Pc.s37 => { s with cur_ticket := s.cur_ticket + 1, signals := s.signals + 1 }.goto i Pc.idle

/-- One scheduler event. -/
def step (s : State) : Ev → State
  | Ev.wait i => if s.pc i = Pc.idle then s.goto i Pc.w20 else s
  | Ev.signal i => if s.pc i = Pc.idle then s.goto i Pc.s35 else s
  | Ev.step i => stepThread s i

/-- The state after a schedule. -/
def run (s : State) (evs : List Ev) : State := evs.foldl step s

/-- The events of one whole call of `semaphore_wait` by thread `i` that finds
its ticket served at the first test. -/
def waitCall (i : Nat) : List Ev := [Ev.wait i, Ev.step i, Ev.step i, Ev.step i]

/-- The events of one whole call of `semaphore_signal` by thread `i`. -/
def signalCall (i : Nat) : List Ev := [Ev.signal i, Ev.step i, Ev.step i]

end Tl

/-! ## task2/tl_semaphore.c : schedules about the order of admission -/

namespace Tl

/-- Thread 0 (wait A) and then thread 1 (wait B) call `semaphore_wait` and draw
their tickets (line 20); neither has tested `cur_ticket` yet. -/
def drawRun : List Ev := [Ev.wait 0, Ev.step 0, Ev.wait 1, Ev.step 1]

/-- After `drawRun`, thread 2 runs a whole `semaphore_signal`, and thread 1
then runs its test (line 22) and its decrement (line 26): wait B returns
while wait A has not yet run its test. -/
def overtakeRun : List Ev := drawRun ++ signalCall 2 ++ [Ev.step 1, Ev.step 1]

/-- Thread 3 completes a wait (ticket 0); thread 0 (wait A, ticket 1) and
thread 1 (wait B, ticket 2) draw their tickets and both find in their test
that they have to wait; thread 2 runs `semaphore_signal` twice; thread 1 then
runs its test and its decrement. -/
def overtakeQueuedRun : List Ev :=
  waitCall 3 ++ drawRun ++ [Ev.step 0, Ev.step 1] ++ signalCall 2 ++ signalCall 2 ++
    [Ev.step 1, Ev.step 1]

/-- Wait A of thread 0 stands at its test with the ticket `t`, and the ticket
being served is already past `t`. -/
def Missed (t : Int) (s : State) : Prop := s.pc 0 = Pc.w22 t ∧ t < s.cur_ticket

end Tl
/-! ## task4/rw_lock.c : the reader-writer lock -/

namespace Rw

/-- Control points of a thread in the four functions of `rw_lock.c`; the
constructor names give the source line about to be executed.  A call of
`ticketlock_acquire` is two control points: drawing the ticket, and the test of
the spin loop with the ticket drawn. -/
inductive Pc
  /-- Holding nothing, outside any call. -/
  | idle
  /-- Line 26 : `ticketlock_acquire(&lock->lock)`, drawing the ticket. -/
  | r26
  /-- Line 26 : `ticketlock_acquire(&lock->lock)`, spinning. -/
  | r26s (my_ticket : Int)
  /-- Line 27 : `atomic_load(&lock->writers) == 0`. -/
  | r27
  /-- Line 27 : `atomic_load(&lock->waiting_writers) == 0`. -/
  | r27b
  /-- Line 28 : `atomic_fetch_add(&lock->readers, 1)`. -/
  | r28
  /-- Line 29 : `ticketlock_release(&lock->lock)`, then `break`. -/
  | r29
  /-- Line 32 : `ticketlock_release(&lock->lock)`, then `sched_yield()` and
  the next iteration. -/
  | r32
  /-- Holding the lock for reading, outside any call. -/
  | reading
  /-- Line 45 : `atomic_fetch_sub(&lock->readers, 1)`. -/
  | rr45
  /-- Line 56 : `atomic_fetch_add(&lock->waiting_writers, 1)`. -/
  | w56
  /-- Line 58 : `ticketlock_acquire(&lock->lock)`, drawing the ticket. -/
  | w58
  /-- Line 58 : `ticketlock_acquire(&lock->lock)`, spinning. -/
  | w58s (my_ticket : Int)
  /-- Line 59 : `atomic_load(&lock->readers) == 0`. -/
  | w59
  /-- Line 59 : `atomic_load(&lock->writers) == 0`. -/
  | w59b
  /-- Line 60 : `atomic_store(&lock->writers, 1)`. -/
  | w60
  /-- Line 61 : `atomic_fetch_sub(&lock->waiting_writers, 1)`. -/
  | w61
  /-- Line 62 : `ticketlock_release(&lock->lock)`, then `break`. -/
  | w62
  /-- Line 65 : `ticketlock_release(&lock->lock)`, then `sched_yield()` and
  the next iteration. -/
  | w65
  /-- Holding the lock for writing, outside any call. -/
  | writing
  /-- Line 76 : `ticketlock_acquire(&lock->lock)`, drawing the ticket. -/
  | x76
  /-- Line 76 : `ticketlock_acquire(&lock->lock)`, spinning. -/
  | x76s (my_ticket : Int)
  /-- Line 77 : `atomic_store(&lock->writers, 0)`. -/
  | x77
  /-- Line 78 : `ticketlock_release(&lock->lock)`. -/
  | x78
  deriving DecidableEq, Repr

/-- The struct `rwlock` of `rw_lock.h` and the control point of every thread. -/
structure State where
  /-- Field `lock` : synchronises access to the counters. -/
  lock : ticket_lock
  /-- Field `readers` : active readers. -/
  readers : Int
  /-- Field `writers` : 0 or 1. -/
  writers : Int
  /-- Field `waiting_writers` : number of writers waiting. -/
  waiting_writers : Int
  /-- Control point of each thread. -/
  pc : Nat → Pc

/-- What the scheduler may pick.  A thread holding nothing calls
`rwlock_acquire_read` or `rwlock_acquire_write`; a thread that holds the lock
for reading (writing) calls `rwlock_release_read` (`rwlock_release_write`); or
a thread inside a call executes its next atomic action. -/
inductive Ev
  | acquire_read (i : Nat)
  | release_read (i : Nat)
  | acquire_write (i : Nat)
  | release_write (i : Nat)
  | step (i : Nat)
  deriving DecidableEq, Repr

/-- Source: `rwlock_init`; no thread is inside a call. -/
def rwlock_init : State :=
  { lock := ticketlock_init, readers := 0, writers := 0, waiting_writers := 0,
    pc := fun _ => Pc.idle }

/-- Thread `i` moves to control point `p`. -/
def State.goto (s : State) (i : Nat) (p : Pc) : State :=
  { s with pc := Function.update s.pc i p }

/-- One atomic action of thread `i`, following `rwlock_acquire_read` (lines
24-35), `rwlock_release_read` (44-46), `rwlock_acquire_write` (55-68) and
`rwlock_release_write` (75-79). -/
def stepThread (s : State) (i : Nat) : State :=
  match s.pc i with
  | Pc.idle => s
  | Pc.r26 => { s with lock := (ticketlock_draw s.lock).2 }.goto i (Pc.r26s (ticketlock_draw s.lock).1)
  | Pc.r26s t => if ticketlock_served s.lock t then s.goto i Pc.r27 else s
  | Pc.r27 => if s.writers = 0 then s.goto i Pc.r27b else s.goto i Pc.r32
  | Pc.r27b => if s.waiting_writers = 0 then s.goto i Pc.r28 else s.goto i Pc.r32
  | Pc.r28 => { s with readers := s.readers + 1 }.goto i Pc.r29
  | Pc.r29 => { s with lock := ticketlock_release s.lock }.goto i Pc.reading
  | Pc.r32 => { s with lock := ticketlock_release s.lock }.goto i Pc.r26
  | Pc.reading => s
  | Pc.rr45 => { s with readers := s.readers - 1 }.goto i Pc.idle
  | Pc.w56 => { s with waiting_writers := s.waiting_writers + 1 }.goto i Pc.w58
  | Pc.w58 => { s with lock := (ticketlock_draw s.lock).2 }.goto i (Pc.w58s (ticketlock_draw s.lock).1)
  | Pc.w58s t => if ticketlock_served s.lock t then s.goto i Pc.w59 else s
  | Pc.w59 => if s.readers = 0 then s.goto i Pc.w59b else s.goto i Pc.w65
  | Pc.w59b => if s.writers = 0 then s.goto i Pc.w60 else s.goto i Pc.w65
  | Pc.w60 => { s with writers := 1 }.goto i Pc.w61
  | Pc.w61 => { s with waiting_writers := s.waiting_writers - 1 }.goto i Pc.w62
  | Pc.w62 => { s with lock := ticketlock_release s.lock }.goto i Pc.writing
  | Pc.w65 => { s with lock := ticketlock_release s.lock }.goto i Pc.w58
  | Pc.writing => s
  | Pc.x76 => { s with lock := (ticketlock_draw s.lock).2 }.goto i (Pc.x76s (ticketlock_draw s.lock).1)
  | Pc.x76s t => if ticketlock_served s.lock t then s.goto i Pc.x77 else s
  | Pc.x77 => { s with writers := 0 }.goto i Pc.x78
  | Pc.x78 => { s with lock := ticketlock_release s.lock }.goto i Pc.idle

/-- One scheduler event. -/
def step (s : State) : Ev → State
  | Ev.acquire_read i => if s.pc i = Pc.idle then s.goto i Pc.r26 else s
  | Ev.release_read i => if s.pc i = Pc.reading then s.goto i Pc.rr45 else s
  | Ev.acquire_write i => if s.pc i = Pc.idle then s.goto i Pc.w56 else s
  | Ev.release_write i => if s.pc i = Pc.writing then s.goto i Pc.x76 else s
  | Ev.step i => stepThread s i

/-- The state after a schedule. -/
def run (s : State) (evs : List Ev) : State := evs.foldl step s

/-- Where a control point stands with respect to the internal ticket lock. -/
def Pc.phase : Pc → LockPhase
  | Pc.r26s t | Pc.w58s t | Pc.x76s t => LockPhase.spin t
  | Pc.r27 | Pc.r27b | Pc.r28 | Pc.r29 | Pc.r32 => LockPhase.held
  | Pc.w59 | Pc.w59b | Pc.w60 | Pc.w61 | Pc.w62 | Pc.w65 => LockPhase.held
  | Pc.x77 | Pc.x78 => LockPhase.held
  | _ => LockPhase.out

/-- The thread holds the lock for reading: from its increment of `readers`
(line 28) to its decrement (line 45). -/
def Pc.holdsRead : Pc → Bool
  | Pc.r29 | Pc.reading | Pc.rr45 => true
  | _ => false

/-- The thread holds the lock for writing: from its store of 1 to `writers`
(line 60) to its store of 0 (line 77). -/
def Pc.holdsWrite : Pc → Bool
  | Pc.w61 | Pc.w62 | Pc.writing | Pc.x76 | Pc.x76s _ | Pc.x77 => true
  | _ => false

/-- The thread is counted in `waiting_writers`: from its increment (line 56) to
its decrement (line 61). -/
def Pc.waitingWriter : Pc → Bool
  | Pc.w58 | Pc.w58s _ | Pc.w59 | Pc.w59b | Pc.w60 | Pc.w61 | Pc.w65 => true
  | _ => false

/-- The window of the writer-preference rule: from the writer's increment of
`waiting_writers` (line 56) to its store of 0 to `writers` (line 77). -/
def Pc.inWindow (p : Pc) : Bool := p.waitingWriter || p.holdsWrite

/-- A reader that found `writers == 0` under the internal lock. -/
def Pc.sawNoWriter : Pc → Bool
  | Pc.r27b | Pc.r28 => true
  | _ => false

/-- A writer that found `readers == 0` under the internal lock. -/
def Pc.sawNoReader : Pc → Bool
  | Pc.w59b | Pc.w60 => true
  | _ => false

/-- The invariant of the reachable states. -/
structure Inv (s : State) : Prop where
  tl : TicketInv s.lock (Pc.phase ∘ s.pc)
  rd : Counted (Pc.holdsRead ∘ s.pc) s.readers
  ww : Counted (Pc.waitingWriter ∘ s.pc) s.waiting_writers
  wr : Flagged (Pc.holdsWrite ∘ s.pc) s.writers
  excl : s.writers = 1 → s.readers = 0
  noW : ∀ j, (s.pc j).sawNoWriter = true → s.writers = 0
  noR : ∀ j, (s.pc j).sawNoReader = true → s.readers = 0
  noW60 : ∀ j, s.pc j = Pc.w60 → s.writers = 0

/-- The schedule of the race: reader 0 passes both tests of line 27, writer 1
then enters `rwlock_acquire_write` and increments `waiting_writers`. -/
def raceSchedule : List Ev :=
  [Ev.acquire_read 0, Ev.step 0, Ev.step 0, Ev.step 0, Ev.step 0,
   Ev.acquire_write 1, Ev.step 1]

end Rw

/-! ## task6/cond_var.c and task6/cp_pattern.c : sequential reading

The functions below are the bodies of the C functions as one thread executes
them when no other thread runs.  A function that would spin for ever returns
`none`. -/

/-- Source: the struct `condition_variable` of `cond_var.h`. -/
structure condition_variable where
  /-- Field `lock` : ticket lock protecting the condition variable. -/
  lock : ticket_lock
  /-- Field `waiting` : counter tracking the waiting threads. -/
  waiting : Int
  deriving DecidableEq, Repr

/-- Modelled from the spec: `ticketlock_acquire`, whose body is missing, run by
a thread alone: it draws a ticket and returns once that ticket is served; when
the ticket is not the one served the loop never ends, nobody else being there
to release the lock. -/
def ticketlock_acquire (l : ticket_lock) : Option ticket_lock :=
  if ticketlock_served (ticketlock_draw l).2 (ticketlock_draw l).1 then
    some (ticketlock_draw l).2
  else none

/-- Source: `condition_variable_init` (cond_var.c, lines 10-13). -/
def condition_variable_init : condition_variable :=
  { lock := ticketlock_init, waiting := 0 }

/-- Source: `condition_variable_broadcast` (cond_var.c, lines 51-55). -/
def condition_variable_broadcast (cv : condition_variable) : Option condition_variable :=
  match ticketlock_acquire cv.lock with
  | none => none
  | some l => some { lock := ticketlock_release l, waiting := 0 }

/-- Source: the struct `node_t` of `cp_pattern.c`; a pointer is `none` (NULL) or
the address of a block. -/
structure node_t where
  /-- Field `value`. -/
  value : Int
  /-- Field `next`. -/
  next : Option Nat
  deriving DecidableEq, Repr

/-- The memory of the linked queue: the blocks obtained from `malloc` and not
yet freed, and the globals `queue_head` and `queue_tail`.  `brk` is the
allocator: `malloc` returns the block at `brk`, which was never handed out
(allocation is assumed to succeed, as the source does). -/
structure Queue where
  /-- Allocated blocks, by address. -/
  heap : Nat → Option node_t
  /-- Address of the next block `malloc` returns. -/
  brk : Nat
  /-- Global `queue_head`. -/
  queue_head : Option Nat
  /-- Global `queue_tail`. -/
  queue_tail : Option Nat

/-- Source: initial values of `queue_head` and `queue_tail` (lines 29-30), no
block allocated. -/
def Queue.empty : Queue :=
  { heap := fun _ => none, brk := 0, queue_head := none, queue_tail := none }

/-- Source: `enqueue`, lines 47-49: `malloc` a node and fill it in.  Returns
`new_node` and the new memory. -/
def Queue.alloc (q : Queue) (value : Int) : Nat × Queue :=
  (q.brk, { q with heap := Function.update q.heap q.brk (some { value := value, next := none }),
                   brk := q.brk + 1 })

/-- Source: `enqueue`, lines 53-60: link `new_node` behind the tail.  The store
`queue_tail->next = new_node` through a tail that is not an allocated block
(undefined behaviour in C) is modelled as no store. -/
def Queue.link (q : Queue) (new_node : Nat) : Queue :=
  match q.queue_tail with
  | none => { q with queue_head := some new_node, queue_tail := some new_node }
  | some t =>
      { q with heap := Function.update q.heap t
                 ((q.heap t).map fun n => { n with next := some new_node }),
               queue_tail := some new_node }

/-- Source: `dequeue` (lines 66-89), called with the queue lock held.  Reading a
head that is not an allocated block (undefined behaviour in C) is modelled as
the empty case. -/
def dequeue (q : Queue) : Int × Queue :=
  match q.queue_head with
  | none => (-1, q)
  | some h =>
      match q.heap h with
      | none => (-1, q)
      | some n =>
          (n.value,
           { q with heap := Function.update q.heap h none,
                    queue_head := n.next,
                    queue_tail := if n.next = none then none else q.queue_tail })

/-- The queue with the lock and the condition variable `enqueue` uses. -/
structure QueueState where
  /-- Memory of the queue. -/
  queue : Queue
  /-- Global `queue_lock`. -/
  queue_lock : ticket_lock
  /-- Global `queue_cond`. -/
  queue_cond : condition_variable

/-- Source: the state after `ticketlock_init(&queue_lock)` and
`condition_variable_init(&queue_cond)` (lines 188, 191), queue empty. -/
def QueueState.init : QueueState :=
  { queue := Queue.empty, queue_lock := ticketlock_init, queue_cond := condition_variable_init }

/-- Source: `enqueue` (lines 45-64) run by a thread alone. -/
def enqueue (s : QueueState) (value : Int) : Option QueueState :=
  match ticketlock_acquire s.queue_lock with
  | none => none
  | some l =>
      match condition_variable_broadcast s.queue_cond with
      | none => none
      | some cv =>
          some { queue := ((s.queue.alloc value).2).link (s.queue.alloc value).1,
                 queue_lock := ticketlock_release l,
                 queue_cond := cv }

/-- A call on the queue. -/
inductive QueueOp
  | enqueue (value : Int)
  | dequeue
  deriving DecidableEq, Repr

/-- Runs a sequence of calls; returns the values the `dequeue` calls returned,
in order, and the final state, or `none` if some call never returns. -/
def runQueue : QueueState → List QueueOp → Option (List Int × QueueState)
  | s, [] => some ([], s)
  | s, QueueOp.enqueue v :: ops =>
      match enqueue s v with
      | none => none
      | some s1 => runQueue s1 ops
  | s, QueueOp.dequeue :: ops =>
      match runQueue { s with queue := (dequeue s.queue).2 } ops with
      | none => none
      | some (out, s2) => some ((dequeue s.queue).1 :: out, s2)

/-- The values stored in the queue, read by following at most `fuel` links
from the block `p`. -/
def walk (heap : Nat → Option node_t) : Nat → Option Nat → List Int
  | 0, _ => []
  | _ + 1, none => []
  | fuel + 1, some a =>
      match heap a with
      | none => []
      | some n => n.value :: walk heap fuel n.next

/-- The values stored in the queue, oldest first. -/
def Queue.contents (q : Queue) : List Int := walk q.heap q.brk q.queue_head

/-- The FIFO list of the specification: `enqueue(v)` appends `v` at the tail;
`dequeue` removes and returns the oldest value, or returns -1 on the empty
list.  Returns the values returned by the `dequeue` calls and the final list. -/
def runFifo : List Int → List QueueOp → List Int × List Int
  | l, [] => ([], l)
  | l, QueueOp.enqueue v :: ops => runFifo (l ++ [v]) ops
  | [], QueueOp.dequeue :: ops => (-1 :: (runFifo [] ops).1, (runFifo [] ops).2)
  | x :: l, QueueOp.dequeue :: ops => (x :: (runFifo l ops).1, (runFifo l ops).2)

/-- The blocks `cells` (address and value, oldest first) form the chain that
starts at pointer `p` and ends with a NULL link. -/
def Linked (heap : Nat → Option node_t) : Option Nat → List (Nat × Int) → Prop
  | p, [] => p = none
  | p, (a, v) :: rest =>
      p = some a ∧ heap a = some { value := v, next := rest.head?.map Prod.fst } ∧
        Linked heap (rest.head?.map Prod.fst) rest

/-- The representation invariant of the queue: the chain from `queue_head` is
`cells`, `queue_tail` is its last block, the blocks are distinct and were all
handed out by `malloc`. -/
structure Queue.Wf (q : Queue) (cells : List (Nat × Int)) : Prop where
  linked : Linked q.heap q.queue_head cells
  tail : q.queue_tail = cells.getLast?.map Prod.fst
  nodup : (cells.map Prod.fst).Nodup
  below : ∀ a ∈ cells.map Prod.fst, a < q.brk

/-! ## task6/cond_var.c : the condition variable, under interleaving -/

namespace Cv

/-- Control points of a thread that uses a condition variable `cv` and the
external lock `ext_lock` it is paired with.  The points named after a line of
`cond_var.c` are about to execute that line; a call of `ticketlock_acquire` is
two control points, drawing the ticket and spinning. -/
inductive Pc
  /-- Outside any call, not holding `ext_lock`. -/
  | idle
  /-- The caller's `ticketlock_acquire(ext_lock)`, drawing the ticket. -/
  | a_draw
  /-- The caller's `ticketlock_acquire(ext_lock)`, spinning. -/
  | a_spin
  /-- Outside any call, holding `ext_lock`. -/
  | holding
  /-- The caller's `ticketlock_release(ext_lock)`. -/
  | u_release
  /-- Line 22 : `ticketlock_acquire(&cv->lock)`, drawing the ticket. -/
  | w22
  /-- Line 22 : `ticketlock_acquire(&cv->lock)`, spinning. -/
  | w22s
  /-- Line 23 : `atomic_fetch_add(&cv->waiting, 1)`. -/
  | w23
  /-- Line 24 : `ticketlock_release(&cv->lock)`. -/
  | w24
  /-- Line 25 : `ticketlock_release(ext_lock)`. -/
  | w25
  /-- Line 26 : `sched_yield()`. -/
  | w26
  /-- Line 27 : `ticketlock_acquire(ext_lock)`, drawing the ticket. -/
  | w27
  /-- Line 27 : `ticketlock_acquire(ext_lock)`, spinning. -/
  | w27s
  /-- Line 36 : `ticketlock_acquire(&cv->lock)`, drawing the ticket. -/
  | g36
  /-- Line 36 : `ticketlock_acquire(&cv->lock)`, spinning. -/
  | g36s
  /-- Line 38 : `if (atomic_load(&cv->waiting) > 0)`. -/
  | g38
  /-- Line 40 : `atomic_fetch_sub(&cv->waiting, 1)`. -/
  | g40
  /-- Line 43 : `ticketlock_release(&cv->lock)`. -/
  | g43
  /-- Line 52 : `ticketlock_acquire(&cv->lock)`, drawing the ticket. -/
  | b52
  /-- Line 52 : `ticketlock_acquire(&cv->lock)`, spinning. -/
  | b52s
  /-- Line 53 : `atomic_store(&cv->waiting, 0)`. -/
  | b53
  /-- Line 54 : `ticketlock_release(&cv->lock)`. -/
  | b54
  deriving DecidableEq, Repr

/-- The private state of a thread. -/
structure Thread where
  /-- Control point. -/
  pc : Pc
  /-- The local `my_ticket` of the `ticketlock_acquire` in progress (or of the
  last one). -/
  my_ticket : Int
  /-- Whether `condition_variable_signal` / `condition_variable_broadcast` was
  called with `ext_lock` held, that is, where the call returns to. -/
  holds : Bool
  deriving DecidableEq, Repr

/-- A condition variable, the external lock, and the threads. -/
structure State where
  /-- The condition variable `cv`. -/
  cv : condition_variable
  /-- The lock `ext_lock`. -/
  ext_lock : ticket_lock
  /-- Private state of each thread. -/
  th : Nat → Thread

/-- What the scheduler may pick.  A thread outside any call acquires `ext_lock`
if it does not hold it, releases it or calls `condition_variable_wait` if it
holds it, or calls `condition_variable_signal` or
`condition_variable_broadcast`; a thread inside a call executes its next
atomic action. -/
inductive Ev
  | lock (i : Nat)
  | unlock (i : Nat)
  | wait (i : Nat)
  | signal (i : Nat)
  | broadcast (i : Nat)
  | step (i : Nat)
  deriving DecidableEq, Repr

/-- Source: `condition_variable_init` and `ticketlock_init(ext_lock)`; no thread
is inside a call. -/
def init : State :=
  { cv := condition_variable_init, ext_lock := ticketlock_init,
    th := fun _ => { pc := Pc.idle, my_ticket := 0, holds := false } }

/-- Thread `i` gets the private state `t`. -/
def State.set (s : State) (i : Nat) (t : Thread) : State :=
  { s with th := Function.update s.th i t }

/-- The control point a signal or broadcast returns to. -/
def Thread.back (t : Thread) : Pc := if t.holds then Pc.holding else Pc.idle

/-- One atomic action of thread `i`, following `condition_variable_wait` (lines
21-28), `condition_variable_signal` (35-44) and `condition_variable_broadcast`
(51-55) of `cond_var.c`. -/
def stepThread (s : State) (i : Nat) : State :=
  match (s.th i).pc with
  | Pc.idle => s
  | Pc.holding => s
  | Pc.a_draw =>
      { s with ext_lock := (ticketlock_draw s.ext_lock).2 }.set i
        { s.th i with pc := Pc.a_spin, my_ticket := (ticketlock_draw s.ext_lock).1 }
  | Pc.a_spin =>
      if ticketlock_served s.ext_lock (s.th i).my_ticket then
        s.set i { s.th i with pc := Pc.holding }
      else s
  | Pc.u_release =>
      { s with ext_lock := ticketlock_release s.ext_lock }.set i { s.th i with pc := Pc.idle }
  | Pc.w22 =>
      { s with cv := { s.cv with lock := (ticketlock_draw s.cv.lock).2 } }.set i
        { s.th i with pc := Pc.w22s, my_ticket := (ticketlock_draw s.cv.lock).1 }
  | Pc.w22s =>
      if ticketlock_served s.cv.lock (s.th i).my_ticket then
        s.set i { s.th i with pc := Pc.w23 }
      else s
  | Pc.w23 =>
      { s with cv := { s.cv with waiting := wrap32 (s.cv.waiting + 1) } }.set i
        { s.th i with pc := Pc.w24 }
  | Pc.w24 =>
      { s with cv := { s.cv with lock := ticketlock_release s.cv.lock } }.set i
        { s.th i with pc := Pc.w25 }
  | Pc.w25 =>
      { s with ext_lock := ticketlock_release s.ext_lock }.set i
        { s.th i with pc := Pc.w26 }
  | Pc.w26 =>
      s.set i { s.th i with pc := Pc.w27 }
  | Pc.w27 =>
      { s with ext_lock := (ticketlock_draw s.ext_lock).2 }.set i
        { s.th i with pc := Pc.w27s, my_ticket := (ticketlock_draw s.ext_lock).1 }
  | Pc.w27s =>
      if ticketlock_served s.ext_lock (s.th i).my_ticket then
        s.set i { s.th i with pc := Pc.holding }
      else s
  | Pc.g36 =>
      { s with cv := { s.cv with lock := (ticketlock_draw s.cv.lock).2 } }.set i
        { s.th i with pc := Pc.g36s, my_ticket := (ticketlock_draw s.cv.lock).1 }
  | Pc.g36s =>
      if ticketlock_served s.cv.lock (s.th i).my_ticket then
        s.set i { s.th i with pc := Pc.g38 }
      else s
  | Pc.g38 =>
      if 0 < s.cv.waiting then s.set i { s.th i with pc := Pc.g40 }
      else s.set i { s.th i with pc := Pc.g43 }
  | Pc.g40 =>
      { s with cv := { s.cv with waiting := wrap32 (s.cv.waiting - 1) } }.set i
        { s.th i with pc := Pc.g43 }
  | Pc.g43 =>
      { s with cv := { s.cv with lock := ticketlock_release s.cv.lock } }.set i
        { s.th i with pc := (s.th i).back }
  | Pc.b52 =>
      { s with cv := { s.cv with lock := (ticketlock_draw s.cv.lock).2 } }.set i
        { s.th i with pc := Pc.b52s, my_ticket := (ticketlock_draw s.cv.lock).1 }
  | Pc.b52s =>
      if ticketlock_served s.cv.lock (s.th i).my_ticket then
        s.set i { s.th i with pc := Pc.b53 }
      else s
  | Pc.b53 =>
      { s with cv := { s.cv with waiting := 0 } }.set i { s.th i with pc := Pc.b54 }
  | Pc.b54 =>
      { s with cv := { s.cv with lock := ticketlock_release s.cv.lock } }.set i
        { s.th i with pc := (s.th i).back }

/-- One scheduler event. -/
def step (s : State) : Ev → State
  | Ev.lock i =>
      if (s.th i).pc = Pc.idle then s.set i { s.th i with pc := Pc.a_draw } else s
  | Ev.unlock i =>
      if (s.th i).pc = Pc.holding then s.set i { s.th i with pc := Pc.u_release } else s
  | Ev.wait i =>
      if (s.th i).pc = Pc.holding then s.set i { s.th i with pc := Pc.w22 } else s
  | Ev.signal i =>
      if (s.th i).pc = Pc.idle then s.set i { s.th i with pc := Pc.g36, holds := false }
      else if (s.th i).pc = Pc.holding then s.set i { s.th i with pc := Pc.g36, holds := true }
      else s
  | Ev.broadcast i =>
      if (s.th i).pc = Pc.idle then s.set i { s.th i with pc := Pc.b52, holds := false }
      else if (s.th i).pc = Pc.holding then s.set i { s.th i with pc := Pc.b52, holds := true }
      else s
  | Ev.step i => stepThread s i

/-- The state after a schedule. -/
def run (s : State) (evs : List Ev) : State := evs.foldl step s

/-- Where a thread stands with respect to `ext_lock`. -/
def Thread.phaseExt (t : Thread) : LockPhase :=
  match t.pc with
  | Pc.a_spin | Pc.w27s => LockPhase.spin t.my_ticket
  | Pc.holding | Pc.u_release | Pc.w22 | Pc.w22s | Pc.w23 | Pc.w24 | Pc.w25 => LockPhase.held
  | Pc.g36 | Pc.g36s | Pc.g38 | Pc.g40 | Pc.g43 | Pc.b52 | Pc.b52s | Pc.b53 | Pc.b54 =>
      if t.holds then LockPhase.held else LockPhase.out
  | _ => LockPhase.out

/-- Where a thread stands with respect to the internal lock `cv->lock`. -/
def Thread.phaseInt (t : Thread) : LockPhase :=
  match t.pc with
  | Pc.w22s | Pc.g36s | Pc.b52s => LockPhase.spin t.my_ticket
  | Pc.w23 | Pc.w24 | Pc.g38 | Pc.g40 | Pc.g43 | Pc.b53 | Pc.b54 => LockPhase.held
  | _ => LockPhase.out

/-- The invariant of the reachable states: both ticket locks are used as
ticket locks. -/
structure Inv (s : State) : Prop where
  ext : TicketInv s.ext_lock (Thread.phaseExt ∘ s.th)
  int : TicketInv s.cv.lock (Thread.phaseInt ∘ s.th)

/-- The events of one whole call of `condition_variable_wait` by thread `i`
when both acquisitions succeed at the first test. -/
def waitCall (i : Nat) : List Ev :=
  [Ev.wait i, Ev.step i, Ev.step i, Ev.step i, Ev.step i, Ev.step i, Ev.step i, Ev.step i,
   Ev.step i]

/-- The thread an event belongs to. -/
def Ev.tid : Ev → Nat
  | Ev.lock i => i
  | Ev.unlock i => i
  | Ev.wait i => i
  | Ev.signal i => i
  | Ev.broadcast i => i
  | Ev.step i => i

end Cv
/-! ## task6/cond_var.c : the waiter counter -/

namespace Cv

/-- The events of one whole call of `condition_variable_signal` by thread `i`
that finds the internal lock free: the call, the draw, the test of the ticket,
line 38, line 40 and line 43 (when line 38 finds no waiter line 40 is skipped
and the last event finds the thread outside the call and does nothing). -/
def signalCall (i : Nat) : List Ev :=
  [Ev.signal i, Ev.step i, Ev.step i, Ev.step i, Ev.step i, Ev.step i]

/-- The events of one whole call of `condition_variable_broadcast` by thread
`i` that finds the internal lock free. -/
def broadcastCall (i : Nat) : List Ev :=
  [Ev.broadcast i, Ev.step i, Ev.step i, Ev.step i, Ev.step i]

/-- The events of one whole `ticketlock_acquire(ext_lock)` by thread `i` that
finds the lock free. -/
def lockCall (i : Nat) : List Ev := [Ev.lock i, Ev.step i, Ev.step i]

/-- The events of `n` whole calls of `condition_variable_wait` by thread `i`,
one after the other. -/
def waitCalls (i : Nat) : Nat → List Ev
  | 0 => []
  | n + 1 => waitCalls i n ++ waitCall i

/-- What holds of the counter `waiting` in every reachable state: it is an
`int`, and a signal that has found it positive (line 38) and is about to
decrement it (line 40) still finds it positive. -/
structure CountInv (s : State) : Prop where
  range : INT_MIN ≤ s.cv.waiting ∧ s.cv.waiting ≤ INT_MAX
  pos : ∀ i, (s.th i).pc = Pc.g40 → 0 < s.cv.waiting

/-- Calls of `condition_variable_wait`. -/
def Ev.isWait : Ev → Bool
  | Ev.wait _ => true
  | _ => false

/-- The number of calls of `condition_variable_wait` in a schedule. -/
def waitsIssued (evs : List Ev) : Nat := (evs.filter Ev.isWait).length

/-- The control points of a wait that has not yet incremented the counter. -/
def Pc.toIncrement : Pc → Bool
  | Pc.w22 | Pc.w22s | Pc.w23 => true
  | _ => false

/-- The counter is not negative and, together with the waits that have still
to increment it, does not exceed `n`. -/
def Budget (s : State) (n : Nat) : Prop :=
  0 ≤ s.cv.waiting ∧
  ∃ c : Int, Counted (fun j => (s.th j).pc.toIncrement) c ∧ s.cv.waiting + c ≤ n

end Cv
/-! ## task6/cp_pattern.c : the producer-consumer pipeline, under interleaving -/

namespace Cp

/-- Source: `#define MAX_NUMBER 1000000` (line 9). -/
def MAX_NUMBER : Nat := 1000000

/-- The threads of the program: the main thread, the producers and the
consumers, numbered by their `id`. -/
inductive Tid
  | main
  | prod (id : Nat)
  | cons (id : Nat)
  deriving DecidableEq, Repr

/-- Control points; the number in a name is the source line of `cp_pattern.c`
about to be executed (of `cond_var.c` for `w22`-`w27` and for the names ending
in `b52`-`b54`).  A call of `ticketlock_acquire` is two control points, drawing
the ticket and spinning (suffix `s`).  Prefixes: `p` producer loop and exit, `e`
`enqueue`, `eb` its broadcast, `pm` the producer's `print_msg`, `xb` the
broadcast of the last producer, `c` consumer, `w` `condition_variable_wait`,
`cm` the consumer's `print_msg`, `m` main, `s` `stop_consumers`, `sb` its
broadcast, `j` the joins. -/
inductive Pc
  | absent
  | p99 | p101 | p101s | p102 | p104 | p105 | p108 | p112 | p113 | p114
  | e47 | e51 | e51s | e53 | eb52 | eb52s | eb53 | eb54 | e63
  | pm228 | pm228s | pm229 | pm230
  | p120 | p125 | p127 | p127s | p128 | xb52 | xb52s | xb53 | xb54 | p130 | p_done
  | c148 | c148s | c150 | c151 | c152
  | w22 | w22s | w23 | w24 | w25 | w26 | w27 | w27s
  | c157 | c158 | cm228 | cm228s | cm229 | cm230 | c_done
  | m240 | m252 | m252s | m253 | m254 | m257
  | s215 | s215s | s216 | sb52 | sb52s | sb53 | sb54 | s218
  | j294 | j299 | m314 | m_done
  deriving DecidableEq, Repr

/-- A line written through `print_msg`. -/
inductive Msg
  /-- "Producer id generated number: number". -/
  | generated (id : Nat) (number : Nat)
  /-- "Consumer id checked value. Is it divisible by 6? is_divisible". -/
  | checked (id : Nat) (value : Int) (is_divisible : Bool)
  deriving DecidableEq, Repr

/-- The locals of a thread. -/
structure Thread where
  /-- Control point. -/
  pc : Pc
  /-- Local `number` of `producer_thread`. -/
  number : Nat
  /-- Local `count` of `producer_thread`. -/
  count : Int
  /-- Local `my_ticket` of the `ticketlock_acquire` in progress. -/
  my_ticket : Int
  /-- Local `new_node` of `enqueue`. -/
  new_node : Nat
  /-- Local `value` of `consumer_thread`. -/
  value : Int
  /-- Local `i` of the join loops of `main`. -/
  i : Nat
  /-- Value of the test of line 125 : this producer's increment of
  `producers_finished` reached `total_producers`. -/
  last : Bool
  /-- History : this thread has executed line 128. -/
  set_done : Bool
  deriving DecidableEq, Repr

/-- The globals of `cp_pattern.c`, the standard output, and the threads. -/
structure State where
  /-- Global `generated_flags`. -/
  generated_flags : Nat → Bool
  /-- Global `generated_count`. -/
  generated_count : Int
  /-- Global `generated_flags_lock`. -/
  generated_flags_lock : ticket_lock
  /-- Globals `queue_head`, `queue_tail` and the nodes. -/
  queue : Queue
  /-- Global `queue_lock`. -/
  queue_lock : ticket_lock
  /-- Global `queue_cond`. -/
  queue_cond : condition_variable
  /-- Global `print_lock`. -/
  print_lock : ticket_lock
  /-- Global `producers_done`. -/
  producers_done : Int
  /-- Global `producers_finished`. -/
  producers_finished : Int
  /-- Global `total_producers`. -/
  total_producers : Int
  /-- Local `producers` of `main`. -/
  producers : Nat
  /-- Local `consumers` of `main`. -/
  consumers : Nat
  /-- Lines written through `print_msg`, oldest first. -/
  out : List Msg
  /-- History : the numbers linked into the queue at line 53-60, oldest first. -/
  enqueued : List Nat
  /-- History : the values returned by `dequeue` at line 157, oldest first. -/
  dequeued : List Int
  /-- Locals of each thread. -/
  th : Tid → Thread

/-- What the scheduler may pick: a thread executes its next atomic action, or
the producer `id` standing at line 99 gets `r` from `rand()`. -/
inductive Ev
  | step (t : Tid)
  | rand (id : Nat) (r : Nat)
  deriving DecidableEq, Repr

/-- The locals of a thread that starts at `pc`. -/
def Thread.start (pc : Pc) : Thread :=
  { pc := pc, number := 0, count := 0, my_ticket := 0, new_node := 0, value := 0, i := 0,
    last := false, set_done := false }

/-- Source: the state when `start_consumers_producers(consumers, producers, seed)`
(lines 178-207) has returned and no created thread has moved yet: the globals
have their initial values, `total_producers = producers`, the locks and the
condition variable are initialised, `producers` producers stand at line 99,
`consumers` consumers at line 148, and main is about to enter
`wait_until_producers_produced_all_numbers`. -/
def init (producers consumers : Nat) : State :=
  { generated_flags := fun _ => false, generated_count := 0,
    generated_flags_lock := ticketlock_init,
    queue := Queue.empty, queue_lock := ticketlock_init,
    queue_cond := condition_variable_init, print_lock := ticketlock_init,
    producers_done := 0, producers_finished := 0, total_producers := producers,
    producers := producers, consumers := consumers,
    out := [], enqueued := [], dequeued := [],
    th := fun t =>
      match t with
      | Tid.main => Thread.start Pc.m240
      | Tid.prod k => if k < producers then Thread.start Pc.p99 else Thread.start Pc.absent
      | Tid.cons k => if k < consumers then Thread.start Pc.c148 else Thread.start Pc.absent }

/-- The `id` a thread received as argument. -/
def Tid.id : Tid → Nat
  | Tid.main => 0
  | Tid.prod k => k
  | Tid.cons k => k

/-- Thread `t` gets the locals `x`. -/
def State.set (s : State) (t : Tid) (x : Thread) : State :=
  { s with th := Function.update s.th t x }

/-- Thread `t` moves to control point `p`. -/
def State.goto (s : State) (t : Tid) (p : Pc) : State :=
  s.set t { s.th t with pc := p }

/-- Thread `t` draws a ticket of the lock it is about to acquire and moves to
the spinning point `p`; `l` is the lock as it was before the draw. -/
def State.drawn (s : State) (t : Tid) (l : ticket_lock) (p : Pc) : State :=
  s.set t { s.th t with pc := p, my_ticket := (ticketlock_draw l).1 }

/-- One atomic action of thread `t`, for the domain size `D` (`MAX_NUMBER`),
following `producer_thread` (lines 96-133) with `enqueue` (45-64) and
`print_msg` (227-231), `consumer_thread` (144-167) with
`condition_variable_wait` and `dequeue`, and `main` (281-314) with
`wait_until_producers_produced_all_numbers` (238-243),
`wait_consumers_queue_empty` (250-260) and `stop_consumers` (214-219). -/
def stepThread (D : Nat) (s : State) (t : Tid) : State :=
  match (s.th t).pc with
  | Pc.absent => s
  -- producer_thread
  | Pc.p99 => s
  | Pc.p101 =>
      { s with generated_flags_lock := (ticketlock_draw s.generated_flags_lock).2 }.drawn t
        s.generated_flags_lock Pc.p101s
  | Pc.p101s =>
      if ticketlock_served s.generated_flags_lock (s.th t).my_ticket then s.goto t Pc.p102 else s
  | Pc.p102 =>
      if s.generated_flags (s.th t).number = true then s.goto t Pc.p104 else s.goto t Pc.p112
  | Pc.p104 => if (D : Int) ≤ s.generated_count then s.goto t Pc.p105 else s.goto t Pc.p108
  | Pc.p105 =>
      { s with generated_flags_lock := ticketlock_release s.generated_flags_lock }.goto t Pc.p125
  | Pc.p108 =>
      { s with generated_flags_lock := ticketlock_release s.generated_flags_lock }.goto t Pc.p99
  | Pc.p112 =>
      { s with generated_flags := Function.update s.generated_flags (s.th t).number true }.goto t
        Pc.p113
  | Pc.p113 =>
      { s with generated_count := s.generated_count + 1 }.set t
        { s.th t with pc := Pc.p114, count := s.generated_count + 1 }
  | Pc.p114 =>
      { s with generated_flags_lock := ticketlock_release s.generated_flags_lock }.goto t Pc.e47
  -- enqueue(number)
  | Pc.e47 =>
      { s with queue := (s.queue.alloc (s.th t).number).2 }.set t
        { s.th t with pc := Pc.e51, new_node := (s.queue.alloc (s.th t).number).1 }
  | Pc.e51 =>
      { s with queue_lock := (ticketlock_draw s.queue_lock).2 }.drawn t s.queue_lock Pc.e51s
  | Pc.e51s => if ticketlock_served s.queue_lock (s.th t).my_ticket then s.goto t Pc.e53 else s
  | Pc.e53 =>
      { s with queue := s.queue.link (s.th t).new_node,
               enqueued := s.enqueued ++ [(s.th t).number] }.goto t Pc.eb52
  | Pc.eb52 =>
      { s with queue_cond := { s.queue_cond with lock := (ticketlock_draw s.queue_cond.lock).2 } }.drawn
        t s.queue_cond.lock Pc.eb52s
  | Pc.eb52s =>
      if ticketlock_served s.queue_cond.lock (s.th t).my_ticket then s.goto t Pc.eb53 else s
  | Pc.eb53 => { s with queue_cond := { s.queue_cond with waiting := 0 } }.goto t Pc.eb54
  | Pc.eb54 =>
      { s with queue_cond :=
          { s.queue_cond with lock := ticketlock_release s.queue_cond.lock } }.goto t Pc.e63
  | Pc.e63 => { s with queue_lock := ticketlock_release s.queue_lock }.goto t Pc.pm228
  -- print_msg(msg)
  | Pc.pm228 =>
      { s with print_lock := (ticketlock_draw s.print_lock).2 }.drawn t s.print_lock Pc.pm228s
  | Pc.pm228s => if ticketlock_served s.print_lock (s.th t).my_ticket then s.goto t Pc.pm229 else s
  | Pc.pm229 => { s with out := s.out ++ [Msg.generated t.id (s.th t).number] }.goto t Pc.pm230
  | Pc.pm230 => { s with print_lock := ticketlock_release s.print_lock }.goto t Pc.p120
  | Pc.p120 => if (D : Int) ≤ (s.th t).count then s.goto t Pc.p125 else s.goto t Pc.p99
  -- after the loop
  | Pc.p125 =>
      if s.producers_finished + 1 = s.total_producers then
        { s with producers_finished := s.producers_finished + 1 }.set t
          { s.th t with pc := Pc.p127, last := true }
      else
        { s with producers_finished := s.producers_finished + 1 }.goto t Pc.p_done
  | Pc.p127 =>
      { s with queue_lock := (ticketlock_draw s.queue_lock).2 }.drawn t s.queue_lock Pc.p127s
  | Pc.p127s => if ticketlock_served s.queue_lock (s.th t).my_ticket then s.goto t Pc.p128 else s
  | Pc.p128 =>
      { s with producers_done := 1 }.set t { s.th t with pc := Pc.xb52, set_done := true }
  | Pc.xb52 =>
      { s with queue_cond := { s.queue_cond with lock := (ticketlock_draw s.queue_cond.lock).2 } }.drawn
        t s.queue_cond.lock Pc.xb52s
  | Pc.xb52s =>
      if ticketlock_served s.queue_cond.lock (s.th t).my_ticket then s.goto t Pc.xb53 else s
  | Pc.xb53 => { s with queue_cond := { s.queue_cond with waiting := 0 } }.goto t Pc.xb54
  | Pc.xb54 =>
      { s with queue_cond :=
          { s.queue_cond with lock := ticketlock_release s.queue_cond.lock } }.goto t Pc.p130
  | Pc.p130 => { s with queue_lock := ticketlock_release s.queue_lock }.goto t Pc.p_done
  | Pc.p_done => s
  -- consumer_thread
  | Pc.c148 =>
      { s with queue_lock := (ticketlock_draw s.queue_lock).2 }.drawn t s.queue_lock Pc.c148s
  | Pc.c148s => if ticketlock_served s.queue_lock (s.th t).my_ticket then s.goto t Pc.c150 else s
  | Pc.c150 => if s.queue.queue_head = none then s.goto t Pc.c151 else s.goto t Pc.c157
  | Pc.c151 => if s.producers_done ≠ 0 then s.goto t Pc.c152 else s.goto t Pc.w22
  | Pc.c152 => { s with queue_lock := ticketlock_release s.queue_lock }.goto t Pc.c_done
  -- condition_variable_wait(&queue_cond, &queue_lock)
  | Pc.w22 =>
      { s with queue_cond := { s.queue_cond with lock := (ticketlock_draw s.queue_cond.lock).2 } }.drawn
        t s.queue_cond.lock Pc.w22s
  | Pc.w22s =>
      if ticketlock_served s.queue_cond.lock (s.th t).my_ticket then s.goto t Pc.w23 else s
  | Pc.w23 =>
      { s with queue_cond :=
          { s.queue_cond with waiting := wrap32 (s.queue_cond.waiting + 1) } }.goto t Pc.w24
  | Pc.w24 =>
      { s with queue_cond :=
          { s.queue_cond with lock := ticketlock_release s.queue_cond.lock } }.goto t Pc.w25
  | Pc.w25 => { s with queue_lock := ticketlock_release s.queue_lock }.goto t Pc.w26
  | Pc.w26 => s.goto t Pc.w27
  | Pc.w27 =>
      { s with queue_lock := (ticketlock_draw s.queue_lock).2 }.drawn t s.queue_lock Pc.w27s
  | Pc.w27s => if ticketlock_served s.queue_lock (s.th t).my_ticket then s.goto t Pc.c150 else s
  | Pc.c157 =>
      { s with queue := (dequeue s.queue).2,
               dequeued := s.dequeued ++ [(dequeue s.queue).1] }.set t
        { s.th t with pc := Pc.c158, value := (dequeue s.queue).1 }
  | Pc.c158 => { s with queue_lock := ticketlock_release s.queue_lock }.goto t Pc.cm228
  | Pc.cm228 =>
      { s with print_lock := (ticketlock_draw s.print_lock).2 }.drawn t s.print_lock Pc.cm228s
  | Pc.cm228s => if ticketlock_served s.print_lock (s.th t).my_ticket then s.goto t Pc.cm229 else s
  | Pc.cm229 =>
      { s with out := s.out ++
          [Msg.checked t.id (s.th t).value (decide ((s.th t).value % 6 = 0))] }.goto t Pc.cm230
  | Pc.cm230 => { s with print_lock := ticketlock_release s.print_lock }.goto t Pc.c148
  | Pc.c_done => s
  -- main
  | Pc.m240 => if s.generated_count < (D : Int) then s else s.goto t Pc.m252
  | Pc.m252 =>
      { s with queue_lock := (ticketlock_draw s.queue_lock).2 }.drawn t s.queue_lock Pc.m252s
  | Pc.m252s => if ticketlock_served s.queue_lock (s.th t).my_ticket then s.goto t Pc.m253 else s
  | Pc.m253 => if s.queue.queue_head = none then s.goto t Pc.m254 else s.goto t Pc.m257
  | Pc.m254 => { s with queue_lock := ticketlock_release s.queue_lock }.goto t Pc.s215
  | Pc.m257 => { s with queue_lock := ticketlock_release s.queue_lock }.goto t Pc.m252
  -- stop_consumers()
  | Pc.s215 =>
      { s with queue_lock := (ticketlock_draw s.queue_lock).2 }.drawn t s.queue_lock Pc.s215s
  | Pc.s215s => if ticketlock_served s.queue_lock (s.th t).my_ticket then s.goto t Pc.s216 else s
  | Pc.s216 => { s with producers_done := 1 }.goto t Pc.sb52
  | Pc.sb52 =>
      { s with queue_cond := { s.queue_cond with lock := (ticketlock_draw s.queue_cond.lock).2 } }.drawn
        t s.queue_cond.lock Pc.sb52s
  | Pc.sb52s =>
      if ticketlock_served s.queue_cond.lock (s.th t).my_ticket then s.goto t Pc.sb53 else s
  | Pc.sb53 => { s with queue_cond := { s.queue_cond with waiting := 0 } }.goto t Pc.sb54
  | Pc.sb54 =>
      { s with queue_cond :=
          { s.queue_cond with lock := ticketlock_release s.queue_cond.lock } }.goto t Pc.s218
  | Pc.s218 =>
      { s with queue_lock := ticketlock_release s.queue_lock }.set t
        { s.th t with pc := Pc.j294, i := 0 }
  -- the joins
  | Pc.j294 =>
      if (s.th t).i < s.producers then
        if (s.th (Tid.prod (s.th t).i)).pc = Pc.p_done then
          s.set t { s.th t with i := (s.th t).i + 1 }
        else s
      else s.set t { s.th t with pc := Pc.j299, i := 0 }
  | Pc.j299 =>
      if (s.th t).i < s.consumers then
        if (s.th (Tid.cons (s.th t).i)).pc = Pc.c_done then
          s.set t { s.th t with i := (s.th t).i + 1 }
        else s
      else s.goto t Pc.m314
  | Pc.m314 => s.goto t Pc.m_done
  | Pc.m_done => s

/-- One scheduler event. -/
def step (D : Nat) (s : State) : Ev → State
  | Ev.step t => stepThread D s t
  | Ev.rand id r =>
      if (s.th (Tid.prod id)).pc = Pc.p99 then
        s.set (Tid.prod id) { s.th (Tid.prod id) with pc := Pc.p101, number := r % D }
      else s

/-- The state after a schedule. -/
def run (D : Nat) (s : State) (evs : List Ev) : State := evs.foldl (step D) s

end Cp

/-! ## The pipeline: views of a thread and invariants -/

namespace Cp

/-- The control points of `producer_thread` and of the functions it calls. -/
def Pc.isProd : Pc → Bool
  | Pc.p99 | Pc.p101 | Pc.p101s | Pc.p102 | Pc.p104 | Pc.p105 | Pc.p108 | Pc.p112 | Pc.p113
  | Pc.p114 | Pc.e47 | Pc.e51 | Pc.e51s | Pc.e53 | Pc.eb52 | Pc.eb52s | Pc.eb53 | Pc.eb54
  | Pc.e63 | Pc.pm228 | Pc.pm228s | Pc.pm229 | Pc.pm230 | Pc.p120 | Pc.p125 | Pc.p127
  | Pc.p127s | Pc.p128 | Pc.xb52 | Pc.xb52s | Pc.xb53 | Pc.xb54 | Pc.p130 | Pc.p_done => true
  | _ => false

/-- The producer has executed its increment of `producers_finished` (line 125). -/
def Pc.past : Pc → Bool
  | Pc.p127 | Pc.p127s | Pc.p128 | Pc.xb52 | Pc.xb52s | Pc.xb53 | Pc.xb54 | Pc.p130
  | Pc.p_done => true
  | _ => false

/-- Between the test of line 125 and the store of line 128. -/
def Pc.beforeSet : Pc → Bool
  | Pc.p127 | Pc.p127s | Pc.p128 => true
  | _ => false

/-- Between the store of line 128 and the return of the thread. -/
def Pc.afterSet : Pc → Bool
  | Pc.xb52 | Pc.xb52s | Pc.xb53 | Pc.xb54 | Pc.p130 => true
  | _ => false

/-- What the locals of a thread satisfy as far as the termination handshake is
concerned. -/
structure Thread.TermOk (x : Thread) : Prop where
  last_past : x.last = true → x.pc.past = true
  before : x.pc.beforeSet = true → x.last = true ∧ x.set_done = false
  after : x.pc.afterSet = true → x.last = true ∧ x.set_done = true
  set_last : x.set_done = true → x.last = true
  done_set : x.pc = Pc.p_done → x.last = true → x.set_done = true
  past_prod : x.pc.past = true → x.pc.isProd = true

/-- The invariant of the termination handshake, for `P` producers. -/
structure TermInv (P : Nat) (s : State) : Prop where
  loc : ∀ t, (s.th t).TermOk
  fin : Counted (fun t => (s.th t).pc.past) s.producers_finished
  prods : ∀ t, (s.th t).pc.isProd = true → ∃ k, k < P ∧ t = Tid.prod k
  last_fin : ∀ t, (s.th t).last = true → s.producers_finished = P
  last_uniq : ∀ t1 t2, (s.th t1).last = true → (s.th t2).last = true → t1 = t2
  fin_last : s.producers_finished = P → 1 ≤ P → ∃ t, (s.th t).last = true
  set_flag : ∀ t, (s.th t).set_done = true → s.producers_done = 1
  total : s.total_producers = P

/-- A whole run of producer 0 alone when the domain has one value. -/
def soloRun : List Ev := Ev.rand 0 0 :: List.replicate 29 (Ev.step (Tid.prod 0))

end Cp

/-! ## The pipeline: particular schedules -/

namespace Cp

/-- The events of one whole iteration of the loop of producer 0 that draws the
number `n`, finds it new, and finds every lock free. -/
def prodIter (n : Nat) : List Ev :=
  Ev.rand 0 n :: List.replicate 20 (Ev.step (Tid.prod 0))

/-- The events of one whole iteration of the loop of consumer 0 that finds the
queue non-empty and every lock free. -/
def consIter : List Ev := List.replicate 9 (Ev.step (Tid.cons 0))

/-- Producer 0 generates 0, 1, ..., `n - 1` in this order and consumer 0
consumes each number right after it was enqueued. -/
def pipeUpTo : Nat → List Ev
  | 0 => []
  | n + 1 => pipeUpTo n ++ (prodIter n ++ consIter)

/-- Producer 0 draws `n`, finds it new, stores its flag, increments
`generated_count` and releases `generated_flags_lock`: it stands at the entry
of `enqueue`. -/
def flagOnly (n : Nat) : List Ev :=
  Ev.rand 0 n :: List.replicate 6 (Ev.step (Tid.prod 0))

/-- The schedule of the lost value, for one producer and one consumer.  The
first `D - 1` numbers go through the queue.  The producer flags the last
number and increments `generated_count` to `D` (up to line 114).  Main leaves
`wait_until_producers_produced_all_numbers`, finds the queue empty in
`wait_consumers_queue_empty`, runs `stop_consumers` (13 events).  The consumer
finds the queue empty and `producers_done` set, and returns (5 events).  The
producer enqueues the last number, prints, and returns after the handshake
(23 events).  Main joins both threads and exits (5 events). -/
def lossRun (D : Nat) : List Ev :=
  pipeUpTo (D - 1) ++ flagOnly (D - 1) ++ List.replicate 13 (Ev.step Tid.main) ++
    List.replicate 5 (Ev.step (Tid.cons 0)) ++ List.replicate 23 (Ev.step (Tid.prod 0)) ++
    List.replicate 5 (Ev.step Tid.main)

/-- Producer 0 stands at the top of its loop, the numbers below `n` have been
generated and enqueued in order, no other flag is set and every lock is
free. -/
structure Fresh (n : Nat) (s : State) : Prop where
  pp : (s.th (Tid.prod 0)).pc = Pc.p99
  cnt : s.generated_count = n
  flags : ∀ m, n ≤ m → s.generated_flags m = false
  fl : s.generated_flags_lock.ticket = s.generated_flags_lock.cur_ticket
  ql : s.queue_lock.ticket = s.queue_lock.cur_ticket
  cl : s.queue_cond.lock.ticket = s.queue_cond.lock.cur_ticket
  pl : s.print_lock.ticket = s.print_lock.cur_ticket
  enq : s.enqueued = List.range n

/-- One producer, one consumer and main stand at the top of their loops, the
numbers below `n` went through the queue, which is empty, and the shutdown
has not begun. -/
structure Quiet (n : Nat) (s : State) : Prop where
  fresh : Fresh n s
  cp : (s.th (Tid.cons 0)).pc = Pc.c148
  mp : (s.th Tid.main).pc = Pc.m240
  qh : s.queue.queue_head = none
  qt : s.queue.queue_tail = none
  pd : s.producers_done = 0
  pf : s.producers_finished = 0
  tp : s.total_producers = 1
  np : s.producers = 1
  nc : s.consumers = 1
  deq : s.dequeued = (List.range n).map Int.ofNat

end Cp

/-! ## The pipeline: leaving the generation loop -/

namespace Cp

/-- The producer has left its generation loop: it is about to `break` at line
106 (the lock of line 105 still to release), or stands after the loop. -/
def Pc.left : Pc → Bool
  | Pc.p105 | Pc.p125 => true
  | p => p.past

end Cp
/-! ## task5/local_storage.c : the thread-slot table

`local_storage.h`, which declares `tls_data_t` and `MAX_THREADS`, is not among
the sources.  The functions are read sequentially: every one of them runs
between `ticketlock_acquire(&tls_lock)` and `ticketlock_release(&tls_lock)`. -/

namespace Tls

/-- The null pointer. -/
def NULL : Nat := 0

/-- Modelled from the spec: the struct `tls_data_t`, whose declaration is
missing, with the two fields `local_storage.c` reads and writes: "each entry
holds a thread ID (-1 if unused) and a data pointer" (lines 8-12).  A pointer
is an address, `NULL` being 0. -/
structure tls_data_t where
  /-- Field `thread_id` (an `int64_t`). -/
  thread_id : Int
  /-- Field `data` (a `void*`). -/
  data : Nat
  deriving DecidableEq, Repr

/-- The globals of `local_storage.c`.  The length of `g_tls` is `MAX_THREADS`,
whose value is missing: the table is "fixed-capacity" and every statement
below holds for every capacity. -/
structure Storage where
  /-- Global `tls_lock`. -/
  tls_lock : ticket_lock
  /-- Global `g_tls`. -/
  g_tls : List tls_data_t
  deriving DecidableEq, Repr

/-- How a call ends: it returns `v`, or the process terminates through
`exit(status)`, or the call spins for ever in `ticketlock_acquire`; with the
globals as the call leaves them. -/
inductive Outcome (α : Type)
  | returned (v : α) (s : Storage)
  | exited (status : Int) (s : Storage)
  | blocked
  deriving DecidableEq, Repr

/-- Source: `init_storage` (lines 20-26), for a table of `MAX_THREADS` slots. -/
def init_storage (MAX_THREADS : Nat) : Storage :=
  { tls_lock := ticketlock_init,
    g_tls := List.replicate MAX_THREADS { thread_id := -1, data := NULL } }

/-- Source: the loops `for (int i = 0; i < MAX_THREADS; i++) if
(g_tls[i].thread_id == id) ...` of lines 38, 45, 68, 93 and 117: the first
index `i` whose slot holds `id`, if there is one. -/
def find_slot : List tls_data_t → Int → Option Nat
  | [], _ => none
  | x :: g, id => if x.thread_id = id then some 0 else (find_slot g id).map (· + 1)

/-- The slot `g_tls[i]`. -/
def slot (g : List tls_data_t) (i : Nat) : tls_data_t :=
  g.getD i { thread_id := -1, data := NULL }

/-- The table after a store into the slot `g_tls[i]`, which becomes `f g_tls[i]`. -/
def store : List tls_data_t → Nat → (tls_data_t → tls_data_t) → List tls_data_t
  | [], _, _ => []
  | x :: g, 0, f => f x :: g
  | x :: g, i + 1, f => x :: store g i f

/-- Source: `tls_thread_alloc` (lines 34-55) called by the thread `tid`.  The
path of line 53 leaves through `exit(1)` without releasing the lock. -/
def tls_thread_alloc (s : Storage) (tid : Int) : Outcome Unit :=
  match ticketlock_acquire s.tls_lock with
  | none => Outcome.blocked
  | some l =>
      match find_slot s.g_tls tid with
      | some _ => Outcome.returned () { tls_lock := ticketlock_release l, g_tls := s.g_tls }
      | none =>
          match find_slot s.g_tls (-1) with
          | some i =>
              Outcome.returned ()
                { tls_lock := ticketlock_release l,
                  g_tls := store s.g_tls i fun x => { x with thread_id := tid } }
          | none => Outcome.exited 1 { tls_lock := l, g_tls := s.g_tls }

/-- Source: `get_tls_data` (lines 64-79) called by the thread `tid`. -/
def get_tls_data (s : Storage) (tid : Int) : Outcome Nat :=
  match ticketlock_acquire s.tls_lock with
  | none => Outcome.blocked
  | some l =>
      match find_slot s.g_tls tid with
      | some i =>
          Outcome.returned (slot s.g_tls i).data
            { tls_lock := ticketlock_release l, g_tls := s.g_tls }
      | none => Outcome.exited 2 { tls_lock := ticketlock_release l, g_tls := s.g_tls }

/-- Source: `set_tls_data` (lines 89-104) called by the thread `tid`. -/
def set_tls_data (s : Storage) (tid : Int) (data : Nat) : Outcome Unit :=
  match ticketlock_acquire s.tls_lock with
  | none => Outcome.blocked
  | some l =>
      match find_slot s.g_tls tid with
      | some i =>
          Outcome.returned ()
            { tls_lock := ticketlock_release l,
              g_tls := store s.g_tls i fun x => { x with data := data } }
      | none => Outcome.exited 2 { tls_lock := ticketlock_release l, g_tls := s.g_tls }

/-- Source: `tls_thread_free` (lines 113-129) called by the thread `tid`. -/
def tls_thread_free (s : Storage) (tid : Int) : Outcome Unit :=
  match ticketlock_acquire s.tls_lock with
  | none => Outcome.blocked
  | some l =>
      match find_slot s.g_tls tid with
      | some i =>
          Outcome.returned ()
            { tls_lock := ticketlock_release l,
              g_tls := store s.g_tls i fun _ => { thread_id := -1, data := NULL } }
      | none => Outcome.exited 2 { tls_lock := ticketlock_release l, g_tls := s.g_tls }

/-- A call of one of the four functions. -/
inductive Call
  | alloc
  | set (data : Nat)
  | get
  | free
  deriving DecidableEq, Repr

/-- The globals after a call that returns; `none` when the call does not
return. -/
def Outcome.after {α : Type} : Outcome α → Option Storage
  | Outcome.returned _ s => some s
  | Outcome.exited _ _ => none
  | Outcome.blocked => none

/-- The call `c` by the thread `tid`. -/
def call (s : Storage) (tid : Int) : Call → Option Storage
  | Call.alloc => (tls_thread_alloc s tid).after
  | Call.set data => (set_tls_data s tid data).after
  | Call.get => (get_tls_data s tid).after
  | Call.free => (tls_thread_free s tid).after

/-- The globals after a sequence of calls, each given with the calling thread,
all of which return; `none` when one of them does not return (the process
has terminated, or the call spins for ever). -/
def runCalls : Storage → List (Int × Call) → Option Storage
  | s, [] => some s
  | s, (tid, c) :: cs =>
      match call s tid c with
      | none => none
      | some s1 => runCalls s1 cs

/-- Following the claim's words, what the thread `tid` is owed after one more
call, `st` being what it was owed before: `none` when it owns no slot, `some p`
when it owns one and `p` is the pointer it most recently passed to
`set_tls_data` since its allocation (`NULL` if it has set none). -/
def track (tid : Int) (st : Option Nat) (c : Int × Call) : Option Nat :=
  if c.1 = tid then
    match c.2 with
    | Call.alloc => match st with
        | none => some NULL
        | some p => some p
    | Call.set data => st.map fun _ => data
    | Call.get => st
    | Call.free => none
  else st

/-- Following the claim's words, what the thread `tid` is owed after the calls
`cs`, none of which failed, starting from the empty table. -/
def lastSet (tid : Int) (cs : List (Int × Call)) : Option Nat :=
  cs.foldl (track tid) none

/-- The pointer stored for the thread `tid` : the `data` of the first slot that
holds `tid`, if there is one. -/
def owner_data (g : List tls_data_t) (tid : Int) : Option Nat :=
  (find_slot g tid).map fun i => (slot g i).data

/-- The invariant of the states reached by the calls `h` of threads other
than -1: the lock is free, no thread id occupies two slots, a free slot holds
no pointer, and every thread finds what it is owed. -/
structure TlsInv (h : List (Int × Call)) (s : Storage) : Prop where
  lock_free : s.tls_lock.ticket = s.tls_lock.cur_ticket
  uniq : ∀ i j, i < s.g_tls.length → j < s.g_tls.length →
    (slot s.g_tls i).thread_id = (slot s.g_tls j).thread_id →
    (slot s.g_tls i).thread_id ≠ -1 → i = j
  free_null : ∀ i, i < s.g_tls.length → (slot s.g_tls i).thread_id = -1 →
    (slot s.g_tls i).data = NULL
  owed : ∀ tid, tid ≠ -1 → owner_data s.g_tls tid = lastSet tid h

end Tls
/-! ## Theorems: the C type `int` -/

/-- A result within the range of `int` is stored as it is. -/
theorem wrap32_id (x : Int) (h1 : INT_MIN ≤ x) (h2 : x ≤ INT_MAX) : wrap32 x = x := by
  unfold wrap32 INT_MIN INT_MAX at *
  omega

/-- What an `atomic_int` holds is within the range of `int`. -/
theorem wrap32_range (x : Int) : INT_MIN ≤ wrap32 x ∧ wrap32 x ≤ INT_MAX := by
  unfold wrap32 INT_MIN INT_MAX
  omega

/-- One more than `INT_MAX` is stored as `INT_MIN`. -/
theorem wrap32_overflow : wrap32 (INT_MAX + 1) = INT_MIN := by decide

/-! ## Theorems: the ticket lock and counting lemmas -/

theorem comp_update_frame {ι α β : Type} [DecidableEq ι] (f : α → β) (pc : ι → α) (i : ι) (p : α)
    (h : f p = f (pc i)) : f ∘ Function.update pc i p = f ∘ pc := by
  rw [Function.comp_update, h]
  exact Function.update_eq_self i (f ∘ pc)

theorem ticket_init {ι : Type} (ph : ι → LockPhase) (h : ∀ j, ph j = LockPhase.out) :
    TicketInv ticketlock_init ph := by
  constructor
  · intro j t hj; simp [h j] at hj
  · intro j1 j2 t hj; simp [h j1] at hj
  · intro j1 j2 hj; simp [h j1] at hj
  · intro j hj; simp [h j] at hj
  · simp [ticketlock_init]
  · intro j t hj; simp [h j] at hj
  · intro t h1 h2; simp [ticketlock_init] at h1 h2; omega

theorem ticket_draw {ι : Type} [DecidableEq ι] (l : ticket_lock) (ph : ι → LockPhase) (i : ι)
    (h : TicketInv l ph) (hi : ph i = LockPhase.out) :
    TicketInv (ticketlock_draw l).2 (Function.update ph i (LockPhase.spin (ticketlock_draw l).1)) := by
  obtain ⟨bound, distinct, uniq, serving, le, spin_ge, complete⟩ := h
  have up : ∀ j, j ≠ i → Function.update ph i (LockPhase.spin l.ticket) j = ph j :=
    fun j hj => Function.update_noteq hj _ _
  simp only [ticketlock_draw]
  refine ⟨?_, ?_, ?_, ?_, by simp; omega, ?_, ?_⟩
  rotate_left 4
  · intro j t hj
    by_cases hji : j = i
    · subst hji; simp at hj; simp; omega
    · rw [up j hji] at hj; exact spin_ge j t hj
  · intro t h1 h2
    simp only at h1 h2
    by_cases ht : t = l.ticket
    · exact ⟨i, Or.inl (by simp [ht])⟩
    · obtain ⟨j, hj⟩ := complete t h1 (by omega)
      have hji : j ≠ i := by
        rintro rfl
        rw [hi] at hj
        simp at hj
      exact ⟨j, by rw [up j hji]; exact hj⟩
  · intro j t hj
    by_cases hji : j = i
    · subst hji; simp at hj; simp; omega
    · rw [up j hji] at hj; have := bound j t hj; simp; omega
  · intro j1 j2 t h1 h2
    by_cases e1 : j1 = i <;> by_cases e2 : j2 = i
    · rw [e1, e2]
    · subst e1; simp at h1; rw [up j2 e2] at h2
      have := bound j2 t h2; omega
    · subst e2; simp at h2; rw [up j1 e1] at h1
      have := bound j1 t h1; omega
    · rw [up j1 e1] at h1; rw [up j2 e2] at h2; exact distinct j1 j2 t h1 h2
  · intro j1 j2 h1 h2
    by_cases e1 : j1 = i
    · subst e1; simp at h1
    · by_cases e2 : j2 = i
      · subst e2; simp at h2
      · rw [up j1 e1] at h1; rw [up j2 e2] at h2; exact uniq j1 j2 h1 h2
  · intro j hj
    by_cases e1 : j = i
    · subst e1; simp at hj
    · rw [up j e1] at hj
      obtain ⟨h1, h2⟩ := serving j hj
      refine ⟨by simp; omega, ?_⟩
      intro j2 t hj2
      by_cases e2 : j2 = i
      · subst e2; simp at hj2; simp; omega
      · rw [up j2 e2] at hj2; exact h2 j2 t hj2

theorem ticket_enter {ι : Type} [DecidableEq ι] (l : ticket_lock) (ph : ι → LockPhase) (i : ι) (t : Int)
    (h : TicketInv l ph) (hi : ph i = LockPhase.spin t) (hs : l.cur_ticket = t) :
    TicketInv l (Function.update ph i LockPhase.held) := by
  obtain ⟨bound, distinct, uniq, serving, le, spin_ge, complete⟩ := h
  have up : ∀ j, j ≠ i → Function.update ph i LockPhase.held j = ph j :=
    fun j hj => Function.update_noteq hj _ _
  have nohold : ∀ j, ph j ≠ LockPhase.held := by
    intro j hj
    exact (serving j hj).2 i t hi hs.symm
  refine ⟨?_, ?_, ?_, ?_, le, ?_, ?_⟩
  rotate_left 4
  · intro j t' hj
    by_cases hji : j = i
    · subst hji; simp at hj
    · rw [up j hji] at hj; exact spin_ge j t' hj
  · intro t' h1 h2
    obtain ⟨j, hj⟩ := complete t' h1 h2
    by_cases hji : j = i
    · subst hji
      rw [hi] at hj
      simp at hj
      exact ⟨j, Or.inr ⟨by simp, by omega⟩⟩
    · exact ⟨j, by rw [up j hji]; exact hj⟩
  · intro j t' hj
    by_cases hji : j = i
    · subst hji; simp at hj
    · rw [up j hji] at hj; exact bound j t' hj
  · intro j1 j2 t' h1 h2
    by_cases e1 : j1 = i
    · subst e1; simp at h1
    · by_cases e2 : j2 = i
      · subst e2; simp at h2
      · rw [up j1 e1] at h1; rw [up j2 e2] at h2; exact distinct j1 j2 t' h1 h2
  · intro j1 j2 h1 h2
    by_cases e1 : j1 = i <;> by_cases e2 : j2 = i
    · rw [e1, e2]
    · rw [up j2 e2] at h2; exact absurd h2 (nohold j2)
    · rw [up j1 e1] at h1; exact absurd h1 (nohold j1)
    · rw [up j1 e1] at h1; exact absurd h1 (nohold j1)
  · intro j hj
    by_cases e1 : j = i
    · subst e1
      refine ⟨by have := bound j t hi; omega, ?_⟩
      intro j2 t' hj2 ht'
      by_cases e2 : j2 = j
      · subst e2; simp at hj2
      · rw [up j2 e2] at hj2
        have ht : t' = t := by omega
        subst ht
        exact e2 (distinct j2 j t' hj2 hi)
    · rw [up j e1] at hj; exact absurd hj (nohold j)

theorem ticket_release {ι : Type} [DecidableEq ι] (l : ticket_lock) (ph : ι → LockPhase) (i : ι)
    (h : TicketInv l ph) (hi : ph i = LockPhase.held) :
    TicketInv (ticketlock_release l) (Function.update ph i LockPhase.out) := by
  obtain ⟨bound, distinct, uniq, serving, le, spin_ge, complete⟩ := h
  have up : ∀ j, j ≠ i → Function.update ph i LockPhase.out j = ph j :=
    fun j hj => Function.update_noteq hj _ _
  have nohold : ∀ j, j ≠ i → ph j ≠ LockPhase.held := fun j hj hh => hj (uniq j i hh hi)
  obtain ⟨hlt, hne⟩ := serving i hi
  simp only [ticketlock_release]
  refine ⟨?_, ?_, ?_, ?_, by simp; omega, ?_, ?_⟩
  rotate_left 4
  · intro j t' hj
    by_cases hji : j = i
    · subst hji; simp at hj
    · rw [up j hji] at hj
      have h1 := spin_ge j t' hj
      have h2 := hne j t' hj
      simp; omega
  · intro t' h1 h2
    simp only at h1 h2
    obtain ⟨j, hj⟩ := complete t' (by omega) h2
    rcases hj with hj | ⟨-, hj⟩
    · have hji : j ≠ i := by
        rintro rfl
        rw [hi] at hj
        simp at hj
      exact ⟨j, Or.inl (by rw [up j hji]; exact hj)⟩
    · omega
  · intro j t' hj
    by_cases hji : j = i
    · subst hji; simp at hj
    · rw [up j hji] at hj; exact bound j t' hj
  · intro j1 j2 t' h1 h2
    by_cases e1 : j1 = i
    · subst e1; simp at h1
    · by_cases e2 : j2 = i
      · subst e2; simp at h2
      · rw [up j1 e1] at h1; rw [up j2 e2] at h2; exact distinct j1 j2 t' h1 h2
  · intro j1 j2 h1 h2
    by_cases e1 : j1 = i
    · subst e1; simp at h1
    · rw [up j1 e1] at h1; exact absurd h1 (nohold j1 e1)
  · intro j hj
    by_cases e1 : j = i
    · subst e1; simp at hj
    · rw [up j e1] at hj; exact absurd hj (nohold j e1)

theorem counted_init {ι : Type} (b : ι → Bool) (h : ∀ j, b j = false) : Counted b 0 :=
  ⟨∅, by simp [h], by simp⟩

theorem counted_enter {ι : Type} [DecidableEq ι] (b : ι → Bool) (n : Int) (i : ι) (h : Counted b n)
    (hi : b i = false) : Counted (Function.update b i true) (n + 1) := by
  obtain ⟨F, hF, hn⟩ := h
  have hiF : i ∉ F := by rw [hF i, hi]; simp
  refine ⟨insert i F, ?_, ?_⟩
  · intro j
    by_cases hji : j = i
    · subst hji; simp
    · simp [Function.update_noteq hji, hji, hF j]
  · rw [Finset.card_insert_of_not_mem hiF, hn]; simp

theorem counted_leave {ι : Type} [DecidableEq ι] (b : ι → Bool) (n : Int) (i : ι) (h : Counted b n)
    (hi : b i = true) : Counted (Function.update b i false) (n - 1) := by
  obtain ⟨F, hF, hn⟩ := h
  have hiF : i ∈ F := (hF i).2 hi
  refine ⟨F.erase i, ?_, ?_⟩
  · intro j
    by_cases hji : j = i
    · subst hji; simp
    · simp [Function.update_noteq hji, hji, hF j]
  · rw [Finset.card_erase_of_mem hiF, hn]
    have : 1 ≤ F.card := Finset.card_pos.mpr ⟨i, hiF⟩
    omega

theorem counted_pos {ι : Type} [DecidableEq ι] (b : ι → Bool) (n : Int) (i : ι) (h : Counted b n)
    (hi : b i = true) : 0 < n := by
  obtain ⟨F, hF, hn⟩ := h
  have : 1 ≤ F.card := Finset.card_pos.mpr ⟨i, (hF i).2 hi⟩
  omega

theorem counted_nonneg {ι : Type} (b : ι → Bool) (n : Int) (h : Counted b n) : 0 ≤ n := by
  obtain ⟨F, -, hn⟩ := h
  omega

theorem flagged_init {ι : Type} (b : ι → Bool) (h : ∀ j, b j = false) : Flagged b 0 :=
  Or.inl ⟨rfl, h⟩

theorem flagged_set {ι : Type} [DecidableEq ι] (b : ι → Bool) (i : ι) (h : Flagged b 0) :
    Flagged (Function.update b i true) 1 := by
  rcases h with ⟨-, h0⟩ | ⟨h1, -⟩
  · refine Or.inr ⟨rfl, i, by simp, ?_⟩
    intro j hj
    by_contra hji
    rw [Function.update_noteq hji, h0 j] at hj
    exact absurd hj (by simp)
  · omega

theorem flagged_clear {ι : Type} [DecidableEq ι] (b : ι → Bool) (w : Int) (i : ι) (h : Flagged b w)
    (hi : b i = true) : Flagged (Function.update b i false) 0 := by
  rcases h with ⟨-, h0⟩ | ⟨-, j, -, huniq⟩
  · rw [h0 i] at hi; exact absurd hi (by simp)
  · refine Or.inl ⟨rfl, ?_⟩
    intro j2
    by_cases e : j2 = i
    · subst e; simp
    · rw [Function.update_noteq e]
      cases hb : b j2
      · rfl
      · exact absurd ((huniq j2 hb).trans (huniq i hi).symm) e

theorem flagged_unique {ι : Type} (b : ι → Bool) (w : Int) (h : Flagged b w) (i j : ι)
    (hi : b i = true) (hj : b j = true) : i = j := by
  rcases h with ⟨-, h0⟩ | ⟨-, k, -, huniq⟩
  · rw [h0 i] at hi; exact absurd hi (by simp)
  · exact (huniq i hi).trans (huniq j hj).symm

theorem flagged_range {ι : Type} (b : ι → Bool) (w : Int) (h : Flagged b w) : w = 0 ∨ w = 1 := by
  rcases h with ⟨h0, -⟩ | ⟨h1, -⟩
  · exact Or.inl h0
  · exact Or.inr h1

theorem flagged_one {ι : Type} (b : ι → Bool) (w : Int) (h : Flagged b w) (i : ι)
    (hi : b i = true) : w = 1 := by
  rcases h with ⟨-, h0⟩ | ⟨h1, -⟩
  · rw [h0 i] at hi; exact absurd hi (by simp)
  · exact h1

theorem flagged_zero {ι : Type} (b : ι → Bool) (h : Flagged b 0) (i : ι) : b i = false := by
  rcases h with ⟨-, h0⟩ | ⟨h1, -⟩
  · exact h0 i
  · omega

theorem counted_frame {ι α : Type} [DecidableEq ι] (f : α → Bool) (pc : ι → α) (n : Int) (i : ι) (p : α)
    (h : Counted (f ∘ pc) n) (hf : f p = f (pc i)) :
    Counted (f ∘ Function.update pc i p) n := by
  rw [comp_update_frame f pc i p hf]; exact h

theorem counted_enter_comp {ι α : Type} [DecidableEq ι] (f : α → Bool) (pc : ι → α) (n : Int) (i : ι) (p : α)
    (h : Counted (f ∘ pc) n) (h0 : f (pc i) = false) (h1 : f p = true) :
    Counted (f ∘ Function.update pc i p) (n + 1) := by
  rw [Function.comp_update, h1]; exact counted_enter _ _ i h h0

theorem counted_leave_comp {ι α : Type} [DecidableEq ι] (f : α → Bool) (pc : ι → α) (n : Int) (i : ι) (p : α)
    (h : Counted (f ∘ pc) n) (h0 : f (pc i) = true) (h1 : f p = false) :
    Counted (f ∘ Function.update pc i p) (n - 1) := by
  rw [Function.comp_update, h1]; exact counted_leave _ _ i h h0

theorem flagged_frame {ι α : Type} [DecidableEq ι] (f : α → Bool) (pc : ι → α) (w : Int) (i : ι) (p : α)
    (h : Flagged (f ∘ pc) w) (hf : f p = f (pc i)) :
    Flagged (f ∘ Function.update pc i p) w := by
  rw [comp_update_frame f pc i p hf]; exact h

theorem flagged_set_comp {ι α : Type} [DecidableEq ι] (f : α → Bool) (pc : ι → α) (i : ι) (p : α)
    (h : Flagged (f ∘ pc) 0) (h1 : f p = true) :
    Flagged (f ∘ Function.update pc i p) 1 := by
  rw [Function.comp_update, h1]; exact flagged_set _ i h

theorem flagged_clear_comp {ι α : Type} [DecidableEq ι] (f : α → Bool) (pc : ι → α) (w : Int) (i : ι) (p : α)
    (h : Flagged (f ∘ pc) w) (h0 : f (pc i) = true) (h1 : f p = false) :
    Flagged (f ∘ Function.update pc i p) 0 := by
  rw [Function.comp_update, h1]; exact flagged_clear _ w i h h0

theorem ticket_frame_comp {ι α : Type} [DecidableEq ι] (f : α → LockPhase) (th : ι → α)
    (l : ticket_lock) (i : ι) (t : α) (h : TicketInv l (f ∘ th)) (hf : f t = f (th i)) :
    TicketInv l (f ∘ Function.update th i t) := by
  rw [comp_update_frame f th i t hf]; exact h

theorem ticket_draw_comp {ι α : Type} [DecidableEq ι] (f : α → LockPhase) (th : ι → α)
    (l : ticket_lock) (i : ι) (t : α) (h : TicketInv l (f ∘ th)) (h0 : f (th i) = LockPhase.out)
    (h1 : f t = LockPhase.spin (ticketlock_draw l).1) :
    TicketInv (ticketlock_draw l).2 (f ∘ Function.update th i t) := by
  rw [Function.comp_update, h1]; exact ticket_draw _ _ i h h0

theorem ticket_enter_comp {ι α : Type} [DecidableEq ι] (f : α → LockPhase) (th : ι → α)
    (l : ticket_lock) (i : ι) (t : α) (k : Int) (h : TicketInv l (f ∘ th)) (h0 : f (th i) = LockPhase.spin k)
    (hs : ticketlock_served l k = true) (h1 : f t = LockPhase.held) :
    TicketInv l (f ∘ Function.update th i t) := by
  rw [Function.comp_update, h1]
  exact ticket_enter _ _ i k h h0 (by simpa [ticketlock_served] using hs)

theorem ticket_release_comp {ι α : Type} [DecidableEq ι] (f : α → LockPhase) (th : ι → α)
    (l : ticket_lock) (i : ι) (t : α) (h : TicketInv l (f ∘ th)) (h0 : f (th i) = LockPhase.held)
    (h1 : f t = LockPhase.out) :
    TicketInv (ticketlock_release l) (f ∘ Function.update th i t) := by
  rw [Function.comp_update, h1]; exact ticket_release _ _ i h h0

theorem pointwise_update {ι α : Type} [DecidableEq ι] (th : ι → α) (i : ι) (t : α) (P : α → Prop)
    (h : ∀ j, P (th j)) (ht : P t) : ∀ j, P (Function.update th i t j) := by
  intro j
  by_cases hji : j = i
  · subst hji; simpa using ht
  · rw [Function.update_noteq hji]; exact h j

/-! ## Theorems: the test-and-set semaphore -/

namespace Tas
@[simp] theorem tas_goto_pc_self (s : State) (i : Nat) (p : Pc) : (s.goto i p).pc i = p := by
  simp [State.goto]

end Tas


namespace Tas

end Tas

namespace Tas

end Tas
/-! ## Theorems: the ticket-lock semaphore -/

namespace Tl

theorem tl_run_append (s : State) (xs ys : List Ev) : run s (xs ++ ys) = run (run s xs) ys := by
  simp [run, List.foldl_append]

/-- A thread whose ticket is not the one being served stays at its test. -/
theorem tl_spin_forever (s : State) (i : Nat) (t : Int) (hpc : s.pc i = Pc.w22 t)
    (ht : s.cur_ticket ≠ t) (m : Nat) : run s (List.replicate m (Ev.step i)) = s := by
  induction m with
  | zero => rfl
  | succ m ih =>
      have h1 : step s (Ev.step i) = s := by
        simp [step, stepThread, hpc, ht]
      simp only [List.replicate_succ, run, List.foldl_cons, h1]
      exact ih

/-- C2: evaluation of the code on `semaphore_init(sem, 0)` followed by a single
`semaphore_wait` : the call returns although no signal was ever issued, and
leaves the permit count at -1. More generally the first wait after
`semaphore_init(sem, n)` returns with the count at `n - 1`, whatever `n` is. -/
theorem wait_completes_without_permit :
    (run (semaphore_init 0) (waitCall 0)).pc 0 = Pc.idle ∧
    (run (semaphore_init 0) (waitCall 0)).waits = 1 ∧
    (run (semaphore_init 0) (waitCall 0)).signals = 0 ∧
    (run (semaphore_init 0) (waitCall 0)).value = -1 ∧
    ∀ n : Int, (run (semaphore_init n) (waitCall 0)).waits = 1 ∧
      (run (semaphore_init n) (waitCall 0)).value = n - 1 := by
  refine ⟨by decide, by decide, by decide, by decide, ?_⟩
  intro n
  simp [run, waitCall, step, stepThread, semaphore_init, State.goto]

/-- C3: evaluation of the code where a permit is available and no other wait
is in progress.  After `semaphore_init(sem, 2)` and one completed wait the count
is 1, yet a second wait spins for as long as no signal arrives; after
`semaphore_init(sem, 0)` and one completed signal the count is 1, yet a wait
spins for as long as no further signal arrives. -/
theorem wait_blocks_with_permit (m : Nat) :
    ((run (semaphore_init 2) (waitCall 0)).value = 1 ∧
      (run (semaphore_init 2) (waitCall 0)).pc 1 = Pc.idle ∧
      (run (semaphore_init 2)
        (waitCall 0 ++ [Ev.wait 1, Ev.step 1] ++ List.replicate m (Ev.step 1))).pc 1 = Pc.w22 1 ∧
      (run (semaphore_init 2)
        (waitCall 0 ++ [Ev.wait 1, Ev.step 1] ++ List.replicate m (Ev.step 1))).value = 1 ∧
      (run (semaphore_init 2)
        (waitCall 0 ++ [Ev.wait 1, Ev.step 1] ++ List.replicate m (Ev.step 1))).waits = 1) ∧
    ((run (semaphore_init 0) (signalCall 0)).value = 1 ∧
      (run (semaphore_init 0) (signalCall 0)).pc 1 = Pc.idle ∧
      (run (semaphore_init 0)
        (signalCall 0 ++ [Ev.wait 1, Ev.step 1] ++ List.replicate m (Ev.step 1))).pc 1
          = Pc.w22 0 ∧
      (run (semaphore_init 0)
        (signalCall 0 ++ [Ev.wait 1, Ev.step 1] ++ List.replicate m (Ev.step 1))).value = 1 ∧
      (run (semaphore_init 0)
        (signalCall 0 ++ [Ev.wait 1, Ev.step 1] ++ List.replicate m (Ev.step 1))).waits = 0) := by
  have h1 : (run (semaphore_init 2) (waitCall 0 ++ [Ev.wait 1, Ev.step 1])).pc 1 = Pc.w22 1 := by
    decide
  have h2 : (run (semaphore_init 2) (waitCall 0 ++ [Ev.wait 1, Ev.step 1])).cur_ticket ≠ 1 := by
    decide
  have h3 : (run (semaphore_init 0) (signalCall 0 ++ [Ev.wait 1, Ev.step 1])).pc 1
      = Pc.w22 0 := by
    decide
  have h4 : (run (semaphore_init 0) (signalCall 0 ++ [Ev.wait 1, Ev.step 1])).cur_ticket ≠ 0 := by
    decide
  rw [tl_run_append _ _ (List.replicate m _), tl_spin_forever _ 1 1 h1 h2 m,
    tl_run_append _ _ (List.replicate m _), tl_spin_forever _ 1 0 h3 h4 m]
  refine ⟨⟨by decide, by decide, by decide, by decide, by decide⟩,
    ⟨by decide, by decide, by decide, by decide, by decide⟩⟩

end Tl

/-! ## Theorems: order of admission of the ticket-lock semaphore -/

namespace Tl

/-- A wait whose ticket has been passed stays at its test whatever happens:
`cur_ticket` only grows. -/
theorem tl_missed_step (t : Int) (s : State) (e : Ev) (h : Missed t s) : Missed t (step s e) := by
  obtain ⟨hp, hc⟩ := h
  cases e with
  | wait i =>
      simp only [step]
      split_ifs with hi
      · have h0 : i ≠ 0 := by rintro rfl; rw [hp] at hi; exact absurd hi (by simp)
        exact ⟨by simp [State.goto, Function.update_noteq (Ne.symm h0), hp], hc⟩
      · exact ⟨hp, hc⟩
  | signal i =>
      simp only [step]
      split_ifs with hi
      · have h0 : i ≠ 0 := by rintro rfl; rw [hp] at hi; exact absurd hi (by simp)
        exact ⟨by simp [State.goto, Function.update_noteq (Ne.symm h0), hp], hc⟩
      · exact ⟨hp, hc⟩
  | step i =>
      by_cases h0 : i = 0
      · subst h0
        have hne : s.cur_ticket ≠ t := by omega
        simp [step, stepThread, hp, hne]
        exact ⟨hp, hc⟩
      · have hpc : ∀ s2 : State, (s2.goto i (s2.pc i)).pc 0 = s2.pc 0 := by
          intro s2; simp [State.goto, Function.update_noteq (Ne.symm h0)]
        simp only [step, stepThread]
        cases hq : s.pc i <;> simp only [Missed] <;> (try split_ifs) <;>
          simp [State.goto, Function.update_noteq (Ne.symm h0), hp] <;> omega

theorem tl_missed_run (t : Int) (evs : List Ev) (s : State) (h : Missed t s) :
    Missed t (run s evs) := by
  induction evs generalizing s with
  | nil => exact h
  | cons e es ih => exact ih (step s e) (tl_missed_step t s e h)

end Tl

namespace Tl

/-- C12: evaluation of the code on two schedules in which a later arrival
overtakes.  After `semaphore_init(sem, n)`, wait A (thread 0) draws ticket 0 and
wait B (thread 1) draws ticket 1; one `semaphore_signal` later B passes its
test and returns (one wait has completed) while A still stands at its test;
and A never passes it afterwards, whatever events follow, `cur_ticket` being
past its ticket for good.  The same happens when both waits first find that
they have to wait (tickets 1 and 2 behind a completed wait) and two signals
follow. -/
theorem later_waiter_overtakes (n : Int) (more : List Ev) :
    ((run (semaphore_init n) drawRun).pc 0 = Pc.w22 0 ∧
      (run (semaphore_init n) drawRun).pc 1 = Pc.w22 1) ∧
    ((run (semaphore_init n) overtakeRun).pc 1 = Pc.idle ∧
      (run (semaphore_init n) overtakeRun).waits = 1 ∧
      (run (semaphore_init n) overtakeRun).pc 0 = Pc.w22 0 ∧
      (run (semaphore_init n) overtakeRun).value = n) ∧
    (run (semaphore_init n) (overtakeRun ++ more)).pc 0 = Pc.w22 0 ∧
    ((run (semaphore_init n) (waitCall 3 ++ drawRun ++ [Ev.step 0, Ev.step 1])).pc 0
        = Pc.w22 1 ∧
      (run (semaphore_init n) (waitCall 3 ++ drawRun ++ [Ev.step 0, Ev.step 1])).pc 1
        = Pc.w22 2 ∧
      (run (semaphore_init n) overtakeQueuedRun).pc 1 = Pc.idle ∧
      (run (semaphore_init n) overtakeQueuedRun).waits = 2 ∧
      (run (semaphore_init n) overtakeQueuedRun).pc 0 = Pc.w22 1 ∧
      (run (semaphore_init n) (overtakeQueuedRun ++ more)).pc 0 = Pc.w22 1) := by
  have h1 : Missed 0 (run (semaphore_init n) overtakeRun) := by
    simp [Missed, run, overtakeRun, drawRun, signalCall, step, stepThread, semaphore_init,
      State.goto]
  have h2 : Missed 1 (run (semaphore_init n) overtakeQueuedRun) := by
    simp [Missed, run, overtakeQueuedRun, drawRun, signalCall, waitCall, step, stepThread,
      semaphore_init, State.goto]
  refine ⟨?_, ?_, ?_, ?_⟩
  · simp [run, drawRun, step, stepThread, semaphore_init, State.goto]
  · simp [run, overtakeRun, drawRun, signalCall, step, stepThread, semaphore_init, State.goto]
  · rw [tl_run_append]; exact (tl_missed_run 0 more _ h1).1
  · refine ⟨?_, ?_, ?_, ?_, ?_, ?_⟩
    · simp [run, drawRun, waitCall, step, stepThread, semaphore_init, State.goto]
    · simp [run, drawRun, waitCall, step, stepThread, semaphore_init, State.goto]
    · simp [run, overtakeQueuedRun, drawRun, signalCall, waitCall, step, stepThread,
        semaphore_init, State.goto]
    · simp [run, overtakeQueuedRun, drawRun, signalCall, waitCall, step, stepThread,
        semaphore_init, State.goto]
    · exact h2.1
    · rw [tl_run_append]; exact (tl_missed_run 1 more _ h2).1

end Tl
/-! ## Theorems: the reader-writer lock -/

namespace Rw

theorem rw_inv_init : Inv rwlock_init := by
  constructor
  · exact ticket_init _ (fun _ => rfl)
  · exact counted_init _ (fun _ => rfl)
  · exact counted_init _ (fun _ => rfl)
  · exact flagged_init _ (fun _ => rfl)
  · intro h; simp [rwlock_init] at h
  · intro j h; simp [rwlock_init, Pc.sawNoWriter] at h
  · intro j h; simp [rwlock_init, Pc.sawNoReader] at h
  · intro j h; simp [rwlock_init] at h

theorem rw_pointwise (pc : Nat → Pc) (i : Nat) (p : Pc) (P : Pc → Prop) (Q : Prop)
    (h : ∀ j, P (pc j) → Q) (hp : P p → Q) : ∀ j, P (Function.update pc i p j) → Q := by
  intro j hj
  by_cases hji : j = i
  · subst hji; simp at hj; exact hp hj
  · rw [Function.update_noteq hji] at hj; exact h j hj

/-- Two threads inside the internal lock are the same thread. -/
theorem rw_held_unique (s : State) (h : Inv s) (i j : Nat)
    (hi : (s.pc i).phase = LockPhase.held) (hj : (s.pc j).phase = LockPhase.held) : i = j :=
  h.tl.holder_unique i j hi hj

/-- While thread `i` is inside the internal lock, no other thread is at a
control point that lies inside it. -/
theorem rw_only_holder (s : State) (h : Inv s) (i : Nat)
    (hi : (s.pc i).phase = LockPhase.held) (P : Pc → Bool)
    (hP : ∀ q, P q = true → q.phase = LockPhase.held) (p : Pc) (hp : P p = false) (j : Nat) :
    ¬ P (Function.update s.pc i p j) = true := by
  intro hj
  by_cases hji : j = i
  · subst hji; simp [hp] at hj
  · rw [Function.update_noteq hji] at hj
    exact hji (rw_held_unique s h j i (hP _ hj) hi)

/-- A step of thread `i` that changes no counter of the lock and does not move
the thread in or out of a counted set. -/
theorem rw_inv_plain (s s' : State) (i : Nat) (p : Pc) (h : Inv s)
    (hpc : s'.pc = Function.update s.pc i p)
    (htl : TicketInv s'.lock (Pc.phase ∘ Function.update s.pc i p))
    (hr : s'.readers = s.readers) (hw : s'.writers = s.writers)
    (hww : s'.waiting_writers = s.waiting_writers)
    (h2 : p.holdsRead = (s.pc i).holdsRead) (h3 : p.waitingWriter = (s.pc i).waitingWriter)
    (h4 : p.holdsWrite = (s.pc i).holdsWrite)
    (h5 : p.sawNoWriter = true → s.writers = 0) (h6 : p.sawNoReader = true → s.readers = 0)
    (h7 : p = Pc.w60 → s.writers = 0) : Inv s' := by
  obtain ⟨tl, rd, ww, wr, excl, noW, noR, noW60⟩ := h
  constructor
  · rw [hpc]; exact htl
  · rw [hpc, hr, comp_update_frame _ _ _ _ h2]; exact rd
  · rw [hpc, hww, comp_update_frame _ _ _ _ h3]; exact ww
  · rw [hpc, hw, comp_update_frame _ _ _ _ h4]; exact wr
  · rw [hw, hr]; exact excl
  · rw [hpc, hw]; exact rw_pointwise s.pc i p (fun q => q.sawNoWriter = true) _ noW h5
  · rw [hpc, hr]; exact rw_pointwise s.pc i p (fun q => q.sawNoReader = true) _ noR h6
  · rw [hpc, hw]; exact rw_pointwise s.pc i p (fun q => q = Pc.w60) _ noW60 h7

theorem rw_tl_frame (s : State) (i : Nat) (p : Pc) (h : Inv s)
    (h1 : p.phase = (s.pc i).phase) : TicketInv s.lock (Pc.phase ∘ Function.update s.pc i p) := by
  rw [comp_update_frame _ _ _ _ h1]; exact h.tl

theorem rw_tl_draw (s : State) (i : Nat) (p : Pc) (h : Inv s)
    (h0 : (s.pc i).phase = LockPhase.out)
    (h1 : p.phase = LockPhase.spin (ticketlock_draw s.lock).1) :
    TicketInv (ticketlock_draw s.lock).2 (Pc.phase ∘ Function.update s.pc i p) := by
  rw [Function.comp_update, h1]; exact ticket_draw _ _ i h.tl h0

theorem rw_tl_enter (s : State) (i : Nat) (p : Pc) (t : Int) (h : Inv s)
    (h0 : (s.pc i).phase = LockPhase.spin t) (hs : ticketlock_served s.lock t = true)
    (h1 : p.phase = LockPhase.held) :
    TicketInv s.lock (Pc.phase ∘ Function.update s.pc i p) := by
  rw [Function.comp_update, h1]
  exact ticket_enter _ _ i t h.tl h0 (by simpa [ticketlock_served] using hs)

theorem rw_tl_release (s : State) (i : Nat) (p : Pc) (h : Inv s)
    (h0 : (s.pc i).phase = LockPhase.held) (h1 : p.phase = LockPhase.out) :
    TicketInv (ticketlock_release s.lock) (Pc.phase ∘ Function.update s.pc i p) := by
  rw [Function.comp_update, h1]; exact ticket_release _ _ i h.tl h0

theorem rw_inv_stepThread (s : State) (i : Nat) (h : Inv s) : Inv (stepThread s i) := by
  unfold stepThread
  split
  · exact h
  · rename_i hp  -- r26
    exact rw_inv_plain s _ i _ h rfl (rw_tl_draw s i _ h (by rw [hp]; rfl) rfl) rfl rfl rfl
        (by rw [hp]; rfl) (by rw [hp]; rfl) (by rw [hp]; rfl)
        (by simp [Pc.sawNoWriter]) (by simp [Pc.sawNoReader]) (by simp)
  · rename_i t hp  -- r26s
    split_ifs with hs
    · exact rw_inv_plain s _ i _ h rfl (rw_tl_enter s i _ t h (by rw [hp]; rfl) hs rfl) rfl rfl rfl
        (by rw [hp]; rfl) (by rw [hp]; rfl) (by rw [hp]; rfl)
        (by simp [Pc.sawNoWriter]) (by simp [Pc.sawNoReader]) (by simp)
    · exact h
  · rename_i hp  -- r27
    split_ifs with hw
    · exact rw_inv_plain s _ i _ h rfl (rw_tl_frame s i _ h (by rw [hp]; rfl)) rfl rfl rfl
        (by rw [hp]; rfl) (by rw [hp]; rfl) (by rw [hp]; rfl)
        (fun _ => hw) (by simp [Pc.sawNoReader]) (by simp)
    · exact rw_inv_plain s _ i _ h rfl (rw_tl_frame s i _ h (by rw [hp]; rfl)) rfl rfl rfl
        (by rw [hp]; rfl) (by rw [hp]; rfl) (by rw [hp]; rfl)
        (by simp [Pc.sawNoWriter]) (by simp [Pc.sawNoReader]) (by simp)
  · rename_i hp  -- r27b
    have hw : s.writers = 0 := h.noW i (by rw [hp]; rfl)
    split_ifs with hww
    · exact rw_inv_plain s _ i _ h rfl (rw_tl_frame s i _ h (by rw [hp]; rfl)) rfl rfl rfl
        (by rw [hp]; rfl) (by rw [hp]; rfl) (by rw [hp]; rfl)
        (fun _ => hw) (by simp [Pc.sawNoReader]) (by simp)
    · exact rw_inv_plain s _ i _ h rfl (rw_tl_frame s i _ h (by rw [hp]; rfl)) rfl rfl rfl
        (by rw [hp]; rfl) (by rw [hp]; rfl) (by rw [hp]; rfl)
        (by simp [Pc.sawNoWriter]) (by simp [Pc.sawNoReader]) (by simp)
  · rename_i hp  -- r28
    have hw : s.writers = 0 := h.noW i (by rw [hp]; rfl)
    have hx := rw_only_holder s h i (by rw [hp]; rfl)
    obtain ⟨tl, rd, ww, wr, excl, noW, noR, noW60⟩ := h
    constructor
    · exact (comp_update_frame Pc.phase s.pc i Pc.r29 (by rw [hp]; rfl)) ▸ tl
    · exact counted_enter_comp _ _ _ i _ rd (by rw [hp]; rfl) rfl
    · exact counted_frame _ _ _ i _ ww (by rw [hp]; rfl)
    · exact flagged_frame _ _ _ i _ wr (by rw [hp]; rfl)
    · intro h1; exact absurd (hw ▸ h1 : (0 : Int) = 1) (by decide)
    · exact rw_pointwise s.pc i _ (fun q => q.sawNoWriter = true) _ noW (fun _ => hw)
    · intro j hj
      exact absurd hj (hx Pc.sawNoReader (by intro q; cases q <;> simp [Pc.sawNoReader, Pc.phase])
        Pc.r29 rfl j)
    · exact rw_pointwise s.pc i _ (fun q => q = Pc.w60) _ noW60 (by simp)
  · rename_i hp  -- r29
    exact rw_inv_plain s _ i _ h rfl (rw_tl_release s i _ h (by rw [hp]; rfl) rfl) rfl rfl rfl
        (by rw [hp]; rfl) (by rw [hp]; rfl) (by rw [hp]; rfl)
        (by simp [Pc.sawNoWriter]) (by simp [Pc.sawNoReader]) (by simp)
  · rename_i hp  -- r32
    exact rw_inv_plain s _ i _ h rfl (rw_tl_release s i _ h (by rw [hp]; rfl) rfl) rfl rfl rfl
        (by rw [hp]; rfl) (by rw [hp]; rfl) (by rw [hp]; rfl)
        (by simp [Pc.sawNoWriter]) (by simp [Pc.sawNoReader]) (by simp)
  · exact h  -- reading
  · rename_i hp  -- rr45
    have hpos : 0 < s.readers := counted_pos _ _ i h.rd (by simp [hp, Pc.holdsRead])
    obtain ⟨tl, rd, ww, wr, excl, noW, noR, noW60⟩ := h
    constructor
    · exact (comp_update_frame Pc.phase s.pc i Pc.idle (by rw [hp]; rfl)) ▸ tl
    · exact counted_leave_comp _ _ _ i _ rd (by rw [hp]; rfl) rfl
    · exact counted_frame _ _ _ i _ ww (by rw [hp]; rfl)
    · exact flagged_frame _ _ _ i _ wr (by rw [hp]; rfl)
    · intro h1; have := excl h1; omega
    · exact rw_pointwise s.pc i _ (fun q => q.sawNoWriter = true) _ noW (by simp [Pc.sawNoWriter])
    · refine rw_pointwise s.pc i _ (fun q => q.sawNoReader = true) _ ?_ (by simp [Pc.sawNoReader])
      intro j hj; have := noR j hj; omega
    · exact rw_pointwise s.pc i _ (fun q => q = Pc.w60) _ noW60 (by simp)
  · rename_i hp  -- w56
    obtain ⟨tl, rd, ww, wr, excl, noW, noR, noW60⟩ := h
    constructor
    · exact (comp_update_frame Pc.phase s.pc i Pc.w58 (by rw [hp]; rfl)) ▸ tl
    · exact counted_frame _ _ _ i _ rd (by rw [hp]; rfl)
    · exact counted_enter_comp _ _ _ i _ ww (by rw [hp]; rfl) rfl
    · exact flagged_frame _ _ _ i _ wr (by rw [hp]; rfl)
    · exact excl
    · exact rw_pointwise s.pc i _ (fun q => q.sawNoWriter = true) _ noW (by simp [Pc.sawNoWriter])
    · exact rw_pointwise s.pc i _ (fun q => q.sawNoReader = true) _ noR (by simp [Pc.sawNoReader])
    · exact rw_pointwise s.pc i _ (fun q => q = Pc.w60) _ noW60 (by simp)
  · rename_i hp  -- w58
    exact rw_inv_plain s _ i _ h rfl (rw_tl_draw s i _ h (by rw [hp]; rfl) rfl) rfl rfl rfl
        (by rw [hp]; rfl) (by rw [hp]; rfl) (by rw [hp]; rfl)
        (by simp [Pc.sawNoWriter]) (by simp [Pc.sawNoReader]) (by simp)
  · rename_i t hp  -- w58s
    split_ifs with hs
    · exact rw_inv_plain s _ i _ h rfl (rw_tl_enter s i _ t h (by rw [hp]; rfl) hs rfl) rfl rfl rfl
        (by rw [hp]; rfl) (by rw [hp]; rfl) (by rw [hp]; rfl)
        (by simp [Pc.sawNoWriter]) (by simp [Pc.sawNoReader]) (by simp)
    · exact h
  · rename_i hp  -- w59
    split_ifs with hr
    · exact rw_inv_plain s _ i _ h rfl (rw_tl_frame s i _ h (by rw [hp]; rfl)) rfl rfl rfl
        (by rw [hp]; rfl) (by rw [hp]; rfl) (by rw [hp]; rfl)
        (by simp [Pc.sawNoWriter]) (fun _ => hr) (by simp)
    · exact rw_inv_plain s _ i _ h rfl (rw_tl_frame s i _ h (by rw [hp]; rfl)) rfl rfl rfl
        (by rw [hp]; rfl) (by rw [hp]; rfl) (by rw [hp]; rfl)
        (by simp [Pc.sawNoWriter]) (by simp [Pc.sawNoReader]) (by simp)
  · rename_i hp  -- w59b
    have hr : s.readers = 0 := h.noR i (by rw [hp]; rfl)
    split_ifs with hw
    · exact rw_inv_plain s _ i _ h rfl (rw_tl_frame s i _ h (by rw [hp]; rfl)) rfl rfl rfl
        (by rw [hp]; rfl) (by rw [hp]; rfl) (by rw [hp]; rfl)
        (by simp [Pc.sawNoWriter]) (fun _ => hr) (fun _ => hw)
    · exact rw_inv_plain s _ i _ h rfl (rw_tl_frame s i _ h (by rw [hp]; rfl)) rfl rfl rfl
        (by rw [hp]; rfl) (by rw [hp]; rfl) (by rw [hp]; rfl)
        (by simp [Pc.sawNoWriter]) (by simp [Pc.sawNoReader]) (by simp)
  · rename_i hp  -- w60
    have hr : s.readers = 0 := h.noR i (by rw [hp]; rfl)
    have hw : s.writers = 0 := h.noW60 i hp
    have hx := rw_only_holder s h i (by rw [hp]; rfl)
    obtain ⟨tl, rd, ww, wr, excl, noW, noR, noW60⟩ := h
    constructor
    · exact (comp_update_frame Pc.phase s.pc i Pc.w61 (by rw [hp]; rfl)) ▸ tl
    · exact counted_frame _ _ _ i _ rd (by rw [hp]; rfl)
    · exact counted_frame _ _ _ i _ ww (by rw [hp]; rfl)
    · exact flagged_set_comp _ _ i _ (hw ▸ wr) rfl
    · exact fun _ => hr
    · intro j hj
      exact absurd hj (hx Pc.sawNoWriter (by intro q; cases q <;> simp [Pc.sawNoWriter, Pc.phase])
        Pc.w61 rfl j)
    · exact rw_pointwise s.pc i _ (fun q => q.sawNoReader = true) _ noR (by simp [Pc.sawNoReader])
    · intro j hj
      exact absurd (by simpa using hj)
        (hx (fun q => decide (q = Pc.w60)) (by intro q; cases q <;> simp [Pc.phase])
          Pc.w61 (by decide) j)
  · rename_i hp  -- w61
    obtain ⟨tl, rd, ww, wr, excl, noW, noR, noW60⟩ := h
    constructor
    · exact (comp_update_frame Pc.phase s.pc i Pc.w62 (by rw [hp]; rfl)) ▸ tl
    · exact counted_frame _ _ _ i _ rd (by rw [hp]; rfl)
    · exact counted_leave_comp _ _ _ i _ ww (by rw [hp]; rfl) rfl
    · exact flagged_frame _ _ _ i _ wr (by rw [hp]; rfl)
    · exact excl
    · exact rw_pointwise s.pc i _ (fun q => q.sawNoWriter = true) _ noW (by simp [Pc.sawNoWriter])
    · exact rw_pointwise s.pc i _ (fun q => q.sawNoReader = true) _ noR (by simp [Pc.sawNoReader])
    · exact rw_pointwise s.pc i _ (fun q => q = Pc.w60) _ noW60 (by simp)
  · rename_i hp  -- w62
    exact rw_inv_plain s _ i _ h rfl (rw_tl_release s i _ h (by rw [hp]; rfl) rfl) rfl rfl rfl
        (by rw [hp]; rfl) (by rw [hp]; rfl) (by rw [hp]; rfl)
        (by simp [Pc.sawNoWriter]) (by simp [Pc.sawNoReader]) (by simp)
  · rename_i hp  -- w65
    exact rw_inv_plain s _ i _ h rfl (rw_tl_release s i _ h (by rw [hp]; rfl) rfl) rfl rfl rfl
        (by rw [hp]; rfl) (by rw [hp]; rfl) (by rw [hp]; rfl)
        (by simp [Pc.sawNoWriter]) (by simp [Pc.sawNoReader]) (by simp)
  · exact h  -- writing
  · rename_i hp  -- x76
    exact rw_inv_plain s _ i _ h rfl (rw_tl_draw s i _ h (by rw [hp]; rfl) rfl) rfl rfl rfl
        (by rw [hp]; rfl) (by rw [hp]; rfl) (by rw [hp]; rfl)
        (by simp [Pc.sawNoWriter]) (by simp [Pc.sawNoReader]) (by simp)
  · rename_i t hp  -- x76s
    split_ifs with hs
    · exact rw_inv_plain s _ i _ h rfl (rw_tl_enter s i _ t h (by rw [hp]; rfl) hs rfl) rfl rfl rfl
        (by rw [hp]; rfl) (by rw [hp]; rfl) (by rw [hp]; rfl)
        (by simp [Pc.sawNoWriter]) (by simp [Pc.sawNoReader]) (by simp)
    · exact h
  · rename_i hp  -- x77
    obtain ⟨tl, rd, ww, wr, excl, noW, noR, noW60⟩ := h
    constructor
    · exact (comp_update_frame Pc.phase s.pc i Pc.x78 (by rw [hp]; rfl)) ▸ tl
    · exact counted_frame _ _ _ i _ rd (by rw [hp]; rfl)
    · exact counted_frame _ _ _ i _ ww (by rw [hp]; rfl)
    · exact flagged_clear_comp _ _ _ i _ wr (by rw [hp]; rfl) rfl
    · intro h1; exact absurd (show (0 : Int) = 1 from h1) (by decide)
    · exact fun _ _ => rfl
    · exact rw_pointwise s.pc i _ (fun q => q.sawNoReader = true) _ noR (by simp [Pc.sawNoReader])
    · exact fun _ _ => rfl
  · rename_i hp  -- x78
    exact rw_inv_plain s _ i _ h rfl (rw_tl_release s i _ h (by rw [hp]; rfl) rfl) rfl rfl rfl
        (by rw [hp]; rfl) (by rw [hp]; rfl) (by rw [hp]; rfl)
        (by simp [Pc.sawNoWriter]) (by simp [Pc.sawNoReader]) (by simp)

theorem rw_inv_step (s : State) (e : Ev) (h : Inv s) : Inv (step s e) := by
  cases e with
  | acquire_read i =>
      simp only [step]
      split_ifs with hp
      · exact rw_inv_plain s _ i _ h rfl (rw_tl_frame s i _ h (by rw [hp]; rfl)) rfl rfl rfl
          (by rw [hp]; rfl) (by rw [hp]; rfl) (by rw [hp]; rfl)
          (by simp [Pc.sawNoWriter]) (by simp [Pc.sawNoReader]) (by simp)
      · exact h
  | release_read i =>
      simp only [step]
      split_ifs with hp
      · exact rw_inv_plain s _ i _ h rfl (rw_tl_frame s i _ h (by rw [hp]; rfl)) rfl rfl rfl
          (by rw [hp]; rfl) (by rw [hp]; rfl) (by rw [hp]; rfl)
          (by simp [Pc.sawNoWriter]) (by simp [Pc.sawNoReader]) (by simp)
      · exact h
  | acquire_write i =>
      simp only [step]
      split_ifs with hp
      · exact rw_inv_plain s _ i _ h rfl (rw_tl_frame s i _ h (by rw [hp]; rfl)) rfl rfl rfl
          (by rw [hp]; rfl) (by rw [hp]; rfl) (by rw [hp]; rfl)
          (by simp [Pc.sawNoWriter]) (by simp [Pc.sawNoReader]) (by simp)
      · exact h
  | release_write i =>
      simp only [step]
      split_ifs with hp
      · exact rw_inv_plain s _ i _ h rfl (rw_tl_frame s i _ h (by rw [hp]; rfl)) rfl rfl rfl
          (by rw [hp]; rfl) (by rw [hp]; rfl) (by rw [hp]; rfl)
          (by simp [Pc.sawNoWriter]) (by simp [Pc.sawNoReader]) (by simp)
      · exact h
  | step i => exact rw_inv_stepThread s i h

theorem rw_inv_run (evs : List Ev) (s : State) (h : Inv s) : Inv (run s evs) := by
  induction evs generalizing s with
  | nil => exact h
  | cons e es ih => exact ih (step s e) (rw_inv_step s e h)


/-- The only step that raises `readers` is line 28 of a thread standing there. -/
theorem rw_readers_step (s : State) (e : Ev) (h : s.readers < (step s e).readers) :
    ∃ r, e = Ev.step r ∧ s.pc r = Pc.r28 := by
  cases e with
  | step i =>
      refine ⟨i, rfl, ?_⟩
      revert h
      simp only [step, stepThread]
      split <;> (try split_ifs) <;> simp_all [State.goto]
  | acquire_read i => simp only [step] at h; split_ifs at h <;> simp [State.goto] at h
  | release_read i => simp only [step] at h; split_ifs at h <;> simp [State.goto] at h
  | acquire_write i => simp only [step] at h; split_ifs at h <;> simp [State.goto] at h
  | release_write i => simp only [step] at h; split_ifs at h <;> simp [State.goto] at h

/-- The only step that stores 1 to `writers` is line 60 of a thread standing there. -/
theorem rw_writers_step (s : State) (e : Ev) (h0 : s.writers ≠ 1) (h : (step s e).writers = 1) :
    ∃ r, e = Ev.step r ∧ s.pc r = Pc.w60 := by
  cases e with
  | step i =>
      refine ⟨i, rfl, ?_⟩
      revert h
      simp only [step, stepThread]
      split <;> (try split_ifs) <;> simp_all [State.goto]
  | acquire_read i => simp only [step] at h; split_ifs at h <;> simp_all [State.goto]
  | release_read i => simp only [step] at h; split_ifs at h <;> simp_all [State.goto]
  | acquire_write i => simp only [step] at h; split_ifs at h <;> simp_all [State.goto]
  | release_write i => simp only [step] at h; split_ifs at h <;> simp_all [State.goto]

/-- A thread arrives at line 28 only from the test of `waiting_writers`, having
found it 0. -/
theorem rw_arrive_r28 (s : State) (e : Ev) (r : Nat) (h0 : s.pc r ≠ Pc.r28)
    (h : (step s e).pc r = Pc.r28) :
    e = Ev.step r ∧ s.pc r = Pc.r27b ∧ s.waiting_writers = 0 := by
  have key : ∀ (i : Nat) (p : Pc), p ≠ Pc.r28 → (s.goto i p).pc r ≠ Pc.r28 := by
    intro i p hp hh
    by_cases hri : r = i
    · subst hri; simp [State.goto] at hh; exact hp hh
    · simp [State.goto, Function.update_noteq hri] at hh; exact h0 hh
  cases e with
  | step i =>
      by_cases hri : r = i
      · subst hri
        refine ⟨rfl, ?_⟩
        revert h
        simp only [step, stepThread]
        split <;> (try split_ifs) <;> simp_all [State.goto]
      · exfalso
        revert h
        simp only [step, stepThread]
        split <;> (try split_ifs) <;> simp_all [State.goto, Function.update_noteq hri]
  | acquire_read i =>
      simp only [step] at h; split_ifs at h
      · exact absurd h (key i _ (by decide))
      · exact absurd h h0
  | release_read i =>
      simp only [step] at h; split_ifs at h
      · exact absurd h (key i _ (by decide))
      · exact absurd h h0
  | acquire_write i =>
      simp only [step] at h; split_ifs at h
      · exact absurd h (key i _ (by decide))
      · exact absurd h h0
  | release_write i =>
      simp only [step] at h; split_ifs at h
      · exact absurd h (key i _ (by decide))
      · exact absurd h h0

/-- C4: in every state reachable from `rwlock_init` by any interleaving of the
four operations in which each release is issued by a current holder, `writers`
is 0 or 1; `writers = 1` and `readers > 0` never hold together; `writers` is 1
exactly when some thread holds the write lock, and at most one thread does; no
thread holds the lock for reading while one holds it for writing; `readers` is
the number of threads holding the lock for reading; and a step takes `writers`
from 0 to 1 only in a state with `readers = 0` and `writers = 0`. -/
theorem rwlock_mutual_exclusion (evs : List Ev) :
    ((run rwlock_init evs).writers = 0 ∨ (run rwlock_init evs).writers = 1) ∧
    ¬ ((run rwlock_init evs).writers = 1 ∧ 0 < (run rwlock_init evs).readers) ∧
    ((run rwlock_init evs).writers = 1 ↔
      ∃ i, ((run rwlock_init evs).pc i).holdsWrite = true) ∧
    (∀ i j, ((run rwlock_init evs).pc i).holdsWrite = true →
      ((run rwlock_init evs).pc j).holdsWrite = true → i = j) ∧
    (∀ i j, ((run rwlock_init evs).pc i).holdsWrite = true →
      ((run rwlock_init evs).pc j).holdsRead = false) ∧
    Counted (Pc.holdsRead ∘ (run rwlock_init evs).pc) (run rwlock_init evs).readers ∧
    (∀ e, (run rwlock_init evs).writers ≠ 1 → (step (run rwlock_init evs) e).writers = 1 →
      (run rwlock_init evs).readers = 0 ∧ (run rwlock_init evs).writers = 0) := by
  have h := rw_inv_run evs rwlock_init rw_inv_init
  generalize run rwlock_init evs = s at *
  obtain ⟨tl, rd, ww, wr, excl, noW, noR, noW60⟩ := h
  refine ⟨flagged_range _ _ wr, ?_, ?_, ?_, ?_, rd, ?_⟩
  · rintro ⟨h1, h2⟩
    have := excl h1
    omega
  · constructor
    · intro h1
      rcases wr with ⟨h0, -⟩ | ⟨-, j, hj, -⟩
      · omega
      · exact ⟨j, hj⟩
    · rintro ⟨i, hi⟩
      exact flagged_one _ _ wr i hi
  · intro i j hi hj
    exact flagged_unique _ _ wr i j hi hj
  · intro i j hi
    have h1 : s.writers = 1 := flagged_one _ _ wr i hi
    have h2 := excl h1
    cases hj : (s.pc j).holdsRead
    · rfl
    · have := counted_pos _ _ j rd hj
      omega
  · intro e h0 h1
    obtain ⟨r, -, hr⟩ := rw_writers_step s e h0 h1
    exact ⟨noR r (by rw [hr]; rfl), noW60 r hr⟩

/-- C5 as stated fails: with writer 1 inside its window (it has incremented
`waiting_writers`, which is 1), the next step of reader 0 increments `readers`. -/
theorem reader_admitted_after_writer_waits :
    ¬ (∀ (evs : List Ev) (w : Nat) (e : Ev),
        ((run rwlock_init evs).pc w).inWindow = true →
        (step (run rwlock_init evs) e).readers ≤ (run rwlock_init evs).readers) := by
  intro h
  have := h raceSchedule 1 (Ev.step 0) (by decide)
  revert this
  decide

/-- C5 (amended): while a writer is inside its window (from its increment of
`waiting_writers` to its store of 0 to `writers`), `waiting_writers > 0` or
`writers = 1`; no call of `rwlock_acquire_read` passes its admission test, that
is, no thread arrives at the increment of line 28; a step raises `readers` only
if it is line 28 of a thread that stood there already, and at most one thread
stands there; and once the writer holds the write lock no step raises
`readers`. -/
theorem writer_preference (evs : List Ev) (w : Nat)
    (hw : ((run rwlock_init evs).pc w).inWindow = true) :
    (0 < (run rwlock_init evs).waiting_writers ∨ (run rwlock_init evs).writers = 1) ∧
    (∀ e r, (step (run rwlock_init evs) e).pc r = Pc.r28 →
      (run rwlock_init evs).pc r = Pc.r28) ∧
    (∀ e, (run rwlock_init evs).readers < (step (run rwlock_init evs) e).readers →
      ∃ r, e = Ev.step r ∧ (run rwlock_init evs).pc r = Pc.r28) ∧
    (∀ r1 r2, (run rwlock_init evs).pc r1 = Pc.r28 → (run rwlock_init evs).pc r2 = Pc.r28 →
      r1 = r2) ∧
    (((run rwlock_init evs).pc w).holdsWrite = true →
      ∀ e, (step (run rwlock_init evs) e).readers ≤ (run rwlock_init evs).readers) := by
  have h := rw_inv_run evs rwlock_init rw_inv_init
  generalize run rwlock_init evs = s at *
  have hcases : 0 < s.waiting_writers ∨ s.writers = 1 := by
    simp only [Pc.inWindow, Bool.or_eq_true] at hw
    rcases hw with hw | hw
    · exact Or.inl (counted_pos _ _ w h.ww hw)
    · exact Or.inr (flagged_one _ _ h.wr w hw)
  refine ⟨hcases, ?_, fun e he => rw_readers_step s e he, ?_, ?_⟩
  · intro e r hr
    by_contra h0
    obtain ⟨-, h1, h2⟩ := rw_arrive_r28 s e r h0 hr
    have h3 : s.writers = 0 := h.noW r (by rw [h1]; rfl)
    rcases hcases with hc | hc <;> omega
  · intro r1 r2 h1 h2
    exact rw_held_unique s h r1 r2 (by rw [h1]; rfl) (by rw [h2]; rfl)
  · intro hh e
    by_contra hlt
    obtain ⟨r, -, hr⟩ := rw_readers_step s e (by omega)
    have h1 : s.writers = 1 := flagged_one _ _ h.wr w hh
    have h2 : s.writers = 0 := h.noW r (by rw [hr]; rfl)
    omega

/-- C5 (amended), at the state of the race: writer 1 is inside its window. -/
theorem writer_preference_witness :
    ((run rwlock_init raceSchedule).pc 1).inWindow = true ∧
    (∀ e r, (step (run rwlock_init raceSchedule) e).pc r = Pc.r28 →
      (run rwlock_init raceSchedule).pc r = Pc.r28) :=
  ⟨by decide, (writer_preference raceSchedule 1 (by decide)).2.1⟩

end Rw

/-! ## Theorems: the linked queue -/

theorem linked_update_other (heap : Nat → Option node_t) (a : Nat) (x : Option node_t)
    (cells : List (Nat × Int)) (p : Option Nat) (h : Linked heap p cells)
    (ha : a ∉ cells.map Prod.fst) : Linked (Function.update heap a x) p cells := by
  induction cells generalizing p with
  | nil => exact h
  | cons c rest ih =>
      obtain ⟨c1, c2⟩ := c
      obtain ⟨h1, h2, h3⟩ := h
      simp only [List.map_cons, List.mem_cons, not_or] at ha
      refine ⟨h1, ?_, ih _ h3 ha.2⟩
      rw [Function.update_noteq (Ne.symm ha.1)]
      exact h2

theorem linked_snoc (heap : Nat → Option node_t) (a : Nat) (v : Int)
    (cells : List (Nat × Int)) (p : Option Nat) (t : Nat) (h : Linked heap p cells)
    (hnd : (cells.map Prod.fst).Nodup) (ha : a ∉ cells.map Prod.fst)
    (ht : cells.getLast?.map Prod.fst = some t) :
    Linked
      (Function.update (Function.update heap a (some { value := v, next := none })) t
        ((Function.update heap a (some { value := v, next := none }) t).map
          fun n => { n with next := some a }))
      p (cells ++ [(a, v)]) := by
  induction cells generalizing p with
  | nil => simp at ht
  | cons c rest ih =>
      obtain ⟨c1, c2⟩ := c
      obtain ⟨h1, h2, h3⟩ := h
      simp only [List.map_cons, List.mem_cons, not_or] at ha
      simp only [List.map_cons, List.nodup_cons] at hnd
      cases rest with
      | nil =>
          simp at ht
          subst ht
          have hne : c1 ≠ a := Ne.symm ha.1
          simp only [List.nil_append, List.cons_append, Linked]
          refine ⟨h1, ?_, ?_⟩
          · simp [Function.update_noteq hne, h2]
          · refine ⟨rfl, ?_, rfl⟩
            simp [Function.update_noteq (Ne.symm hne)]
      | cons d rest2 =>
          have ht2 : (d :: rest2).getLast?.map Prod.fst = some t := by
            simpa [List.getLast?_cons_cons] using ht
          have htmem : t ∈ (d :: rest2).map Prod.fst := by
            rcases hl : (d :: rest2).getLast? with _ | x
            · simp [hl] at ht2
            · rw [hl] at ht2
              simp at ht2
              have := List.mem_of_getLast?_eq_some hl
              exact List.mem_map.mpr ⟨x, this, ht2⟩
          have hc1t : c1 ≠ t := fun e => hnd.1 (e ▸ htmem)
          have := ih _ h3 hnd.2 ha.2 ht2
          refine ⟨h1, ?_, ?_⟩
          · rw [Function.update_noteq hc1t, Function.update_noteq (Ne.symm ha.1)]
            simpa using h2
          · simpa using this

theorem walk_none (heap : Nat → Option node_t) (fuel : Nat) : walk heap fuel none = [] := by
  cases fuel <;> rfl

theorem walk_linked (heap : Nat → Option node_t) (cells : List (Nat × Int)) (p : Option Nat)
    (fuel : Nat) (h : Linked heap p cells) (hf : cells.length ≤ fuel) :
    walk heap fuel p = cells.map Prod.snd := by
  induction cells generalizing p fuel with
  | nil =>
      have : p = none := h
      subst this
      cases fuel <;> rfl
  | cons c rest ih =>
      obtain ⟨c1, c2⟩ := c
      obtain ⟨h1, h2, h3⟩ := h
      subst h1
      cases fuel with
      | zero => simp at hf
      | succ f =>
          simp only [walk, h2, List.map_cons]
          rw [ih _ f h3 (by simpa using hf)]

theorem nodup_length_le (l : List Nat) (n : Nat) (hnd : l.Nodup) (hb : ∀ a ∈ l, a < n) :
    l.length ≤ n := by
  have h1 : l.toFinset.card = l.length := List.toFinset_card_of_nodup hnd
  have h2 : l.toFinset ⊆ Finset.range n := by
    intro a ha
    simp only [List.mem_toFinset] at ha
    simpa using hb a ha
  have h3 := Finset.card_le_card h2
  simp only [Finset.card_range] at h3
  omega

theorem wf_contents (q : Queue) (cells : List (Nat × Int)) (h : q.Wf cells) :
    q.contents = cells.map Prod.snd := by
  apply walk_linked _ _ _ _ h.linked
  have := nodup_length_le _ _ h.nodup h.below
  simpa using this

theorem wf_empty : Queue.empty.Wf [] := by
  constructor <;> simp [Queue.empty, Linked]

theorem wf_head_tail (q : Queue) (cells : List (Nat × Int)) (h : q.Wf cells) :
    (q.queue_head = none ↔ cells = []) ∧ (q.queue_tail = none ↔ cells = []) := by
  obtain ⟨hl, ht, -, -⟩ := h
  cases cells with
  | nil =>
      have : q.queue_head = none := hl
      simp [this, ht]
  | cons c rest =>
      obtain ⟨c1, c2⟩ := c
      have : q.queue_head = some c1 := hl.1
      rw [this, ht]
      constructor
      · simp
      · simp

theorem wf_enqueue (q : Queue) (cells : List (Nat × Int)) (v : Int) (h : q.Wf cells) :
    (((q.alloc v).2).link (q.alloc v).1).Wf (cells ++ [(q.brk, v)]) := by
  obtain ⟨hl, ht, hnd, hb⟩ := h
  have hfresh : q.brk ∉ cells.map Prod.fst := fun hm => absurd (hb _ hm) (by omega)
  have hnd2 : ((cells ++ [(q.brk, v)]).map Prod.fst).Nodup := by
    rw [List.map_append, List.nodup_append]
    refine ⟨hnd, by simp, ?_⟩
    intro a ha hb2
    simp at hb2
    subst hb2
    exact hfresh ha
  have hb2 : ∀ a ∈ (cells ++ [(q.brk, v)]).map Prod.fst, a < q.brk + 1 := by
    intro a ha
    rw [List.map_append, List.mem_append] at ha
    rcases ha with ha | ha
    · have := hb a ha; omega
    · simp at ha; omega
  rcases hc : cells.getLast? with _ | x
  · have hnil : cells = [] := List.getLast?_eq_none_iff.mp hc
    subst hnil
    have htail : q.queue_tail = none := by simpa using ht
    simp only [Queue.alloc, Queue.link, htail]
    constructor
    · simp [Linked]
    · simp
    · simp
    · simp
  · have htail : q.queue_tail = some x.1 := by rw [ht, hc]; rfl
    simp only [Queue.alloc, Queue.link, htail]
    constructor
    · exact linked_snoc q.heap q.brk v cells q.queue_head x.1 hl hnd hfresh (by rw [hc]; rfl)
    · simp
    · exact hnd2
    · exact hb2

theorem wf_dequeue (q : Queue) (c : Nat × Int) (rest : List (Nat × Int))
    (h : q.Wf (c :: rest)) : (dequeue q).1 = c.2 ∧ (dequeue q).2.Wf rest := by
  obtain ⟨hl, ht, hnd, hb⟩ := h
  obtain ⟨c1, c2⟩ := c
  obtain ⟨h1, h2, h3⟩ := hl
  simp only [List.map_cons, List.nodup_cons] at hnd
  simp only [dequeue, h1, h2, true_and]
  constructor
  · exact linked_update_other _ _ _ _ _ h3 hnd.1
  · cases rest with
    | nil => simp
    | cons d rest2 =>
        simp only [List.head?_cons, Option.map_some', reduceCtorEq, if_false]
        rw [ht]
        simp [List.getLast?_cons_cons]
  · exact hnd.2
  · intro a ha
    exact hb a (by simp only [List.map_cons, List.mem_cons]; exact Or.inr ha)

theorem dequeue_empty (q : Queue) (h : q.Wf []) : dequeue q = (-1, q) := by
  have : q.queue_head = none := h.linked
  simp [dequeue, this]

theorem acquire_free (l : ticket_lock) (h : l.ticket = l.cur_ticket) :
    ticketlock_acquire l = some { ticket := l.ticket + 1, cur_ticket := l.cur_ticket } := by
  simp [ticketlock_acquire, ticketlock_served, ticketlock_draw, h]

theorem run_queue_refines (ops : List QueueOp) (s : QueueState) (cells : List (Nat × Int))
    (hwf : s.queue.Wf cells) (hl : s.queue_lock.ticket = s.queue_lock.cur_ticket)
    (hc : s.queue_cond.lock.ticket = s.queue_cond.lock.cur_ticket) :
    ∃ out s2, runQueue s ops = some (out, s2) ∧
      out = (runFifo (cells.map Prod.snd) ops).1 ∧
      s2.queue.contents = (runFifo (cells.map Prod.snd) ops).2 ∧
      (s2.queue.queue_head = none ↔ s2.queue.queue_tail = none) ∧
      (s2.queue.queue_head = none ↔ s2.queue.contents = []) := by
  induction ops generalizing s cells with
  | nil =>
      refine ⟨[], s, rfl, by simp [runFifo], by simpa [runFifo] using wf_contents _ _ hwf, ?_, ?_⟩
      · rw [(wf_head_tail _ _ hwf).1, (wf_head_tail _ _ hwf).2]
      · rw [(wf_head_tail _ _ hwf).1, wf_contents _ _ hwf]; simp
  | cons op ops ih =>
      cases op with
      | enqueue v =>
          have he : enqueue s v = some
              { queue := ((s.queue.alloc v).2).link (s.queue.alloc v).1,
                queue_lock := ticketlock_release
                  { ticket := s.queue_lock.ticket + 1, cur_ticket := s.queue_lock.cur_ticket },
                queue_cond :=
                  { lock := ticketlock_release
                      { ticket := s.queue_cond.lock.ticket + 1,
                        cur_ticket := s.queue_cond.lock.cur_ticket },
                    waiting := 0 } } := by
            simp [enqueue, condition_variable_broadcast, acquire_free _ hl, acquire_free _ hc]
          obtain ⟨out, s2, h1, h2, h3, h4⟩ :=
            ih { queue := ((s.queue.alloc v).2).link (s.queue.alloc v).1,
                 queue_lock := ticketlock_release
                   { ticket := s.queue_lock.ticket + 1, cur_ticket := s.queue_lock.cur_ticket },
                 queue_cond :=
                   { lock := ticketlock_release
                       { ticket := s.queue_cond.lock.ticket + 1,
                         cur_ticket := s.queue_cond.lock.cur_ticket },
                     waiting := 0 } }
              (cells ++ [(s.queue.brk, v)]) (wf_enqueue _ _ v hwf)
              (by simp [ticketlock_release, hl]) (by simp [ticketlock_release, hc])
          refine ⟨out, s2, ?_, ?_, ?_, h4⟩
          · simp only [runQueue, he]; exact h1
          · simpa [runFifo] using h2
          · simpa [runFifo] using h3
      | dequeue =>
          cases cells with
          | nil =>
              have hd := dequeue_empty _ hwf
              obtain ⟨out, s2, h1, h2, h3, h4⟩ :=
                ih { s with queue := (dequeue s.queue).2 } [] (by rw [hd]; exact hwf) hl hc
              refine ⟨-1 :: out, s2, ?_, ?_, ?_, h4⟩
              · simp only [runQueue, h1]; rw [hd]
              · simp only [List.map_nil, runFifo]; rw [h2]; rfl
              · simpa [runFifo] using h3
          | cons c rest =>
              obtain ⟨hv, hwf2⟩ := wf_dequeue _ c rest hwf
              obtain ⟨out, s2, h1, h2, h3, h4⟩ :=
                ih { s with queue := (dequeue s.queue).2 } rest hwf2 hl hc
              refine ⟨c.2 :: out, s2, ?_, ?_, ?_, h4⟩
              · simp only [runQueue, h1, hv]
              · simp only [List.map_cons, runFifo]; rw [h2]
              · simpa [runFifo] using h3

/-- C9: every sequence of `enqueue` and `dequeue` calls issued from the empty
queue returns, the values returned by the `dequeue` calls are those the FIFO
list returns (the oldest value still queued, or -1 on the empty queue, which
stays empty), the values left in the linked queue, read from `queue_head`
along the `next` links, are the FIFO list, and `queue_head` is NULL exactly
when `queue_tail` is NULL, which is exactly when the queue holds no value. -/
theorem queue_refines_fifo (ops : List QueueOp) :
    ∃ out s, runQueue QueueState.init ops = some (out, s) ∧
      out = (runFifo [] ops).1 ∧
      s.queue.contents = (runFifo [] ops).2 ∧
      (s.queue.queue_head = none ↔ s.queue.queue_tail = none) ∧
      (s.queue.queue_head = none ↔ s.queue.contents = []) :=
  run_queue_refines ops QueueState.init [] wf_empty rfl rfl
/-! ## Theorems: the condition variable -/

namespace Cv

theorem cv_inv_init : Inv init := by
  constructor
  · exact ticket_init _ (fun _ => rfl)
  · exact ticket_init _ (fun _ => rfl)

theorem cv_inv_stepThread (s : State) (i : Nat) (h : Inv s) : Inv (stepThread s i) := by
  obtain ⟨ext, int⟩ := h
  unfold stepThread
  split
  · exact ⟨ext, int⟩
  · exact ⟨ext, int⟩
  · rename_i hp -- a_draw
    refine ⟨ticket_draw_comp _ _ _ i _ ext (by simp [Thread.phaseExt, hp]) (by simp [Thread.phaseExt]),
      ticket_frame_comp _ _ _ i _ int (by simp [Thread.phaseInt, hp])⟩
  · rename_i hp -- a_spin
    split_ifs with hs
    · refine ⟨ticket_enter_comp _ _ _ i _ _ ext (by simp [Thread.phaseExt, hp]) hs (by simp [Thread.phaseExt]),
        ticket_frame_comp _ _ _ i _ int (by cases hh : (s.th i).holds <;> simp [Thread.phaseInt, Thread.back, hp, hh])⟩
    · exact ⟨ext, int⟩
  · rename_i hp -- u_release
    refine ⟨ticket_release_comp _ _ _ i _ ext (by cases hh : (s.th i).holds <;> simp [Thread.phaseExt, Thread.back, hp, hh]) (by cases hh : (s.th i).holds <;> simp [Thread.phaseExt, Thread.back, hp, hh]),
        ticket_frame_comp _ _ _ i _ int (by cases hh : (s.th i).holds <;> simp [Thread.phaseInt, Thread.back, hp, hh])⟩
  · rename_i hp -- w22
    refine ⟨ticket_frame_comp _ _ _ i _ ext (by cases hh : (s.th i).holds <;> simp [Thread.phaseExt, Thread.back, hp, hh]),
        ticket_draw_comp _ _ _ i _ int (by cases hh : (s.th i).holds <;> simp [Thread.phaseInt, Thread.back, hp, hh]) (by simp [Thread.phaseInt])⟩
  · rename_i hp -- w22s
    split_ifs with hs
    · refine ⟨ticket_frame_comp _ _ _ i _ ext (by cases hh : (s.th i).holds <;> simp [Thread.phaseExt, Thread.back, hp, hh]),
        ticket_enter_comp _ _ _ i _ _ int (by simp [Thread.phaseInt, hp]) hs (by simp [Thread.phaseInt])⟩
    · exact ⟨ext, int⟩
  · rename_i hp -- w23
    refine ⟨ticket_frame_comp _ _ _ i _ ext (by cases hh : (s.th i).holds <;> simp [Thread.phaseExt, Thread.back, hp, hh]),
        ticket_frame_comp _ _ _ i _ int (by cases hh : (s.th i).holds <;> simp [Thread.phaseInt, Thread.back, hp, hh])⟩
  · rename_i hp -- w24
    refine ⟨ticket_frame_comp _ _ _ i _ ext (by cases hh : (s.th i).holds <;> simp [Thread.phaseExt, Thread.back, hp, hh]),
        ticket_release_comp _ _ _ i _ int (by cases hh : (s.th i).holds <;> simp [Thread.phaseInt, Thread.back, hp, hh]) (by cases hh : (s.th i).holds <;> simp [Thread.phaseInt, Thread.back, hp, hh])⟩
  · rename_i hp -- w25
    refine ⟨ticket_release_comp _ _ _ i _ ext (by cases hh : (s.th i).holds <;> simp [Thread.phaseExt, Thread.back, hp, hh]) (by cases hh : (s.th i).holds <;> simp [Thread.phaseExt, Thread.back, hp, hh]),
        ticket_frame_comp _ _ _ i _ int (by cases hh : (s.th i).holds <;> simp [Thread.phaseInt, Thread.back, hp, hh])⟩
  · rename_i hp -- w26
    refine ⟨ticket_frame_comp _ _ _ i _ ext (by cases hh : (s.th i).holds <;> simp [Thread.phaseExt, Thread.back, hp, hh]),
        ticket_frame_comp _ _ _ i _ int (by cases hh : (s.th i).holds <;> simp [Thread.phaseInt, Thread.back, hp, hh])⟩
  · rename_i hp -- w27
    refine ⟨ticket_draw_comp _ _ _ i _ ext (by cases hh : (s.th i).holds <;> simp [Thread.phaseExt, Thread.back, hp, hh]) (by simp [Thread.phaseExt]),
        ticket_frame_comp _ _ _ i _ int (by cases hh : (s.th i).holds <;> simp [Thread.phaseInt, Thread.back, hp, hh])⟩
  · rename_i hp -- w27s
    split_ifs with hs
    · refine ⟨ticket_enter_comp _ _ _ i _ _ ext (by simp [Thread.phaseExt, hp]) hs (by simp [Thread.phaseExt]),
        ticket_frame_comp _ _ _ i _ int (by cases hh : (s.th i).holds <;> simp [Thread.phaseInt, Thread.back, hp, hh])⟩
    · exact ⟨ext, int⟩
  · rename_i hp -- g36
    refine ⟨ticket_frame_comp _ _ _ i _ ext (by cases hh : (s.th i).holds <;> simp [Thread.phaseExt, Thread.back, hp, hh]),
        ticket_draw_comp _ _ _ i _ int (by cases hh : (s.th i).holds <;> simp [Thread.phaseInt, Thread.back, hp, hh]) (by simp [Thread.phaseInt])⟩
  · rename_i hp -- g36s
    split_ifs with hs
    · refine ⟨ticket_frame_comp _ _ _ i _ ext (by cases hh : (s.th i).holds <;> simp [Thread.phaseExt, Thread.back, hp, hh]),
        ticket_enter_comp _ _ _ i _ _ int (by simp [Thread.phaseInt, hp]) hs (by simp [Thread.phaseInt])⟩
    · exact ⟨ext, int⟩
  · rename_i hp -- g38
    split_ifs with hs
    · refine ⟨ticket_frame_comp _ _ _ i _ ext (by cases hh : (s.th i).holds <;> simp [Thread.phaseExt, Thread.back, hp, hh]),
        ticket_frame_comp _ _ _ i _ int (by cases hh : (s.th i).holds <;> simp [Thread.phaseInt, Thread.back, hp, hh])⟩
    · refine ⟨ticket_frame_comp _ _ _ i _ ext (by cases hh : (s.th i).holds <;> simp [Thread.phaseExt, Thread.back, hp, hh]),
        ticket_frame_comp _ _ _ i _ int (by cases hh : (s.th i).holds <;> simp [Thread.phaseInt, Thread.back, hp, hh])⟩
  · rename_i hp -- g40
    refine ⟨ticket_frame_comp _ _ _ i _ ext (by cases hh : (s.th i).holds <;> simp [Thread.phaseExt, Thread.back, hp, hh]),
        ticket_frame_comp _ _ _ i _ int (by cases hh : (s.th i).holds <;> simp [Thread.phaseInt, Thread.back, hp, hh])⟩
  · rename_i hp -- g43
    refine ⟨ticket_frame_comp _ _ _ i _ ext (by cases hh : (s.th i).holds <;> simp [Thread.phaseExt, Thread.back, hp, hh]),
        ticket_release_comp _ _ _ i _ int (by cases hh : (s.th i).holds <;> simp [Thread.phaseInt, Thread.back, hp, hh]) (by cases hh : (s.th i).holds <;> simp [Thread.phaseInt, Thread.back, hp, hh])⟩
  · rename_i hp -- b52
    refine ⟨ticket_frame_comp _ _ _ i _ ext (by cases hh : (s.th i).holds <;> simp [Thread.phaseExt, Thread.back, hp, hh]),
        ticket_draw_comp _ _ _ i _ int (by cases hh : (s.th i).holds <;> simp [Thread.phaseInt, Thread.back, hp, hh]) (by simp [Thread.phaseInt])⟩
  · rename_i hp -- b52s
    split_ifs with hs
    · refine ⟨ticket_frame_comp _ _ _ i _ ext (by cases hh : (s.th i).holds <;> simp [Thread.phaseExt, Thread.back, hp, hh]),
        ticket_enter_comp _ _ _ i _ _ int (by simp [Thread.phaseInt, hp]) hs (by simp [Thread.phaseInt])⟩
    · exact ⟨ext, int⟩
  · rename_i hp -- b53
    refine ⟨ticket_frame_comp _ _ _ i _ ext (by cases hh : (s.th i).holds <;> simp [Thread.phaseExt, Thread.back, hp, hh]),
        ticket_frame_comp _ _ _ i _ int (by cases hh : (s.th i).holds <;> simp [Thread.phaseInt, Thread.back, hp, hh])⟩
  · rename_i hp -- b54
    refine ⟨ticket_frame_comp _ _ _ i _ ext (by cases hh : (s.th i).holds <;> simp [Thread.phaseExt, Thread.back, hp, hh]),
        ticket_release_comp _ _ _ i _ int (by cases hh : (s.th i).holds <;> simp [Thread.phaseInt, Thread.back, hp, hh]) (by cases hh : (s.th i).holds <;> simp [Thread.phaseInt, Thread.back, hp, hh])⟩

end Cv

namespace Cv

theorem cv_inv_enter (s : State) (i : Nat) (t : Thread) (h : Inv s)
    (he : t.phaseExt = (s.th i).phaseExt) (hi : t.phaseInt = (s.th i).phaseInt) :
    Inv (s.set i t) :=
  ⟨ticket_frame_comp _ _ _ i _ h.ext he, ticket_frame_comp _ _ _ i _ h.int hi⟩

theorem cv_inv_step (s : State) (e : Ev) (h : Inv s) : Inv (step s e) := by
  cases e with
  | step i => exact cv_inv_stepThread s i h
  | lock i =>
      simp only [step]
      split_ifs with hp
      · exact cv_inv_enter s i _ h (by simp [Thread.phaseExt, hp]) (by simp [Thread.phaseInt, hp])
      · exact h
  | unlock i =>
      simp only [step]
      split_ifs with hp
      · exact cv_inv_enter s i _ h (by simp [Thread.phaseExt, hp]) (by simp [Thread.phaseInt, hp])
      · exact h
  | wait i =>
      simp only [step]
      split_ifs with hp
      · exact cv_inv_enter s i _ h (by simp [Thread.phaseExt, hp]) (by simp [Thread.phaseInt, hp])
      · exact h
  | signal i =>
      simp only [step]
      split_ifs with hp hp2
      · exact cv_inv_enter s i _ h (by simp [Thread.phaseExt, hp]) (by simp [Thread.phaseInt, hp])
      · exact cv_inv_enter s i _ h (by simp [Thread.phaseExt, hp2]) (by simp [Thread.phaseInt, hp2])
      · exact h
  | broadcast i =>
      simp only [step]
      split_ifs with hp hp2
      · exact cv_inv_enter s i _ h (by simp [Thread.phaseExt, hp]) (by simp [Thread.phaseInt, hp])
      · exact cv_inv_enter s i _ h (by simp [Thread.phaseExt, hp2]) (by simp [Thread.phaseInt, hp2])
      · exact h

theorem cv_inv_run (evs : List Ev) (s : State) (h : Inv s) : Inv (run s evs) := by
  induction evs generalizing s with
  | nil => exact h
  | cons e es ih => exact ih (step s e) (cv_inv_step s e h)


end Cv

namespace Cv

/-- A step of thread `j` changes the private state of no other thread. -/
theorem cv_step_other (s : State) (j u : Nat) (hu : u ≠ j) :
    (stepThread s j).th u = s.th u := by
  unfold stepThread
  split <;> (try split_ifs) <;> simp [State.set, Function.update_noteq hu]

end Cv

namespace Cv

end Cv

namespace Cv

end Cv

namespace Cv

end Cv

namespace Cv

/-- An event of another thread leaves the private state of a thread alone. -/
theorem cv_step_foreign (s : State) (e : Ev) (i : Nat) (he : e.tid ≠ i) :
    (step s e).th i = s.th i := by
  cases e with
  | step j => exact cv_step_other s j i (fun h => he h.symm)
  | lock j | unlock j | wait j =>
      have hij : i ≠ j := fun h => he h.symm
      simp only [step]
      split_ifs <;> simp [State.set, Function.update_noteq hij]
  | signal j | broadcast j =>
      have hij : i ≠ j := fun h => he h.symm
      simp only [step]
      split_ifs <;> simp [State.set, Function.update_noteq hij]

/-- The call events of a thread that is inside a call do nothing. -/
theorem cv_call_inside (s : State) (e : Ev) (hidle : (s.th e.tid).pc ≠ Pc.idle)
    (hhold : (s.th e.tid).pc ≠ Pc.holding) (hstep : ∀ j, e ≠ Ev.step j) : step s e = s := by
  cases e with
  | step j => exact absurd rfl (hstep j)
  | lock j | unlock j | wait j => simp only [Ev.tid] at hidle hhold; simp [step, hidle, hhold]
  | signal j | broadcast j => simp only [Ev.tid] at hidle hhold; simp [step, hidle, hhold]

/-- A call event changes neither the condition variable nor `ext_lock`. -/
theorem cv_call_globals (s : State) (e : Ev) (hstep : ∀ j, e ≠ Ev.step j) :
    (step s e).cv = s.cv ∧ (step s e).ext_lock = s.ext_lock := by
  cases e with
  | step j => exact absurd rfl (hstep j)
  | lock j | unlock j | wait j => simp only [step]; split_ifs <;> simp [State.set]
  | signal j | broadcast j => simp only [step]; split_ifs <;> simp [State.set]

/-- While a thread holds the internal lock, the events of the other threads
change neither the counter nor the ticket being served. -/
theorem cv_section_foreign (s : State) (e : Ev) (i : Nat) (h : Inv s)
    (hheld : (s.th i).phaseInt = LockPhase.held) (he : e.tid ≠ i) :
    (step s e).cv.waiting = s.cv.waiting ∧
    (step s e).cv.lock.cur_ticket = s.cv.lock.cur_ticket := by
  have hg := cv_call_globals s e
  cases e with
  | step j =>
      have hji : j ≠ i := he
      have hnot : (s.th j).phaseInt ≠ LockPhase.held :=
        fun hj => hji (h.int.holder_unique j i hj hheld)
      simp only [step, stepThread]
      cases hp : (s.th j).pc <;> simp [Thread.phaseInt, hp] at hnot <;>
        simp [State.set, ticketlock_draw] <;> split_ifs <;> simp
  | lock j | unlock j | wait j =>
      obtain ⟨a, -⟩ := hg (by intro k; simp)
      rw [a]; exact ⟨rfl, rfl⟩
  | signal j | broadcast j =>
      obtain ⟨a, -⟩ := hg (by intro k; simp)
      rw [a]; exact ⟨rfl, rfl⟩

/-- No counter of a ticket lock ever goes back. -/
theorem cv_mono_step (s : State) (e : Ev) :
    s.ext_lock.ticket ≤ (step s e).ext_lock.ticket ∧
    s.ext_lock.cur_ticket ≤ (step s e).ext_lock.cur_ticket ∧
    s.cv.lock.ticket ≤ (step s e).cv.lock.ticket ∧
    s.cv.lock.cur_ticket ≤ (step s e).cv.lock.cur_ticket := by
  have hg := cv_call_globals s e
  cases e with
  | step j =>
      simp only [step, stepThread]
      cases hp : (s.th j).pc <;> simp [State.set, ticketlock_draw, ticketlock_release] <;>
        split_ifs <;> simp
  | lock j | unlock j | wait j =>
      obtain ⟨a, b⟩ := hg (by intro k; simp)
      rw [a, b]; simp
  | signal j | broadcast j =>
      obtain ⟨a, b⟩ := hg (by intro k; simp)
      rw [a, b]; simp

theorem cv_mono_run (evs : List Ev) (s : State) :
    s.ext_lock.ticket ≤ (run s evs).ext_lock.ticket ∧
    s.ext_lock.cur_ticket ≤ (run s evs).ext_lock.cur_ticket ∧
    s.cv.lock.ticket ≤ (run s evs).cv.lock.ticket ∧
    s.cv.lock.cur_ticket ≤ (run s evs).cv.lock.cur_ticket := by
  induction evs generalizing s with
  | nil => exact ⟨le_refl _, le_refl _, le_refl _, le_refl _⟩
  | cons e es ih =>
      obtain ⟨a, b, c, d⟩ := cv_mono_step s e
      obtain ⟨a2, b2, c2, d2⟩ := ih (step s e)
      exact ⟨le_trans a a2, le_trans b b2, le_trans c c2, le_trans d d2⟩

theorem cv_run_append (s : State) (xs ys : List Ev) : run s (xs ++ ys) = run (run s xs) ys := by
  simp [run, List.foldl_append]

theorem cv_run_snoc (s : State) (evs : List Ev) (e : Ev) :
    run s (evs ++ [e]) = step (run s evs) e := by
  simp [run, List.foldl_append]

end Cv

namespace Cv

end Cv

namespace Cv

end Cv
namespace Cv

/-- A call of `condition_variable_wait` by the holder of `ext_lock`, when no
other ticket of `ext_lock` is outstanding and the internal lock is free,
returns after its nine events: each lock has handed out one more ticket and
served one more, the counter has been incremented, and the caller holds
`ext_lock` with the ticket it drew. -/
theorem cv_wait_runs (s : State) (i : Nat) (hp : (s.th i).pc = Pc.holding)
    (he : s.ext_lock.ticket = s.ext_lock.cur_ticket + 1)
    (hc : s.cv.lock.ticket = s.cv.lock.cur_ticket) :
    ((run s (waitCall i)).th i).pc = Pc.holding ∧
    (run s (waitCall i)).ext_lock
      = { ticket := s.ext_lock.ticket + 1, cur_ticket := s.ext_lock.cur_ticket + 1 } ∧
    (run s (waitCall i)).cv.lock
      = { ticket := s.cv.lock.ticket + 1, cur_ticket := s.cv.lock.cur_ticket + 1 } ∧
    (run s (waitCall i)).cv.waiting = wrap32 (s.cv.waiting + 1) ∧
    ((run s (waitCall i)).th i).my_ticket = s.ext_lock.ticket := by
  simp [run, waitCall, step, stepThread, State.set, hp, ticketlock_served, ticketlock_draw,
    ticketlock_release, he, hc]

end Cv

namespace Cv

end Cv
namespace Cv

end Cv

namespace Cv

end Cv

/-! ## Theorems: the waiter counter of the condition variable -/

namespace Cv

theorem cv_count_init : CountInv init :=
  ⟨by decide, fun i hi => by simp [init] at hi⟩

/-- The value of the counter after an action of thread `j` : line 23 adds one,
line 40 subtracts one, both with wrap-around, line 53 stores zero, the others
leave it alone. -/
theorem cv_waiting_stepThread (s : State) (j : Nat) :
    (stepThread s j).cv.waiting =
      if (s.th j).pc = Pc.w23 then wrap32 (s.cv.waiting + 1)
      else if (s.th j).pc = Pc.g40 then wrap32 (s.cv.waiting - 1)
      else if (s.th j).pc = Pc.b53 then 0
      else s.cv.waiting := by
  simp only [stepThread]
  cases hp : (s.th j).pc <;> simp [State.set] <;> split_ifs <;> simp

/-- An action of thread `j` brings it to line 40 only from line 38, with the
counter positive. -/
theorem cv_g40_stepThread (s : State) (j : Nat)
    (h : ((stepThread s j).th j).pc = Pc.g40) :
    (s.th j).pc = Pc.g38 ∧ 0 < s.cv.waiting := by
  simp only [stepThread] at h
  cases hp : (s.th j).pc <;> simp only [hp] at h <;>
    first
    | (split_ifs at h with hc
       · exact ⟨rfl, hc⟩
       · simp [State.set] at h)
    | (exfalso; split_ifs at h <;> simp [State.set, hp, Thread.back] at h)
    | (exfalso; simp [State.set, hp, Thread.back] at h; try split_ifs at h)

theorem cv_count_step (s : State) (e : Ev) (h : Inv s) (hc : CountInv s) :
    CountInv (step s e) := by
  have hg := cv_call_globals s e
  have hin := cv_call_inside s e
  by_cases hstep : ∃ j, e = Ev.step j
  · obtain ⟨j, rfl⟩ := hstep
    have hw := cv_waiting_stepThread s j
    have hexcl : ∀ i, i ≠ j → (s.th i).pc = Pc.g40 → (s.th j).phaseInt ≠ LockPhase.held := by
      intro i hij hi hj
      exact hij (h.int.holder_unique i j (by simp [Thread.phaseInt, hi]) hj)
    constructor
    · show INT_MIN ≤ (stepThread s j).cv.waiting ∧ (stepThread s j).cv.waiting ≤ INT_MAX
      rw [hw]
      split_ifs
      · exact wrap32_range _
      · exact wrap32_range _
      · decide
      · exact hc.range
    · intro i hi
      show 0 < (stepThread s j).cv.waiting
      by_cases hij : i = j
      · subst hij
        obtain ⟨h38, hpos⟩ := cv_g40_stepThread s i hi
        rw [hw]; simp [h38]; exact hpos
      · have hi0 : (s.th i).pc = Pc.g40 := by
          rw [← cv_step_other s j i hij]; exact hi
        have hj := hexcl i hij hi0
        have hpos := hc.pos i hi0
        rw [hw]
        split_ifs with h1 h2 h3
        · exact absurd (by simp [Thread.phaseInt, h1]) hj
        · exact absurd (by simp [Thread.phaseInt, h2]) hj
        · exact absurd (by simp [Thread.phaseInt, h3]) hj
        · exact hpos
  · have hns : ∀ j, e ≠ Ev.step j := fun j hj => hstep ⟨j, hj⟩
    obtain ⟨a, -⟩ := hg hns
    constructor
    · rw [a]; exact hc.range
    · intro i hi
      rw [a]
      by_cases hie : e.tid = i
      · subst hie
        by_cases h1 : (s.th e.tid).pc = Pc.idle
        · exfalso
          cases e <;> first | exact absurd rfl (hns _) | (simp [step, Ev.tid] at hi h1; simp [h1, State.set] at hi)
        · by_cases h2 : (s.th e.tid).pc = Pc.holding
          · exfalso
            cases e <;> first | exact absurd rfl (hns _) | (simp [step, Ev.tid] at hi h2; simp [h2, State.set] at hi)
          · rw [hin h1 h2 hns] at hi; exact hc.pos _ hi
      · rw [cv_step_foreign s e i hie] at hi; exact hc.pos i hi

theorem cv_count_run (evs : List Ev) (s : State) (h : Inv s) (hc : CountInv s) :
    CountInv (run s evs) := by
  induction evs generalizing s with
  | nil => exact hc
  | cons e es ih => exact ih (step s e) (cv_inv_step s e h) (cv_count_step s e h hc)


/-- A property of the private state of thread `i` and of the counter that
implies that `i` holds the internal lock, and that the actions of `i` keep
until `i` releases the lock, holds for as long as the ticket being served is
the same: the other threads cannot interfere. -/
theorem cv_section_run (Q : Thread → Int → Prop) (s0 : State) (i : Nat) (h0 : Inv s0)
    (hQ0 : Q (s0.th i) s0.cv.waiting)
    (hheld : ∀ x w, Q x w → x.phaseInt = LockPhase.held)
    (hstep : ∀ s, Q (s.th i) s.cv.waiting →
      (stepThread s i).cv.lock.cur_ticket = s.cv.lock.cur_ticket →
      Q ((stepThread s i).th i) (stepThread s i).cv.waiting) :
    ∀ evs, (run s0 evs).cv.lock.cur_ticket = s0.cv.lock.cur_ticket →
      Q ((run s0 evs).th i) (run s0 evs).cv.waiting := by
  intro evs
  induction evs using List.reverseRecOn with
  | nil => intro _; exact hQ0
  | append_singleton l e ih =>
      intro hcur
      rw [cv_run_snoc] at hcur ⊢
      have m1 := (cv_mono_run l s0).2.2.2
      have m2 := (cv_mono_step (run s0 l) e).2.2.2
      have hcl : (run s0 l).cv.lock.cur_ticket = s0.cv.lock.cur_ticket := by omega
      have hQ := ih hcl
      have hinv : Inv (run s0 l) := cv_inv_run l s0 h0
      have hh := hheld _ _ hQ
      generalize run s0 l = s at *
      by_cases hie : e.tid = i
      · by_cases hs : ∃ j, e = Ev.step j
        · obtain ⟨j, rfl⟩ := hs
          simp only [Ev.tid] at hie
          subst hie
          exact hstep s hQ (by rw [hcl]; exact hcur)
        · have hns : ∀ j, e ≠ Ev.step j := fun j hj => hs ⟨j, hj⟩
          have hin := cv_call_inside s e
            (by rw [hie]; intro hp; simp [Thread.phaseInt, hp] at hh)
            (by rw [hie]; intro hp; simp [Thread.phaseInt, hp] at hh) hns
          rw [hin]; exact hQ
      · rw [cv_step_foreign s e i hie, (cv_section_foreign s e i hinv hh hie).1]
        exact hQ

/-- A signal that holds the internal lock and is about to test the counter
(line 38), which is `w` : for as long as it holds the lock it stands at line 38
or 40 with the counter still `w`, or at line 43 with the counter decremented
if `w` was positive and `w` if not. -/
theorem cv_signal_section (s0 : State) (i : Nat) (h0 : Inv s0)
    (hp : (s0.th i).pc = Pc.g38) (evs : List Ev)
    (hcur : (run s0 evs).cv.lock.cur_ticket = s0.cv.lock.cur_ticket) :
    (((run s0 evs).th i).pc = Pc.g38 ∧ (run s0 evs).cv.waiting = s0.cv.waiting) ∨
    (((run s0 evs).th i).pc = Pc.g40 ∧ (run s0 evs).cv.waiting = s0.cv.waiting ∧
      0 < s0.cv.waiting) ∨
    (((run s0 evs).th i).pc = Pc.g43 ∧
      (run s0 evs).cv.waiting
        = if 0 < s0.cv.waiting then wrap32 (s0.cv.waiting - 1) else s0.cv.waiting) := by
  refine cv_section_run
    (fun x v => (x.pc = Pc.g38 ∧ v = s0.cv.waiting) ∨
      (x.pc = Pc.g40 ∧ v = s0.cv.waiting ∧ 0 < s0.cv.waiting) ∨
      (x.pc = Pc.g43 ∧
        v = if 0 < s0.cv.waiting then wrap32 (s0.cv.waiting - 1) else s0.cv.waiting))
    s0 i h0 (Or.inl ⟨hp, rfl⟩) ?_ ?_ evs hcur
  · rintro x v (⟨h, -⟩ | ⟨h, -⟩ | ⟨h, -⟩) <;> simp [Thread.phaseInt, h]
  · intro s hQ hc
    rcases hQ with ⟨h, hv⟩ | ⟨h, hv, hpos⟩ | ⟨h, hv⟩
    · by_cases hw : 0 < s.cv.waiting
      · right; left
        have hw0 : 0 < s0.cv.waiting := by rw [← hv]; exact hw
        have e : stepThread s i = s.set i { s.th i with pc := Pc.g40 } := by
          simp [stepThread, h, hw]
        rw [e]
        exact ⟨by simp [State.set], hv, hw0⟩
      · right; right
        have hw0 : ¬ 0 < s0.cv.waiting := by rw [← hv]; exact hw
        have e : stepThread s i = s.set i { s.th i with pc := Pc.g43 } := by
          simp [stepThread, h, hw]
        rw [e]
        exact ⟨by simp [State.set], by rw [if_neg hw0]; exact hv⟩
    · right; right
      have e : stepThread s i
          = { s with cv := { s.cv with waiting := wrap32 (s.cv.waiting - 1) } }.set i
            { s.th i with pc := Pc.g43 } := by
        simp [stepThread, h]
      rw [e]
      exact ⟨by simp [State.set], by rw [if_pos hpos, ← hv]; rfl⟩
    · exfalso
      simp [stepThread, h, State.set, ticketlock_release] at hc

/-- A broadcast that holds the internal lock and is about to store the counter
(line 53): for as long as it holds the lock it stands at line 53, or at line 54
with the counter zero. -/
theorem cv_broadcast_section (s0 : State) (i : Nat) (h0 : Inv s0)
    (hp : (s0.th i).pc = Pc.b53) (evs : List Ev)
    (hcur : (run s0 evs).cv.lock.cur_ticket = s0.cv.lock.cur_ticket) :
    ((run s0 evs).th i).pc = Pc.b53 ∨
    (((run s0 evs).th i).pc = Pc.b54 ∧ (run s0 evs).cv.waiting = 0) := by
  refine cv_section_run (fun x v => x.pc = Pc.b53 ∨ (x.pc = Pc.b54 ∧ v = 0))
    s0 i h0 (Or.inl hp) ?_ ?_ evs hcur
  · rintro x v (h | ⟨h, -⟩) <;> simp [Thread.phaseInt, h]
  · intro s hQ hc
    rcases hQ with h | ⟨h, hv⟩
    · right
      simp [stepThread, h, State.set]
    · exfalso
      simp [stepThread, h, State.set, ticketlock_release] at hc

/-- A wait that holds the internal lock and is about to increment the counter
(line 23), which is `w` : for as long as it holds the lock it stands at line 23
with the counter `w`, or at line 24 with the counter incremented. -/
theorem cv_wait_section (s0 : State) (i : Nat) (h0 : Inv s0)
    (hp : (s0.th i).pc = Pc.w23) (evs : List Ev)
    (hcur : (run s0 evs).cv.lock.cur_ticket = s0.cv.lock.cur_ticket) :
    (((run s0 evs).th i).pc = Pc.w23 ∧ (run s0 evs).cv.waiting = s0.cv.waiting) ∨
    (((run s0 evs).th i).pc = Pc.w24 ∧
      (run s0 evs).cv.waiting = wrap32 (s0.cv.waiting + 1)) := by
  refine cv_section_run
    (fun x v => (x.pc = Pc.w23 ∧ v = s0.cv.waiting) ∨
      (x.pc = Pc.w24 ∧ v = wrap32 (s0.cv.waiting + 1)))
    s0 i h0 (Or.inl ⟨hp, rfl⟩) ?_ ?_ evs hcur
  · rintro x v (⟨h, -⟩ | ⟨h, -⟩) <;> simp [Thread.phaseInt, h]
  · intro s hQ hc
    rcases hQ with ⟨h, hv⟩ | ⟨h, hv⟩
    · right
      simp [stepThread, h, State.set, hv]
    · exfalso
      simp [stepThread, h, State.set, ticketlock_release] at hc

/-- A call of `condition_variable_signal` that finds the internal lock free
decrements the counter if it was positive and leaves it alone if not, and
returns to where it was called with the lock free again. -/
theorem cv_signal_runs (s : State) (i : Nat)
    (hp : (s.th i).pc = Pc.idle ∨ (s.th i).pc = Pc.holding)
    (hc : s.cv.lock.ticket = s.cv.lock.cur_ticket) :
    (run s (signalCall i)).cv.waiting
      = (if 0 < s.cv.waiting then wrap32 (s.cv.waiting - 1) else s.cv.waiting) ∧
    ((run s (signalCall i)).th i).pc = (s.th i).pc ∧
    (run s (signalCall i)).cv.lock.ticket = (run s (signalCall i)).cv.lock.cur_ticket ∧
    (run s (signalCall i)).ext_lock = s.ext_lock := by
  rcases hp with hp | hp <;> by_cases hw : 0 < s.cv.waiting <;>
    simp [run, signalCall, step, stepThread, State.set, hp, ticketlock_served, ticketlock_draw,
      ticketlock_release, hc, hw, Thread.back]

/-- A call of `condition_variable_broadcast` that finds the internal lock free
leaves the counter at 0 and returns to where it was called with the lock free
again. -/
theorem cv_broadcast_runs (s : State) (i : Nat)
    (hp : (s.th i).pc = Pc.idle ∨ (s.th i).pc = Pc.holding)
    (hc : s.cv.lock.ticket = s.cv.lock.cur_ticket) :
    (run s (broadcastCall i)).cv.waiting = 0 ∧
    ((run s (broadcastCall i)).th i).pc = (s.th i).pc ∧
    (run s (broadcastCall i)).cv.lock.ticket = (run s (broadcastCall i)).cv.lock.cur_ticket ∧
    (run s (broadcastCall i)).ext_lock = s.ext_lock := by
  rcases hp with hp | hp <;>
    simp [run, broadcastCall, step, stepThread, State.set, hp, ticketlock_served,
      ticketlock_draw, ticketlock_release, hc, Thread.back]

/-- After `n` calls of `condition_variable_wait` by the holder of an
uncontended `ext_lock`, the counter is `n` higher, as long as that does not
exceed `INT_MAX`. -/
theorem cv_waits_run (i : Nat) (n : Nat) : ∀ (s : State), (s.th i).pc = Pc.holding →
    s.ext_lock.ticket = s.ext_lock.cur_ticket + 1 → s.cv.lock.ticket = s.cv.lock.cur_ticket →
    INT_MIN ≤ s.cv.waiting → s.cv.waiting + n ≤ INT_MAX →
    ((run s (waitCalls i n)).th i).pc = Pc.holding ∧
    (run s (waitCalls i n)).ext_lock.ticket = (run s (waitCalls i n)).ext_lock.cur_ticket + 1 ∧
    (run s (waitCalls i n)).cv.lock.ticket = (run s (waitCalls i n)).cv.lock.cur_ticket ∧
    (run s (waitCalls i n)).cv.waiting = s.cv.waiting + n := by
  induction n with
  | zero => intro s hp he hc _ _; exact ⟨hp, he, hc, by simp [waitCalls, run]⟩
  | succ n ih =>
      intro s hp he hc hmin hmax
      push_cast at hmax
      obtain ⟨a, b, c, d⟩ := ih s hp he hc hmin (by omega)
      obtain ⟨a2, b2, c2, d2, -⟩ := cv_wait_runs (run s (waitCalls i n)) i a b c
      simp only [waitCalls, cv_run_append]
      refine ⟨a2, by rw [b2]; simp [b], by rw [c2]; simp [c], ?_⟩
      rw [d2, d, wrap32_id _ (by omega) (by omega)]; push_cast; ring


theorem cv_budget_init : Budget init 0 := by
  refine ⟨by decide, 0, ⟨∅, fun j => ?_, by simp⟩, by decide⟩
  simp [init, Pc.toIncrement]

/-- The budget is kept by a change of one thread that neither changes the
counter nor moves the thread into or out of the lines before the increment. -/
theorem cv_budget_move (s s2 : State) (j : Nat) (x : Thread) (n : Nat) (hb : Budget s n)
    (hth : s2.th = Function.update s.th j x) (hw : s2.cv.waiting = s.cv.waiting)
    (hf : x.pc.toIncrement = (s.th j).pc.toIncrement) : Budget s2 n := by
  obtain ⟨h0, c, hc, hle⟩ := hb
  refine ⟨by rw [hw]; exact h0, c, ?_, by rw [hw]; exact hle⟩
  have := counted_frame (fun t : Thread => t.pc.toIncrement) s.th c j x hc hf
  rw [hth]; exact this

theorem cv_budget_mono (s : State) (n m : Nat) (hb : Budget s n) (h : n ≤ m) : Budget s m := by
  obtain ⟨h0, c, hc, hle⟩ := hb
  exact ⟨h0, c, hc, le_trans hle (by exact_mod_cast h)⟩

theorem cv_budget_stepThread (s : State) (j : Nat) (n : Nat) (hc : CountInv s)
    (hb : Budget s n) (hn : (n : Int) ≤ INT_MAX) : Budget (stepThread s j) n := by
  by_cases h23 : (s.th j).pc = Pc.w23
  · obtain ⟨h0, c, hcnt, hle⟩ := hb
    have hpos : 0 < c := counted_pos _ c j hcnt (by simp [h23, Pc.toIncrement])
    have e : stepThread s j
        = { s with cv := { s.cv with waiting := wrap32 (s.cv.waiting + 1) } }.set j
          { s.th j with pc := Pc.w24 } := by
      simp [stepThread, h23]
    have hmin : INT_MIN ≤ s.cv.waiting + 1 := by
      have : INT_MIN = -2147483648 := rfl
      omega
    have hw : wrap32 (s.cv.waiting + 1) = s.cv.waiting + 1 := wrap32_id _ hmin (by omega)
    rw [e]
    refine ⟨by show 0 ≤ wrap32 (s.cv.waiting + 1); rw [hw]; omega, c - 1, ?_, ?_⟩
    · exact counted_leave_comp (fun t : Thread => t.pc.toIncrement) s.th c j
        { s.th j with pc := Pc.w24 } hcnt (by simp [h23, Pc.toIncrement])
        (by simp [Pc.toIncrement])
    · show wrap32 (s.cv.waiting + 1) + (c - 1) ≤ n
      rw [hw]; omega
  · by_cases h40 : (s.th j).pc = Pc.g40
    · have hp := hc.pos j h40
      have hr := hc.range
      have e : stepThread s j
          = { s with cv := { s.cv with waiting := wrap32 (s.cv.waiting - 1) } }.set j
            { s.th j with pc := Pc.g43 } := by
        simp [stepThread, h40]
      have hmin : INT_MIN ≤ s.cv.waiting - 1 := by
        have : INT_MIN = -2147483648 := rfl
        omega
      have hw : wrap32 (s.cv.waiting - 1) = s.cv.waiting - 1 := wrap32_id _ hmin (by omega)
      obtain ⟨h0, c, hcnt, hle⟩ := hb
      rw [e]
      refine ⟨by show 0 ≤ wrap32 (s.cv.waiting - 1); rw [hw]; omega, c, ?_, ?_⟩
      · exact counted_frame (fun t : Thread => t.pc.toIncrement) s.th c j
          { s.th j with pc := Pc.g43 } hcnt (by simp [h40, Pc.toIncrement])
      · show wrap32 (s.cv.waiting - 1) + c ≤ n
        rw [hw]; omega
    · by_cases h53 : (s.th j).pc = Pc.b53
      · have e : stepThread s j
            = { s with cv := { s.cv with waiting := 0 } }.set j { s.th j with pc := Pc.b54 } := by
          simp [stepThread, h53]
        obtain ⟨h0, c, hcnt, hle⟩ := hb
        rw [e]
        refine ⟨le_refl _, c, ?_, ?_⟩
        · exact counted_frame (fun t : Thread => t.pc.toIncrement) s.th c j
            { s.th j with pc := Pc.b54 } hcnt (by simp [h53, Pc.toIncrement])
        · show (0 : Int) + c ≤ n
          omega
      · cases hp : (s.th j).pc <;> simp only [stepThread, hp] <;> (try split_ifs) <;>
          first
          | exact hb
          | exact absurd hp h23
          | exact absurd hp h40
          | exact absurd hp h53
          | exact cv_budget_move s _ j _ n hb rfl rfl
              (by rw [hp]; first | rfl | (simp only [Thread.back]; split_ifs <;> rfl))

/-- One event keeps the budget, which a call of `condition_variable_wait`
raises by one. -/
theorem cv_budget_step (s : State) (e : Ev) (n : Nat) (hc : CountInv s) (hb : Budget s n)
    (hn : ((n + waitsIssued [e] : Nat) : Int) ≤ INT_MAX) :
    Budget (step s e) (n + waitsIssued [e]) := by
  cases e with
  | step j =>
      have : waitsIssued [Ev.step j] = 0 := rfl
      rw [this] at hn ⊢
      exact cv_budget_stepThread s j n hc hb hn
  | wait j =>
      have : waitsIssued [Ev.wait j] = 1 := rfl
      rw [this] at hn ⊢
      simp only [step]
      split_ifs with hp
      · obtain ⟨h0, c, hcnt, hle⟩ := hb
        refine ⟨h0, c + 1, ?_, ?_⟩
        · exact counted_enter_comp (fun t : Thread => t.pc.toIncrement) s.th c j
            { s.th j with pc := Pc.w22 } hcnt (by simp [hp, Pc.toIncrement])
            (by simp [Pc.toIncrement])
        · show s.cv.waiting + (c + 1) ≤ ((n + 1 : Nat) : Int)
          push_cast; omega
      · exact cv_budget_mono s n (n + 1) hb (Nat.le_succ n)
  | lock j =>
      have : waitsIssued [Ev.lock j] = 0 := rfl
      rw [this]
      simp only [step]
      split_ifs with hp
      · exact cv_budget_move s _ j _ n hb rfl rfl (by simp [hp, Pc.toIncrement])
      · exact hb
  | unlock j =>
      have : waitsIssued [Ev.unlock j] = 0 := rfl
      rw [this]
      simp only [step]
      split_ifs with hp
      · exact cv_budget_move s _ j _ n hb rfl rfl (by simp [hp, Pc.toIncrement])
      · exact hb
  | signal j =>
      have : waitsIssued [Ev.signal j] = 0 := rfl
      rw [this]
      simp only [step]
      split_ifs with hp hp2
      · exact cv_budget_move s _ j _ n hb rfl rfl (by simp [hp, Pc.toIncrement])
      · exact cv_budget_move s _ j _ n hb rfl rfl (by simp [hp2, Pc.toIncrement])
      · exact hb
  | broadcast j =>
      have : waitsIssued [Ev.broadcast j] = 0 := rfl
      rw [this]
      simp only [step]
      split_ifs with hp hp2
      · exact cv_budget_move s _ j _ n hb rfl rfl (by simp [hp, Pc.toIncrement])
      · exact cv_budget_move s _ j _ n hb rfl rfl (by simp [hp2, Pc.toIncrement])
      · exact hb

theorem cv_waits_cons (e : Ev) (es : List Ev) :
    waitsIssued (e :: es) = waitsIssued [e] + waitsIssued es := by
  simp only [waitsIssued, List.filter_cons]
  split_ifs <;> simp [List.filter]; omega

theorem cv_budget_run (evs : List Ev) : ∀ (s : State) (n : Nat), Inv s → CountInv s →
    Budget s n → ((n + waitsIssued evs : Nat) : Int) ≤ INT_MAX →
    Budget (run s evs) (n + waitsIssued evs) := by
  induction evs with
  | nil => intro s n _ _ hb _; exact hb
  | cons e es ih =>
      intro s n h hc hb hn
      rw [cv_waits_cons] at hn ⊢
      have h1 := cv_budget_step s e n hc hb (by push_cast at hn ⊢; omega)
      have := ih (step s e) (n + waitsIssued [e]) (cv_inv_step s e h) (cv_count_step s e h hc) h1
        (by rw [Nat.add_assoc]; exact hn)
      rw [Nat.add_assoc] at this
      exact this


/-- What an acquisition of `ext_lock` by an idle thread leaves of the initial
state: the caller holds `ext_lock`, nobody waits for it, the internal lock is
free and the counter is 0. -/
theorem cv_lock_runs (i : Nat) :
    ((run init (lockCall i)).th i).pc = Pc.holding ∧
    (run init (lockCall i)).ext_lock.ticket = (run init (lockCall i)).ext_lock.cur_ticket + 1 ∧
    (run init (lockCall i)).cv.lock.ticket = (run init (lockCall i)).cv.lock.cur_ticket ∧
    (run init (lockCall i)).cv.waiting = 0 := by
  simp [run, lockCall, step, stepThread, State.set, init, ticketlock_served, ticketlock_draw,
    ticketlock_init, condition_variable_init]

/-- After any number of uncontended waits the caller holds `ext_lock` again
and both locks are as uncontended as before. -/
theorem cv_waits_shape (i : Nat) (n : Nat) : ∀ (s : State), (s.th i).pc = Pc.holding →
    s.ext_lock.ticket = s.ext_lock.cur_ticket + 1 → s.cv.lock.ticket = s.cv.lock.cur_ticket →
    ((run s (waitCalls i n)).th i).pc = Pc.holding ∧
    (run s (waitCalls i n)).ext_lock.ticket = (run s (waitCalls i n)).ext_lock.cur_ticket + 1 ∧
    (run s (waitCalls i n)).cv.lock.ticket = (run s (waitCalls i n)).cv.lock.cur_ticket := by
  induction n with
  | zero => intro s hp he hc; exact ⟨hp, he, hc⟩
  | succ n ih =>
      intro s hp he hc
      obtain ⟨a, b, c⟩ := ih s hp he hc
      obtain ⟨a2, b2, c2, -, -⟩ := cv_wait_runs (run s (waitCalls i n)) i a b c
      simp only [waitCalls, cv_run_append]
      exact ⟨a2, by rw [b2]; simp [b], by rw [c2]; simp [c]⟩

/-- After 2147483647 uncontended waits the counter stands at `INT_MAX`, which
is not negative.  The next wait does not raise it by one: it leaves it at
`INT_MIN`, a negative value, in a state reached from
`condition_variable_init` by calls of `condition_variable_wait` only; a call of
`condition_variable_signal` then leaves the negative counter as it is. -/
theorem waiting_wraps_after_waits :
    ((run init (lockCall 0 ++ waitCalls 0 2147483647)).th 0).pc = Pc.holding ∧
    (run init (lockCall 0 ++ waitCalls 0 2147483647)).cv.waiting = INT_MAX ∧
    0 ≤ (run init (lockCall 0 ++ waitCalls 0 2147483647)).cv.waiting ∧
    (run init (lockCall 0 ++ waitCalls 0 2147483647 ++ waitCall 0)).cv.waiting = INT_MIN ∧
    (run init (lockCall 0 ++ waitCalls 0 2147483647 ++ waitCall 0)).cv.waiting
      ≠ (run init (lockCall 0 ++ waitCalls 0 2147483647)).cv.waiting + 1 ∧
    (run init (lockCall 0 ++ waitCalls 0 2147483647 ++ waitCall 0)).cv.waiting < 0 ∧
    ((run init (lockCall 0 ++ waitCalls 0 2147483647 ++ waitCall 0)).th 0).pc = Pc.holding ∧
    (run init (lockCall 0 ++ waitCalls 0 2147483647 ++ waitCall 0 ++ signalCall 0)).cv.waiting
      = INT_MIN := by
  obtain ⟨a, b, c, d⟩ := cv_lock_runs 0
  obtain ⟨a1, b1, c1, d1⟩ := cv_waits_run 0 2147483647 (run init (lockCall 0)) a b c
    (by rw [d]; decide) (by rw [d]; decide)
  rw [d] at d1
  have d2 : (run (run init (lockCall 0)) (waitCalls 0 2147483647)).cv.waiting = INT_MAX := by
    rw [d1]; decide
  obtain ⟨a3, b3, c3, d3, -⟩ :=
    cv_wait_runs (run (run init (lockCall 0)) (waitCalls 0 2147483647)) 0 a1 b1 c1
  rw [d2] at d3
  have d4 : (run (run (run init (lockCall 0)) (waitCalls 0 2147483647)) (waitCall 0)).cv.waiting
      = INT_MIN := by rw [d3]; decide
  have hfree : (run (run (run init (lockCall 0)) (waitCalls 0 2147483647))
      (waitCall 0)).cv.lock.ticket
      = (run (run (run init (lockCall 0)) (waitCalls 0 2147483647))
        (waitCall 0)).cv.lock.cur_ticket := by
    rw [c3]; simp [c1]
  obtain ⟨e, -⟩ := cv_signal_runs _ 0 (Or.inr a3) hfree
  rw [d4] at e
  simp only [cv_run_append]
  refine ⟨a1, d2, by rw [d2]; decide, d4, by rw [d4, d2]; decide, by rw [d4]; decide, a3, ?_⟩
  rw [e]; decide

/-- C11, amended.  Let `evs` be any schedule of calls and steps from
`condition_variable_init`, `w` the counter after it and `i` any thread.
(1) If at most `INT_MAX` calls of `condition_variable_wait` were issued in
`evs`, the counter is not negative and not above the number of those calls.
(2) A signal that has acquired the internal lock and finds the counter at `w`
(line 38) returns, whatever the other threads do meanwhile, with the counter at
`w - 1` if `w` was positive and unchanged if not.  (3) A broadcast that has
acquired the internal lock returns with the counter at 0.  (4) A wait that has
acquired the internal lock with the counter at `w` releases it with the
counter at `w + 1` if `w < INT_MAX`, which is so if at most `INT_MAX` waits
were issued, and at `INT_MIN` if `w = INT_MAX`.  In (2)-(4) the state
`run (run init evs) more` is any later state in which the same ticket of the
internal lock is served and the thread is about to release the lock; the
release is its next action.  (5) From every state, a signal or a broadcast
that finds the internal lock free has the same effect after its own events,
and so has a wait by the holder of an uncontended `ext_lock`, which then holds
`ext_lock` again.  (6) After `n ≤ INT_MAX` uncontended waits the counter is
`n`, and a broadcast after any number of waits leaves it at 0. -/
theorem waiting_counter (evs : List Ev) (i : Nat) (n : Nat) :
    ((waitsIssued evs : Int) ≤ INT_MAX →
      0 ≤ (run init evs).cv.waiting ∧ (run init evs).cv.waiting ≤ waitsIssued evs) ∧
    (((run init evs).th i).pc = Pc.g38 → ∀ more,
      (run (run init evs) more).cv.lock.cur_ticket = (run init evs).cv.lock.cur_ticket →
      ((run (run init evs) more).th i).pc = Pc.g43 →
      (0 < (run init evs).cv.waiting →
        (step (run (run init evs) more) (Ev.step i)).cv.waiting = (run init evs).cv.waiting - 1) ∧
      ((run init evs).cv.waiting ≤ 0 →
        (step (run (run init evs) more) (Ev.step i)).cv.waiting = (run init evs).cv.waiting)) ∧
    (((run init evs).th i).pc = Pc.b53 → ∀ more,
      (run (run init evs) more).cv.lock.cur_ticket = (run init evs).cv.lock.cur_ticket →
      ((run (run init evs) more).th i).pc = Pc.b54 →
      (step (run (run init evs) more) (Ev.step i)).cv.waiting = 0) ∧
    (((run init evs).th i).pc = Pc.w23 →
      ((waitsIssued evs : Int) ≤ INT_MAX → (run init evs).cv.waiting < INT_MAX) ∧
      ∀ more,
      (run (run init evs) more).cv.lock.cur_ticket = (run init evs).cv.lock.cur_ticket →
      ((run (run init evs) more).th i).pc = Pc.w24 →
      ((run init evs).cv.waiting < INT_MAX →
        (step (run (run init evs) more) (Ev.step i)).cv.waiting = (run init evs).cv.waiting + 1) ∧
      ((run init evs).cv.waiting = INT_MAX →
        (step (run (run init evs) more) (Ev.step i)).cv.waiting = INT_MIN)) ∧
    ((((run init evs).th i).pc = Pc.idle ∨ ((run init evs).th i).pc = Pc.holding) →
      (run init evs).cv.lock.ticket = (run init evs).cv.lock.cur_ticket →
      (0 < (run init evs).cv.waiting →
        (run (run init evs) (signalCall i)).cv.waiting = (run init evs).cv.waiting - 1) ∧
      ((run init evs).cv.waiting ≤ 0 →
        (run (run init evs) (signalCall i)).cv.waiting = (run init evs).cv.waiting) ∧
      (run (run init evs) (broadcastCall i)).cv.waiting = 0) ∧
    (((run init evs).th i).pc = Pc.holding →
      (run init evs).ext_lock.ticket = (run init evs).ext_lock.cur_ticket + 1 →
      (run init evs).cv.lock.ticket = (run init evs).cv.lock.cur_ticket →
      ((run (run init evs) (waitCall i)).th i).pc = Pc.holding ∧
      ((run init evs).cv.waiting < INT_MAX →
        (run (run init evs) (waitCall i)).cv.waiting = (run init evs).cv.waiting + 1) ∧
      ((run init evs).cv.waiting = INT_MAX →
        (run (run init evs) (waitCall i)).cv.waiting = INT_MIN)) ∧
    ((n : Int) ≤ INT_MAX → (run init (lockCall i ++ waitCalls i n)).cv.waiting = n) ∧
    (run init (lockCall i ++ waitCalls i n ++ broadcastCall i)).cv.waiting = 0 := by
  have hbud : (waitsIssued evs : Int) ≤ INT_MAX → Budget (run init evs) (waitsIssued evs) := by
    intro hb
    have := cv_budget_run evs init 0 cv_inv_init cv_count_init cv_budget_init
      (by rw [Nat.zero_add]; exact hb)
    rw [Nat.zero_add] at this
    exact this
  have h := cv_inv_run evs init cv_inv_init
  have hc := cv_count_run evs init cv_inv_init cv_count_init
  generalize run init evs = s at *
  have hmin : INT_MIN = -2147483648 := rfl
  have hmax : INT_MAX = 2147483647 := rfl
  have hr := hc.range
  have hrel : ∀ (s1 : State), (s1.th i).pc = Pc.g43 ∨ (s1.th i).pc = Pc.b54 ∨
      (s1.th i).pc = Pc.w24 → (step s1 (Ev.step i)).cv.waiting = s1.cv.waiting := by
    intro s1 hp
    rcases hp with hp | hp | hp <;> simp [step, stepThread, hp, State.set]
  refine ⟨?_, ?_, ?_, ?_, ?_, ?_, ?_, ?_⟩
  · intro hb
    obtain ⟨h0, c, hcnt, hle⟩ := hbud hb
    have := counted_nonneg _ c hcnt
    exact ⟨h0, by omega⟩
  · intro hp more hcur hq
    rw [hrel _ (Or.inl hq)]
    rcases cv_signal_section s i h hp more hcur with ⟨h1, -⟩ | ⟨h1, -⟩ | ⟨-, hv⟩
    · rw [hq] at h1; exact absurd h1 (by decide)
    · rw [hq] at h1; exact absurd h1 (by decide)
    · rw [hv]
      constructor
      · intro hpos; rw [if_pos hpos]; exact wrap32_id _ (by omega) (by omega)
      · intro h0; rw [if_neg (by omega)]
  · intro hp more hcur hq
    rw [hrel _ (Or.inr (Or.inl hq))]
    rcases cv_broadcast_section s i h hp more hcur with h1 | ⟨-, hv⟩
    · rw [hq] at h1; exact absurd h1 (by decide)
    · exact hv
  · intro hp
    constructor
    · intro hb
      obtain ⟨h0, c, hcnt, hle⟩ := hbud hb
      have := counted_pos _ c i hcnt (by simp [hp, Pc.toIncrement])
      omega
    · intro more hcur hq
      rw [hrel _ (Or.inr (Or.inr hq))]
      rcases cv_wait_section s i h hp more hcur with ⟨h1, -⟩ | ⟨-, hv⟩
      · rw [hq] at h1; exact absurd h1 (by decide)
      · rw [hv]
        constructor
        · intro hlt; exact wrap32_id _ (by omega) (by omega)
        · intro heq; rw [heq]; decide
  · intro hp hfree
    obtain ⟨a, -⟩ := cv_signal_runs s i hp hfree
    obtain ⟨b, -⟩ := cv_broadcast_runs s i hp hfree
    refine ⟨?_, ?_, b⟩
    · intro hpos; rw [a, if_pos hpos]; exact wrap32_id _ (by omega) (by omega)
    · intro h0; rw [a, if_neg (by omega)]
  · intro hp he hfree
    obtain ⟨a, -, -, d, -⟩ := cv_wait_runs s i hp he hfree
    refine ⟨a, ?_, ?_⟩
    · intro hlt; rw [d]; exact wrap32_id _ (by omega) (by omega)
    · intro heq; rw [d, heq]; decide
  · intro hn
    obtain ⟨a, b, c, d⟩ := cv_lock_runs i
    rw [cv_run_append]
    have := (cv_waits_run i n (run init (lockCall i)) a b c (by rw [d]; decide)
      (by rw [d]; omega)).2.2.2
    rw [this, d]; simp
  · obtain ⟨a, b, c, -⟩ := cv_lock_runs i
    obtain ⟨a2, -, c2⟩ := cv_waits_shape i n (run init (lockCall i)) a b c
    rw [cv_run_append, cv_run_append]
    exact (cv_broadcast_runs _ i (Or.inr a2) c2).1

/-- C11, at a concrete run: thread 0 acquires `ext_lock` and calls
`condition_variable_wait` twice, which leaves the counter between 0 and 2; a
call of `condition_variable_signal` then lowers the counter by one, and a
third call of `condition_variable_wait` would raise it by one. -/
theorem waiting_counter_witness :
    ((waitsIssued (lockCall 0 ++ waitCalls 0 2) : Int) ≤ INT_MAX ∧
      0 ≤ (run init (lockCall 0 ++ waitCalls 0 2)).cv.waiting ∧
      (run init (lockCall 0 ++ waitCalls 0 2)).cv.waiting
        ≤ waitsIssued (lockCall 0 ++ waitCalls 0 2)) ∧
    (run (run init (lockCall 0 ++ waitCalls 0 2)) (signalCall 0)).cv.waiting
      = (run init (lockCall 0 ++ waitCalls 0 2)).cv.waiting - 1 ∧
    (run (run init (lockCall 0 ++ waitCalls 0 2)) (waitCall 0)).cv.waiting
      = (run init (lockCall 0 ++ waitCalls 0 2)).cv.waiting + 1 :=
  ⟨⟨by decide, (waiting_counter (lockCall 0 ++ waitCalls 0 2) 0 0).1 (by decide)⟩,
    ((waiting_counter (lockCall 0 ++ waitCalls 0 2) 0 0).2.2.2.2.1 (by decide) (by decide)).1
      (by decide),
    ((waiting_counter (lockCall 0 ++ waitCalls 0 2) 0 0).2.2.2.2.2.1 (by decide) (by decide)
      (by decide)).2.1 (by decide)⟩

end Cv
/-! ## Theorems: the termination handshake of the pipeline -/

namespace Cp

theorem cp_term_init (P C : Nat) : TermInv P (init P C) := by
  constructor
  · intro t
    cases t with
    | main => constructor <;> simp [init, Thread.start, Pc.past, Pc.beforeSet, Pc.afterSet]
    | prod k =>
        constructor <;> simp only [init] <;> split_ifs <;>
          simp [Thread.start, Pc.past, Pc.beforeSet, Pc.afterSet]
    | cons k =>
        constructor <;> simp only [init] <;> split_ifs <;>
          simp [Thread.start, Pc.past, Pc.beforeSet, Pc.afterSet]
  · refine counted_init _ ?_
    intro t
    cases t <;> simp only [init] <;> (try split_ifs) <;> simp [Thread.start, Pc.past]
  · intro t ht
    cases t with
    | main => simp [init, Thread.start, Pc.isProd] at ht
    | prod k =>
        simp only [init] at ht
        split_ifs at ht with hk
        · exact ⟨k, hk, rfl⟩
        · simp [Thread.start, Pc.isProd] at ht
    | cons k =>
        simp only [init] at ht
        split_ifs at ht <;> simp [Thread.start, Pc.isProd] at ht
  · intro t ht
    cases t <;> simp only [init] at ht <;> (try split_ifs at ht) <;> simp [Thread.start] at ht
  · intro t1 t2 ht
    cases t1 <;> simp only [init] at ht <;> (try split_ifs at ht) <;> simp [Thread.start] at ht
  · intro h0 h1
    simp [init] at h0
    omega
  · intro t ht
    cases t <;> simp only [init] at ht <;> (try split_ifs at ht) <;> simp [Thread.start] at ht
  · rfl

/-- A step of thread `t` that leaves the handshake alone. -/
theorem cp_term_frame (P : Nat) (s s' : State) (t : Tid) (x : Thread) (h : TermInv P s)
    (hth : s'.th = Function.update s.th t x)
    (hfin : s'.producers_finished = s.producers_finished)
    (htot : s'.total_producers = s.total_producers)
    (hdone : s'.producers_done = s.producers_done ∨ s'.producers_done = 1)
    (hlast : x.last = (s.th t).last)
    (hset : x.set_done = true → (s.th t).set_done = true ∨ s'.producers_done = 1)
    (hpast : x.pc.past = (s.th t).pc.past)
    (hprod : x.pc.isProd = true → (s.th t).pc.isProd = true)
    (hok : x.TermOk) : TermInv P s' := by
  obtain ⟨loc, fin, prods, last_fin, last_uniq, fin_last, set_flag, total⟩ := h
  have hself : s'.th t = x := by rw [hth]; simp
  have hother : ∀ u, u ≠ t → s'.th u = s.th u := by
    intro u hu; rw [hth]; simp [Function.update_noteq hu]
  have hl : ∀ u, (s'.th u).last = (s.th u).last := by
    intro u; by_cases hu : u = t
    · subst hu; rw [hself, hlast]
    · rw [hother u hu]
  have hpa : (fun u => (s'.th u).pc.past) = fun u => (s.th u).pc.past := by
    funext u; by_cases hu : u = t
    · subst hu; rw [hself, hpast]
    · rw [hother u hu]
  constructor
  · rw [hth]; exact pointwise_update _ t _ _ loc hok
  · rw [hpa, hfin]; exact fin
  · intro u hu
    by_cases hut : u = t
    · subst hut; rw [hself] at hu; exact prods u (hprod hu)
    · rw [hother u hut] at hu; exact prods u hu
  · intro u hu; rw [hl] at hu; rw [hfin]; exact last_fin u hu
  · intro u1 u2 h1 h2; rw [hl] at h1 h2; exact last_uniq u1 u2 h1 h2
  · intro h0 h1; rw [hfin] at h0
    obtain ⟨u, hu⟩ := fin_last h0 h1
    exact ⟨u, by rw [hl]; exact hu⟩
  · intro u hu
    have key : (s.th u).set_done = true → s'.producers_done = 1 := by
      intro hu2
      rcases hdone with hd | hd
      · rw [hd]; exact set_flag u hu2
      · exact hd
    by_cases hut : u = t
    · subst hut; rw [hself] at hu
      rcases hset hu with h1 | h1
      · exact key h1
      · exact h1
    · rw [hother u hut] at hu; exact key hu
  · rw [htot]; exact total

end Cp

namespace Cp

theorem cp_counted_enter (th : Tid → Thread) (n : Int) (t : Tid) (x : Thread)
    (h : Counted (fun u => (th u).pc.past) n) (h0 : (th t).pc.past = false)
    (h1 : x.pc.past = true) :
    Counted (fun u => (Function.update th t x u).pc.past) (n + 1) := by
  have := counted_enter _ n t h h0
  have e : (fun u => (Function.update th t x u).pc.past)
      = Function.update (fun u => (th u).pc.past) t true := by
    funext u
    by_cases hu : u = t
    · subst hu; simp [h1]
    · simp [Function.update_noteq hu]
  rw [e]; exact this

/-- A producer that has not yet incremented `producers_finished` leaves room
for its increment. -/
theorem cp_fin_bound (P : Nat) (s : State) (t : Tid) (h : TermInv P s)
    (hprod : (s.th t).pc.isProd = true) (hpast : (s.th t).pc.past = false) :
    s.producers_finished + 1 ≤ P := by
  obtain ⟨F, hF, hn⟩ := h.fin
  simp only at hF
  have htF : t ∉ F := by rw [hF t, hpast]; simp
  have hsub : insert t F ⊆ (Finset.range P).image Tid.prod := by
    intro u hu
    rw [Finset.mem_insert] at hu
    have hup : (s.th u).pc.isProd = true := by
      rcases hu with hu | hu
      · rw [hu]; exact hprod
      · exact (h.loc u).past_prod ((hF u).1 hu)
    obtain ⟨k, hk, hku⟩ := h.prods u hup
    rw [Finset.mem_image]
    exact ⟨k, by simpa using hk, hku.symm⟩
  have h1 := Finset.card_le_card hsub
  rw [Finset.card_insert_of_not_mem htF] at h1
  have h2 : ((Finset.range P).image Tid.prod).card ≤ P := by
    calc ((Finset.range P).image Tid.prod).card ≤ (Finset.range P).card := Finset.card_image_le
      _ = P := Finset.card_range P
  rw [hn]
  omega

set_option maxHeartbeats 8000000 in
theorem cp_term_stepThread (D P : Nat) (s : State) (t : Tid) (h : TermInv P s) :
    TermInv P (stepThread D s t) := by
  have hok := h.loc t
  unfold stepThread
  split <;> rename_i hp <;> (try split_ifs) <;>
    first
    | exact h
    | (refine cp_term_frame P s _ t _ h rfl rfl rfl (by first | exact Or.inl rfl | exact Or.inr rfl)
        rfl (by first | exact fun h => Or.inl h | exact fun _ => Or.inr rfl)
        (by simp [hp, Pc.past]) (by simp [hp, Pc.isProd]) ?_
       clear h
       obtain ⟨a, b, c, d, e, f⟩ := hok
       simp only [hp, Pc.past, Pc.beforeSet, Pc.afterSet, Pc.isProd] at a b c d e f
       constructor <;> simp_all [Pc.past, Pc.beforeSet, Pc.afterSet, Pc.isProd])
    | skip
  · -- line 125, the increment reaches total_producers
    rename_i hc
    obtain ⟨a, b, c, d, e, f⟩ := hok
    simp only [hp, Pc.past, Pc.beforeSet, Pc.afterSet, Pc.isProd] at a b c d e f
    have hlast0 : (s.th t).last = false := by
      cases hl : (s.th t).last
      · rfl
      · exact absurd (a hl) (by simp)
    have hset0 : (s.th t).set_done = false := by
      cases hl : (s.th t).set_done
      · rfl
      · rw [d hl] at hlast0; exact absurd hlast0 (by simp)
    have hbound := cp_fin_bound P s t h (by simp [hp, Pc.isProd]) (by simp [hp, Pc.past])
    obtain ⟨loc, fin, prods, last_fin, last_uniq, fin_last, set_flag, total⟩ := h
    have hnolast : ∀ u, (s.th u).last = false := by
      intro u
      cases hl : (s.th u).last
      · rfl
      · have := last_fin u hl; omega
    have hlast' : ∀ u, (Function.update s.th t
        { s.th t with pc := Pc.p127, last := true } u).last = true → u = t := by
      intro u hu
      by_contra hut
      rw [Function.update_noteq hut, hnolast u] at hu
      exact absurd hu (by simp)
    constructor
    · exact pointwise_update _ t _ _ loc
        (by constructor <;> simp [Pc.past, Pc.beforeSet, Pc.afterSet, Pc.isProd, hset0])
    · exact cp_counted_enter _ _ t _ fin (by simp [hp, Pc.past]) rfl
    · intro u hu
      by_cases hut : u = t
      · subst hut; exact prods u (by simp [hp, Pc.isProd])
      · simp only [State.set, Function.update_noteq hut] at hu; exact prods u hu
    · intro u _
      show s.producers_finished + 1 = P
      rw [hc, total]
    · intro u1 u2 h1 h2
      rw [hlast' u1 h1, hlast' u2 h2]
    · intro _ _
      exact ⟨t, by simp [State.set]⟩
    · intro u hu
      by_cases hut : u = t
      · subst hut; simp [State.set, hset0] at hu
      · simp only [State.set, Function.update_noteq hut] at hu; exact set_flag u hu
    · exact total
  · -- line 125, the increment does not reach total_producers
    rename_i hc
    obtain ⟨a, b, c, d, e, f⟩ := hok
    simp only [hp, Pc.past, Pc.beforeSet, Pc.afterSet, Pc.isProd] at a b c d e f
    have hlast0 : (s.th t).last = false := by
      cases hl : (s.th t).last
      · rfl
      · exact absurd (a hl) (by simp)
    have hset0 : (s.th t).set_done = false := by
      cases hl : (s.th t).set_done
      · rfl
      · rw [d hl] at hlast0; exact absurd hlast0 (by simp)
    have hbound := cp_fin_bound P s t h (by simp [hp, Pc.isProd]) (by simp [hp, Pc.past])
    obtain ⟨loc, fin, prods, last_fin, last_uniq, fin_last, set_flag, total⟩ := h
    have hnolast : ∀ u, (s.th u).last = false := by
      intro u
      cases hl : (s.th u).last
      · rfl
      · have := last_fin u hl; omega
    have hlast' : ∀ u, (Function.update s.th t { s.th t with pc := Pc.p_done } u).last
        = false := by
      intro u
      by_cases hut : u = t
      · subst hut; simp [hlast0]
      · rw [Function.update_noteq hut, hnolast u]
    constructor
    · exact pointwise_update _ t _ _ loc
        (by constructor <;> simp [Pc.past, Pc.beforeSet, Pc.afterSet, Pc.isProd, hset0, hlast0])
    · exact cp_counted_enter _ _ t _ fin (by simp [hp, Pc.past]) rfl
    · intro u hu
      by_cases hut : u = t
      · subst hut; exact prods u (by simp [hp, Pc.isProd])
      · simp only [State.goto, State.set, Function.update_noteq hut] at hu; exact prods u hu
    · intro u hu
      have := hlast' u
      simp only [State.goto, State.set] at hu
      rw [this] at hu
      exact absurd hu (by simp)
    · intro u1 u2 h1
      have := hlast' u1
      simp only [State.goto, State.set] at h1
      rw [this] at h1
      exact absurd h1 (by simp)
    · intro h0 _
      exfalso
      apply hc
      rw [total]
      exact h0
    · intro u hu
      by_cases hut : u = t
      · subst hut; simp [State.goto, State.set, hset0] at hu
      · simp only [State.goto, State.set, Function.update_noteq hut] at hu; exact set_flag u hu
    · exact total

end Cp

namespace Cp

theorem cp_term_step (D P : Nat) (s : State) (e : Ev) (h : TermInv P s) :
    TermInv P (step D s e) := by
  cases e with
  | step t => exact cp_term_stepThread D P s t h
  | rand id r =>
      have hok := h.loc (Tid.prod id)
      simp only [step]
      split_ifs with hp
      · refine cp_term_frame P s _ (Tid.prod id) _ h rfl rfl rfl (Or.inl rfl) rfl
          (fun h => Or.inl h) (by simp [hp, Pc.past]) (by simp [hp, Pc.isProd]) ?_
        clear h
        obtain ⟨a, b, c, d, e, f⟩ := hok
        simp only [hp, Pc.past, Pc.beforeSet, Pc.afterSet, Pc.isProd] at a b c d e f
        constructor <;> simp_all [Pc.past, Pc.beforeSet, Pc.afterSet, Pc.isProd]
      · exact h

theorem cp_term_run (D P : Nat) (evs : List Ev) (s : State) (h : TermInv P s) :
    TermInv P (run D s evs) := by
  induction evs generalizing s with
  | nil => exact h
  | cons e es ih => exact ih (step D s e) (cp_term_step D P s e h)

/-- When every producer has returned, `producers_finished` is `P`. -/
theorem cp_all_exited (P : Nat) (s : State) (h : TermInv P s)
    (hall : ∀ k, k < P → (s.th (Tid.prod k)).pc = Pc.p_done) : s.producers_finished = P := by
  obtain ⟨F, hF, hn⟩ := h.fin
  simp only at hF
  have hsub : (Finset.range P).image Tid.prod ⊆ F := by
    intro u hu
    rw [Finset.mem_image] at hu
    obtain ⟨k, hk, rfl⟩ := hu
    rw [hF, hall k (by simpa using hk)]
    rfl
  have hsup : F ⊆ (Finset.range P).image Tid.prod := by
    intro u hu
    obtain ⟨k, hk, hku⟩ := h.prods u ((h.loc u).past_prod ((hF u).1 hu))
    rw [Finset.mem_image]
    exact ⟨k, by simpa using hk, hku.symm⟩
  have heq : F = (Finset.range P).image Tid.prod := Finset.Subset.antisymm hsup hsub
  have hc : ((Finset.range P).image Tid.prod).card = P := by
    rw [Finset.card_image_of_injective _ (fun a b hab => by injection hab), Finset.card_range]
  rw [hn, heq, hc]

/-- C8: for `P >= 1` producers and every interleaving of the threads of the
pipeline, at most one thread ever observes its increment of
`producers_finished` reach `total_producers`; such a thread is a producer that
has executed line 125 and `producers_finished` equals `total_producers` from
then on; once `producers_finished = total_producers` there is exactly one; a
producer stands between lines 127 and 130 or has executed line 128 only if it
is that observer; and once all `P` producers have returned, `producers_done`
is 1 and has been stored by that observer and by no other producer. -/
theorem termination_handshake (D P C : Nat) (hP : 1 ≤ P) (evs : List Ev) :
    (∀ t1 t2, ((run D (init P C) evs).th t1).last = true →
      ((run D (init P C) evs).th t2).last = true → t1 = t2) ∧
    (∀ t, ((run D (init P C) evs).th t).last = true →
      (∃ k, k < P ∧ t = Tid.prod k) ∧ ((run D (init P C) evs).th t).pc.past = true ∧
      (run D (init P C) evs).producers_finished = (run D (init P C) evs).total_producers) ∧
    ((run D (init P C) evs).producers_finished = (run D (init P C) evs).total_producers →
      ∃ t, ((run D (init P C) evs).th t).last = true) ∧
    (∀ t, (((run D (init P C) evs).th t).pc.beforeSet = true ∨
        ((run D (init P C) evs).th t).pc.afterSet = true ∨
        ((run D (init P C) evs).th t).set_done = true) →
      ((run D (init P C) evs).th t).last = true) ∧
    ((∀ k, k < P → ((run D (init P C) evs).th (Tid.prod k)).pc = Pc.p_done) →
      (run D (init P C) evs).producers_done = 1 ∧
      ∃ k, k < P ∧ ((run D (init P C) evs).th (Tid.prod k)).last = true ∧
        ((run D (init P C) evs).th (Tid.prod k)).set_done = true ∧
        ∀ t, ((run D (init P C) evs).th t).set_done = true → t = Tid.prod k) := by
  have h := cp_term_run D P evs (init P C) (cp_term_init P C)
  generalize run D (init P C) evs = s at *
  refine ⟨h.last_uniq, ?_, ?_, ?_, ?_⟩
  · intro t ht
    have hpast := (h.loc t).last_past ht
    exact ⟨h.prods t ((h.loc t).past_prod hpast), hpast, by rw [h.last_fin t ht, h.total]⟩
  · intro hf
    exact h.fin_last (by rw [hf, h.total]) hP
  · intro t ht
    rcases ht with ht | ht | ht
    · exact ((h.loc t).before ht).1
    · exact ((h.loc t).after ht).1
    · exact (h.loc t).set_last ht
  · intro hall
    have hf := cp_all_exited P s h hall
    obtain ⟨t, ht⟩ := h.fin_last hf hP
    obtain ⟨k, hk, rfl⟩ := h.prods t ((h.loc t).past_prod ((h.loc t).last_past ht))
    have hset := (h.loc (Tid.prod k)).done_set (hall k hk) ht
    refine ⟨h.set_flag _ hset, k, hk, ht, hset, ?_⟩
    intro u hu
    exact h.last_uniq u _ ((h.loc u).set_last hu) ht

end Cp

namespace Cp
/-- C8, at a concrete run: one producer, alone, domain of one value. -/
theorem termination_handshake_witness :
    1 ≤ 1 ∧ (run 1 (init 1 1) soloRun).producers_done = 1 ∧
    ∃ k, k < 1 ∧ ((run 1 (init 1 1) soloRun).th (Tid.prod k)).last = true ∧
      ((run 1 (init 1 1) soloRun).th (Tid.prod k)).set_done = true ∧
      ∀ t, ((run 1 (init 1 1) soloRun).th t).set_done = true → t = Tid.prod k :=
  ⟨by decide, (termination_handshake 1 1 1 (by decide) soloRun).2.2.2.2 (by decide)⟩
end Cp
/-! ## Theorems: the generation registry of the pipeline -/

namespace Cp

end Cp

namespace Cp

end Cp

namespace Cp

end Cp

namespace Cp

end Cp
/-! ## Theorems: particular runs of the pipeline -/

namespace Cp

theorem cp_run_append (D : Nat) (s : State) (xs ys : List Ev) :
    run D s (xs ++ ys) = run D (run D s xs) ys := by
  simp [run, List.foldl_append]

end Cp

namespace Cp

theorem cp_fresh_init (P C : Nat) (hP : 0 < P) : Fresh 0 (init P C) := by
  constructor <;> simp [init, hP, Thread.start, ticketlock_init, condition_variable_init]

end Cp

namespace Cp

theorem cp_quiet_iter (D n : Nat) (s : State) (h : Quiet n s) (hn : n + 1 < D) :
    Quiet (n + 1) (run D s (prodIter n ++ consIter)) := by
  obtain ⟨⟨pp, cnt, flags, fl, ql, cl, pl, enq⟩, cp, mp, qh, qt, pd, pf, tp, np, nc, deq⟩ := h
  have hmod : n % D = n := Nat.mod_eq_of_lt (by omega)
  have hc : ¬ ((D : Int) ≤ (n : Int) + 1) := by omega
  have hfn : s.generated_flags n = false := flags n (le_refl n)
  refine ⟨⟨?_, ?_, ?_, ?_, ?_, ?_, ?_, ?_⟩, ?_, ?_, ?_, ?_, ?_, ?_, ?_, ?_, ?_, ?_⟩
  case refine_3 =>
    intro m hm
    have hmn : m ≠ n := by omega
    simp [run, prodIter, consIter, step, stepThread, State.set, State.goto, State.drawn, pp, cp,
      ticketlock_served, ticketlock_draw, ticketlock_release, hmod, hc, hfn, fl, ql, cl, pl, cnt,
      qh, qt, Queue.alloc, Queue.link, dequeue, Function.update_noteq hmn]
    exact flags m (by omega)
  all_goals
    simp [run, prodIter, consIter, step, stepThread, State.set, State.goto, State.drawn, pp, cp,
      ticketlock_served, ticketlock_draw, ticketlock_release, hmod, hc, hfn, fl, ql, cl, pl, cnt,
      qh, qt, Queue.alloc, Queue.link, dequeue, mp, pd, pf, tp, np, nc, enq, deq,
      List.range_succ]

theorem cp_quiet_init : Quiet 0 (init 1 1) := by
  refine ⟨cp_fresh_init 1 1 (by decide), ?_, ?_, ?_, ?_, ?_, ?_, ?_, ?_, ?_, ?_⟩ <;>
    simp [init, Thread.start, Queue.empty]

theorem cp_quiet_upto (D k : Nat) (hk : k < D) : Quiet k (run D (init 1 1) (pipeUpTo k)) := by
  induction k with
  | zero => exact cp_quiet_init
  | succ k ih =>
      rw [pipeUpTo, cp_run_append]
      exact cp_quiet_iter D k _ (ih (by omega)) hk

end Cp

namespace Cp

/-- The end of the schedule of the lost value, from the state in which the
first `D - 1` numbers went through the queue. -/
theorem cp_loss_tail (D : Nat) (s : State) (h : Quiet (D - 1) s) (hD : 0 < D) :
    ((run D s (flagOnly (D - 1) ++ List.replicate 13 (Ev.step Tid.main) ++
        List.replicate 5 (Ev.step (Tid.cons 0)) ++ List.replicate 23 (Ev.step (Tid.prod 0)) ++
        List.replicate 5 (Ev.step Tid.main))).th Tid.main).pc = Pc.m_done ∧
    ((run D s (flagOnly (D - 1) ++ List.replicate 13 (Ev.step Tid.main) ++
        List.replicate 5 (Ev.step (Tid.cons 0)) ++ List.replicate 23 (Ev.step (Tid.prod 0)) ++
        List.replicate 5 (Ev.step Tid.main))).th (Tid.cons 0)).pc = Pc.c_done ∧
    ((run D s (flagOnly (D - 1) ++ List.replicate 13 (Ev.step Tid.main) ++
        List.replicate 5 (Ev.step (Tid.cons 0)) ++ List.replicate 23 (Ev.step (Tid.prod 0)) ++
        List.replicate 5 (Ev.step Tid.main))).th (Tid.prod 0)).pc = Pc.p_done ∧
    (run D s (flagOnly (D - 1) ++ List.replicate 13 (Ev.step Tid.main) ++
        List.replicate 5 (Ev.step (Tid.cons 0)) ++ List.replicate 23 (Ev.step (Tid.prod 0)) ++
        List.replicate 5 (Ev.step Tid.main))).enqueued = List.range (D - 1) ++ [D - 1] ∧
    (run D s (flagOnly (D - 1) ++ List.replicate 13 (Ev.step Tid.main) ++
        List.replicate 5 (Ev.step (Tid.cons 0)) ++ List.replicate 23 (Ev.step (Tid.prod 0)) ++
        List.replicate 5 (Ev.step Tid.main))).dequeued = (List.range (D - 1)).map Int.ofNat ∧
    (run D s (flagOnly (D - 1) ++ List.replicate 13 (Ev.step Tid.main) ++
        List.replicate 5 (Ev.step (Tid.cons 0)) ++ List.replicate 23 (Ev.step (Tid.prod 0)) ++
        List.replicate 5 (Ev.step Tid.main))).queue.contents = [((D - 1 : Nat) : Int)] ∧
    (run D s (flagOnly (D - 1) ++ List.replicate 13 (Ev.step Tid.main) ++
        List.replicate 5 (Ev.step (Tid.cons 0)) ++ List.replicate 23 (Ev.step (Tid.prod 0)) ++
        List.replicate 5 (Ev.step Tid.main))).producers_done = 1 := by
  obtain ⟨⟨pp, cnt, flags, fl, ql, cl, pl, enq⟩, cp, mp, qh, qt, pd, pf, tp, np, nc, deq⟩ := h
  have hmod : (D - 1) % D = D - 1 := Nat.mod_eq_of_lt (by omega)
  have hfn : s.generated_flags (D - 1) = false := flags _ (le_refl _)
  have hcast : ((D - 1 : Nat) : Int) + 1 = D := by omega
  refine ⟨?_, ?_, ?_, ?_, ?_, ?_, ?_⟩
  all_goals
    simp [run, flagOnly, step, stepThread, State.set, State.goto, State.drawn, pp, cp,
      ticketlock_served, ticketlock_draw, ticketlock_release, hmod, hcast, hfn, fl, ql, cl, pl,
      cnt, qh, qt, Queue.alloc, Queue.link, dequeue, mp, pd, pf, tp, np, nc, enq, deq,
      Queue.contents, walk, walk_none, Function.update_apply]

end Cp

namespace Cp

/-- C6: evaluation of the code on the schedule of the lost value, with one
producer, one consumer and the domain size `MAX_NUMBER` of the source.  Main
has exited, the consumer and the producer have returned, every number below
`MAX_NUMBER` was enqueued, the consumer dequeued only the numbers below
`MAX_NUMBER - 1`, and the queue still holds `MAX_NUMBER - 1`. -/
theorem pipeline_loses_last_value :
    ((run MAX_NUMBER (init 1 1) (lossRun MAX_NUMBER)).th Tid.main).pc = Pc.m_done ∧
    ((run MAX_NUMBER (init 1 1) (lossRun MAX_NUMBER)).th (Tid.cons 0)).pc = Pc.c_done ∧
    ((run MAX_NUMBER (init 1 1) (lossRun MAX_NUMBER)).th (Tid.prod 0)).pc = Pc.p_done ∧
    (run MAX_NUMBER (init 1 1) (lossRun MAX_NUMBER)).enqueued = List.range MAX_NUMBER ∧
    (run MAX_NUMBER (init 1 1) (lossRun MAX_NUMBER)).dequeued
      = (List.range (MAX_NUMBER - 1)).map Int.ofNat ∧
    (run MAX_NUMBER (init 1 1) (lossRun MAX_NUMBER)).queue.contents = [999999] ∧
    (999999 : Int) ∉ (run MAX_NUMBER (init 1 1) (lossRun MAX_NUMBER)).dequeued := by
  have hq := cp_quiet_upto MAX_NUMBER (MAX_NUMBER - 1) (by decide)
  have h := cp_loss_tail MAX_NUMBER _ hq (by decide)
  have hrun : run MAX_NUMBER (init 1 1) (lossRun MAX_NUMBER)
      = run MAX_NUMBER (run MAX_NUMBER (init 1 1) (pipeUpTo (MAX_NUMBER - 1)))
          (flagOnly (MAX_NUMBER - 1) ++ List.replicate 13 (Ev.step Tid.main) ++
            List.replicate 5 (Ev.step (Tid.cons 0)) ++
            List.replicate 23 (Ev.step (Tid.prod 0)) ++ List.replicate 5 (Ev.step Tid.main)) := by
    rw [lossRun, ← cp_run_append]
    simp only [List.append_assoc]
  rw [hrun]
  obtain ⟨h1, h2, h3, h4, h5, h6, -⟩ := h
  refine ⟨h1, h2, h3, ?_, h5, ?_, ?_⟩
  · rw [h4]
    have : MAX_NUMBER = (MAX_NUMBER - 1) + 1 := by decide
    conv_rhs => rw [this, List.range_succ]
  · rw [h6]; rfl
  · rw [h5]
    simp only [List.mem_map, List.mem_range, not_exists, not_and]
    intro x hx hxe
    have : (x : Int) = 999999 := hxe
    have hx2 : x < 999999 := hx
    omega

end Cp
/-! ## Theorems: the automatic shutdown trigger of the pipeline -/

namespace Cp

end Cp
namespace Cp

end Cp
namespace Cp

/-- A step of thread `u` leaves the locals of the other threads alone. -/
theorem cp_step_other (D : Nat) (s : State) (u t : Tid) (h : t ≠ u) :
    (stepThread D s u).th t = s.th t := by
  unfold stepThread
  split <;> (try split_ifs) <;>
    simp [State.goto, State.set, State.drawn, Function.update_noteq h]

/-- An event leaves the locals of the threads it does not belong to alone. -/
theorem cp_event_other (D : Nat) (s : State) (e : Ev) (t : Tid)
    (h : ∀ u, e = Ev.step u → t ≠ u) (h2 : ∀ id r, e = Ev.rand id r → t ≠ Tid.prod id) :
    (step D s e).th t = s.th t := by
  cases e with
  | step u => exact cp_step_other D s u t (h u rfl)
  | rand id r =>
      simp only [step]
      split_ifs
      · simp [State.set, Function.update_noteq (h2 id r rfl)]
      · rfl

end Cp
namespace Cp

end Cp
namespace Cp

end Cp

namespace Cp

end Cp
namespace Cp

end Cp
/-! ## Theorems: the thread-slot table -/

namespace Tls

theorem tls_acquire_free (l : ticket_lock) (h : l.ticket = l.cur_ticket) :
    ticketlock_acquire l = some { ticket := l.ticket + 1, cur_ticket := l.cur_ticket } := by
  simp [ticketlock_acquire, ticketlock_served, ticketlock_draw, h]

theorem tls_slot_zero (x : tls_data_t) (g : List tls_data_t) : slot (x :: g) 0 = x := rfl

theorem tls_slot_succ (x : tls_data_t) (g : List tls_data_t) (i : Nat) :
    slot (x :: g) (i + 1) = slot g i := rfl

theorem tls_slot_mem (g : List tls_data_t) (i : Nat) (h : i < g.length) : slot g i ∈ g := by
  induction g generalizing i with
  | nil => simp at h
  | cons x g ih =>
      cases i with
      | zero => simp [tls_slot_zero]
      | succ i =>
          rw [tls_slot_succ]
          exact List.mem_cons_of_mem _ (ih i (by simpa using h))

theorem tls_mem_slot (g : List tls_data_t) (x : tls_data_t) (h : x ∈ g) :
    ∃ i, i < g.length ∧ slot g i = x := by
  induction g with
  | nil => simp at h
  | cons y g ih =>
      rcases List.mem_cons.1 h with rfl | h
      · exact ⟨0, by simp, rfl⟩
      · obtain ⟨i, hi, e⟩ := ih h
        exact ⟨i + 1, by simpa using hi, by rw [tls_slot_succ]; exact e⟩

/-- The scan finds nothing exactly when no slot holds `id`. -/
theorem tls_find_none (g : List tls_data_t) (id : Int) :
    find_slot g id = none ↔ ∀ x ∈ g, x.thread_id ≠ id := by
  induction g with
  | nil => simp [find_slot]
  | cons x g ih =>
      by_cases hx : x.thread_id = id
      · simp [find_slot, hx]
      · simp [find_slot, hx, ih]

/-- The scan returns the first index whose slot holds `id`. -/
theorem tls_find_some (g : List tls_data_t) (id : Int) (i : Nat) :
    find_slot g id = some i ↔
      (i < g.length ∧ (slot g i).thread_id = id ∧ ∀ j, j < i → (slot g j).thread_id ≠ id) := by
  induction g generalizing i with
  | nil => simp [find_slot]
  | cons x g ih =>
      by_cases hx : x.thread_id = id
      · simp only [find_slot, hx, if_true]
        constructor
        · intro h
          injection h with h
          subst h
          exact ⟨by simp, hx, fun j hj => absurd hj (Nat.not_lt_zero j)⟩
        · rintro ⟨-, -, h3⟩
          cases i with
          | zero => rfl
          | succ i => exact absurd hx (h3 0 (Nat.succ_pos i))
      · simp only [find_slot, hx, if_false]
        cases i with
        | zero =>
            constructor
            · intro h
              cases hf : find_slot g id <;> simp [hf] at h
            · rintro ⟨-, h2, -⟩
              exact absurd h2 hx
        | succ i =>
            have := ih i
            constructor
            · intro h
              have hf : find_slot g id = some i := by
                cases hf : find_slot g id with
                | none => simp [hf] at h
                | some k => simp [hf] at h; rw [h]
              obtain ⟨a, b, c⟩ := this.1 hf
              refine ⟨by simpa using a, b, ?_⟩
              intro j hj
              cases j with
              | zero => exact hx
              | succ j => exact c j (by omega)
            · rintro ⟨a, b, c⟩
              have hf : find_slot g id = some i :=
                this.2 ⟨by simpa using a, b, fun j hj => c (j + 1) (by omega)⟩
              simp [hf]

theorem tls_store_length (g : List tls_data_t) (i : Nat) (f : tls_data_t → tls_data_t) :
    (store g i f).length = g.length := by
  induction g generalizing i with
  | nil => rfl
  | cons x g ih =>
      cases i with
      | zero => rfl
      | succ i => simp [store, ih]

theorem tls_slot_store (g : List tls_data_t) (i j : Nat) (f : tls_data_t → tls_data_t)
    (h : i < g.length) :
    slot (store g i f) j = if j = i then f (slot g i) else slot g j := by
  induction g generalizing i j with
  | nil => simp at h
  | cons x g ih =>
      cases i with
      | zero =>
          cases j with
          | zero => rfl
          | succ j => rfl
      | succ i =>
          cases j with
          | zero => rfl
          | succ j =>
              simp only [store, tls_slot_succ]
              rw [ih i j (by simpa using h)]
              simp

end Tls

namespace Tls

/-- How `tls_thread_alloc` ends when the lock is free. -/
theorem tls_alloc_cases (s : Storage) (tid : Int)
    (hfree : s.tls_lock.ticket = s.tls_lock.cur_ticket) :
    ((∃ i, find_slot s.g_tls tid = some i) ∧
      tls_thread_alloc s tid = Outcome.returned ()
        { tls_lock := ticketlock_release
            { ticket := s.tls_lock.ticket + 1, cur_ticket := s.tls_lock.cur_ticket },
          g_tls := s.g_tls }) ∨
    (find_slot s.g_tls tid = none ∧ ∃ i, find_slot s.g_tls (-1) = some i ∧
      tls_thread_alloc s tid = Outcome.returned ()
        { tls_lock := ticketlock_release
            { ticket := s.tls_lock.ticket + 1, cur_ticket := s.tls_lock.cur_ticket },
          g_tls := store s.g_tls i fun x => { x with thread_id := tid } }) ∨
    (find_slot s.g_tls tid = none ∧ find_slot s.g_tls (-1) = none ∧
      tls_thread_alloc s tid = Outcome.exited 1
        { tls_lock := { ticket := s.tls_lock.ticket + 1, cur_ticket := s.tls_lock.cur_ticket },
          g_tls := s.g_tls }) := by
  unfold tls_thread_alloc
  rw [tls_acquire_free _ hfree]
  cases h1 : find_slot s.g_tls tid with
  | some i => left; exact ⟨⟨i, rfl⟩, rfl⟩
  | none =>
      right
      cases h2 : find_slot s.g_tls (-1) with
      | some i => left; exact ⟨rfl, i, rfl, rfl⟩
      | none => right; exact ⟨rfl, rfl, rfl⟩

/-- How `get_tls_data` ends when the lock is free. -/
theorem tls_get_cases (s : Storage) (tid : Int)
    (hfree : s.tls_lock.ticket = s.tls_lock.cur_ticket) :
    (∃ i, find_slot s.g_tls tid = some i ∧
      get_tls_data s tid = Outcome.returned (slot s.g_tls i).data
        { tls_lock := ticketlock_release
            { ticket := s.tls_lock.ticket + 1, cur_ticket := s.tls_lock.cur_ticket },
          g_tls := s.g_tls }) ∨
    (find_slot s.g_tls tid = none ∧
      get_tls_data s tid = Outcome.exited 2
        { tls_lock := ticketlock_release
            { ticket := s.tls_lock.ticket + 1, cur_ticket := s.tls_lock.cur_ticket },
          g_tls := s.g_tls }) := by
  unfold get_tls_data
  rw [tls_acquire_free _ hfree]
  cases h1 : find_slot s.g_tls tid with
  | some i => left; exact ⟨i, rfl, rfl⟩
  | none => right; exact ⟨rfl, rfl⟩

/-- How `set_tls_data` ends when the lock is free. -/
theorem tls_set_cases (s : Storage) (tid : Int) (data : Nat)
    (hfree : s.tls_lock.ticket = s.tls_lock.cur_ticket) :
    (∃ i, find_slot s.g_tls tid = some i ∧
      set_tls_data s tid data = Outcome.returned ()
        { tls_lock := ticketlock_release
            { ticket := s.tls_lock.ticket + 1, cur_ticket := s.tls_lock.cur_ticket },
          g_tls := store s.g_tls i fun x => { x with data := data } }) ∨
    (find_slot s.g_tls tid = none ∧
      set_tls_data s tid data = Outcome.exited 2
        { tls_lock := ticketlock_release
            { ticket := s.tls_lock.ticket + 1, cur_ticket := s.tls_lock.cur_ticket },
          g_tls := s.g_tls }) := by
  unfold set_tls_data
  rw [tls_acquire_free _ hfree]
  cases h1 : find_slot s.g_tls tid with
  | some i => left; exact ⟨i, rfl, rfl⟩
  | none => right; exact ⟨rfl, rfl⟩

/-- How `tls_thread_free` ends when the lock is free. -/
theorem tls_free_cases (s : Storage) (tid : Int)
    (hfree : s.tls_lock.ticket = s.tls_lock.cur_ticket) :
    (∃ i, find_slot s.g_tls tid = some i ∧
      tls_thread_free s tid = Outcome.returned ()
        { tls_lock := ticketlock_release
            { ticket := s.tls_lock.ticket + 1, cur_ticket := s.tls_lock.cur_ticket },
          g_tls := store s.g_tls i fun _ => { thread_id := -1, data := NULL } }) ∨
    (find_slot s.g_tls tid = none ∧
      tls_thread_free s tid = Outcome.exited 2
        { tls_lock := ticketlock_release
            { ticket := s.tls_lock.ticket + 1, cur_ticket := s.tls_lock.cur_ticket },
          g_tls := s.g_tls }) := by
  unfold tls_thread_free
  rw [tls_acquire_free _ hfree]
  cases h1 : find_slot s.g_tls tid with
  | some i => left; exact ⟨i, rfl, rfl⟩
  | none => right; exact ⟨rfl, rfl⟩

/-- Whatever the lock, `tls_thread_alloc` exits only with status 1 and the
other three functions only with status 2, and the table is then as it was. -/
theorem tls_exit_status (s : Storage) (tid : Int) (data : Nat) (st : Int) (s1 : Storage) :
    (tls_thread_alloc s tid = Outcome.exited st s1 → st = 1 ∧ s1.g_tls = s.g_tls) ∧
    (get_tls_data s tid = Outcome.exited st s1 → st = 2 ∧ s1.g_tls = s.g_tls) ∧
    (set_tls_data s tid data = Outcome.exited st s1 → st = 2 ∧ s1.g_tls = s.g_tls) ∧
    (tls_thread_free s tid = Outcome.exited st s1 → st = 2 ∧ s1.g_tls = s.g_tls) := by
  refine ⟨?_, ?_, ?_, ?_⟩
  · unfold tls_thread_alloc
    cases ticketlock_acquire s.tls_lock with
    | none => intro h; cases h
    | some l =>
        cases find_slot s.g_tls tid with
        | some i => intro h; cases h
        | none =>
            cases find_slot s.g_tls (-1) with
            | some i => intro h; cases h
            | none => intro h; cases h; exact ⟨rfl, rfl⟩
  · unfold get_tls_data
    cases ticketlock_acquire s.tls_lock with
    | none => intro h; cases h
    | some l =>
        cases find_slot s.g_tls tid with
        | some i => intro h; cases h
        | none => intro h; cases h; exact ⟨rfl, rfl⟩
  · unfold set_tls_data
    cases ticketlock_acquire s.tls_lock with
    | none => intro h; cases h
    | some l =>
        cases find_slot s.g_tls tid with
        | some i => intro h; cases h
        | none => intro h; cases h; exact ⟨rfl, rfl⟩
  · unfold tls_thread_free
    cases ticketlock_acquire s.tls_lock with
    | none => intro h; cases h
    | some l =>
        cases find_slot s.g_tls tid with
        | some i => intro h; cases h
        | none => intro h; cases h; exact ⟨rfl, rfl⟩

end Tls

namespace Tls

/-- C13: for every table, every calling thread id and every pointer, with
`tls_lock` free at the call.  `tls_thread_alloc` terminates the process, with
status 1, exactly when no slot holds the caller's id and no slot holds -1, and
returns exactly when not.  `get_tls_data`, `set_tls_data` and `tls_thread_free`
terminate the process, with status 2, exactly when no slot holds the caller's
id, and return exactly when one does.  Whenever one of them terminates the
process the table is as it was at the call, `tls_thread_alloc` does so with
status 1 only and the other three with status 2 only, so that the status of
a full table is never that of an unregistered caller. -/
theorem slot_table_faults (s : Storage) (tid : Int) (data : Nat)
    (hfree : s.tls_lock.ticket = s.tls_lock.cur_ticket) :
    (((∃ s1, tls_thread_alloc s tid = Outcome.exited 1 s1) ↔
        ((∀ x ∈ s.g_tls, x.thread_id ≠ tid) ∧ ∀ x ∈ s.g_tls, x.thread_id ≠ -1)) ∧
      ((∃ s1, tls_thread_alloc s tid = Outcome.returned () s1) ↔
        ¬ ((∀ x ∈ s.g_tls, x.thread_id ≠ tid) ∧ ∀ x ∈ s.g_tls, x.thread_id ≠ -1))) ∧
    (((∃ s1, get_tls_data s tid = Outcome.exited 2 s1) ↔ ∀ x ∈ s.g_tls, x.thread_id ≠ tid) ∧
      ((∃ v s1, get_tls_data s tid = Outcome.returned v s1) ↔
        ¬ ∀ x ∈ s.g_tls, x.thread_id ≠ tid)) ∧
    (((∃ s1, set_tls_data s tid data = Outcome.exited 2 s1) ↔
        ∀ x ∈ s.g_tls, x.thread_id ≠ tid) ∧
      ((∃ s1, set_tls_data s tid data = Outcome.returned () s1) ↔
        ¬ ∀ x ∈ s.g_tls, x.thread_id ≠ tid)) ∧
    (((∃ s1, tls_thread_free s tid = Outcome.exited 2 s1) ↔
        ∀ x ∈ s.g_tls, x.thread_id ≠ tid) ∧
      ((∃ s1, tls_thread_free s tid = Outcome.returned () s1) ↔
        ¬ ∀ x ∈ s.g_tls, x.thread_id ≠ tid)) ∧
    (∀ st s1, (tls_thread_alloc s tid = Outcome.exited st s1 → st = 1 ∧ s1.g_tls = s.g_tls) ∧
      (get_tls_data s tid = Outcome.exited st s1 → st = 2 ∧ s1.g_tls = s.g_tls) ∧
      (set_tls_data s tid data = Outcome.exited st s1 → st = 2 ∧ s1.g_tls = s.g_tls) ∧
      (tls_thread_free s tid = Outcome.exited st s1 → st = 2 ∧ s1.g_tls = s.g_tls)) ∧
    (∀ (s2 : Storage) (tid2 : Int) (d2 : Nat) (st st2 : Int) (s1 s3 : Storage),
      tls_thread_alloc s tid = Outcome.exited st s1 →
      (get_tls_data s2 tid2 = Outcome.exited st2 s3 ∨
        set_tls_data s2 tid2 d2 = Outcome.exited st2 s3 ∨
        tls_thread_free s2 tid2 = Outcome.exited st2 s3) → st ≠ st2) := by
  have n1 := tls_find_none s.g_tls tid
  have n2 := tls_find_none s.g_tls (-1)
  refine ⟨?_, ?_, ?_, ?_, fun st s1 => tls_exit_status s tid data st s1, ?_⟩
  · rcases tls_alloc_cases s tid hfree with ⟨⟨i, hi⟩, e⟩ | ⟨h1, i, hi, e⟩ | ⟨h1, h2, e⟩
    · have hc : ¬ ∀ x ∈ s.g_tls, x.thread_id ≠ tid := by rw [← n1, hi]; simp
      rw [e]
      exact ⟨⟨(fun ⟨s1, h⟩ => by cases h), fun h => absurd h.1 hc⟩,
        ⟨fun _ h => hc h.1, fun _ => ⟨_, rfl⟩⟩⟩
    · have hc : ¬ ∀ x ∈ s.g_tls, x.thread_id ≠ -1 := by rw [← n2, hi]; simp
      rw [e]
      exact ⟨⟨(fun ⟨s1, h⟩ => by cases h), fun h => absurd h.2 hc⟩,
        ⟨fun _ h => hc h.2, fun _ => ⟨_, rfl⟩⟩⟩
    · have hc : (∀ x ∈ s.g_tls, x.thread_id ≠ tid) ∧ ∀ x ∈ s.g_tls, x.thread_id ≠ -1 :=
        ⟨n1.1 h1, n2.1 h2⟩
      rw [e]
      exact ⟨⟨fun _ => hc, fun _ => ⟨_, rfl⟩⟩,
        ⟨(fun ⟨s1, h⟩ => by cases h), fun h => absurd hc h⟩⟩
  · rcases tls_get_cases s tid hfree with ⟨i, hi, e⟩ | ⟨h1, e⟩
    · have hc : ¬ ∀ x ∈ s.g_tls, x.thread_id ≠ tid := by rw [← n1, hi]; simp
      rw [e]
      exact ⟨⟨(fun ⟨s1, h⟩ => by cases h), fun h => absurd h hc⟩,
        ⟨fun _ => hc, fun _ => ⟨_, _, rfl⟩⟩⟩
    · rw [e]
      exact ⟨⟨fun _ => n1.1 h1, fun _ => ⟨_, rfl⟩⟩,
        ⟨(fun ⟨v, s1, h⟩ => by cases h), fun h => absurd (n1.1 h1) h⟩⟩
  · rcases tls_set_cases s tid data hfree with ⟨i, hi, e⟩ | ⟨h1, e⟩
    · have hc : ¬ ∀ x ∈ s.g_tls, x.thread_id ≠ tid := by rw [← n1, hi]; simp
      rw [e]
      exact ⟨⟨(fun ⟨s1, h⟩ => by cases h), fun h => absurd h hc⟩,
        ⟨fun _ => hc, fun _ => ⟨_, rfl⟩⟩⟩
    · rw [e]
      exact ⟨⟨fun _ => n1.1 h1, fun _ => ⟨_, rfl⟩⟩,
        ⟨(fun ⟨s1, h⟩ => by cases h), fun h => absurd (n1.1 h1) h⟩⟩
  · rcases tls_free_cases s tid hfree with ⟨i, hi, e⟩ | ⟨h1, e⟩
    · have hc : ¬ ∀ x ∈ s.g_tls, x.thread_id ≠ tid := by rw [← n1, hi]; simp
      rw [e]
      exact ⟨⟨(fun ⟨s1, h⟩ => by cases h), fun h => absurd h hc⟩,
        ⟨fun _ => hc, fun _ => ⟨_, rfl⟩⟩⟩
    · rw [e]
      exact ⟨⟨fun _ => n1.1 h1, fun _ => ⟨_, rfl⟩⟩,
        ⟨(fun ⟨s1, h⟩ => by cases h), fun h => absurd (n1.1 h1) h⟩⟩
  · intro s2 tid2 d2 st st2 s1 s3 ha hb
    have h1 := ((tls_exit_status s tid data st s1).1 ha).1
    obtain ⟨-, g, t, f⟩ := tls_exit_status s2 tid2 d2 st2 s3
    have h2 : st2 = 2 := by
      rcases hb with hb | hb | hb
      · exact (g hb).1
      · exact (t hb).1
      · exact (f hb).1
    rw [h1, h2]; decide

/-- C13, at a concrete table: one slot, owned by thread 5; thread 7 calls.
Its allocation exits with status 1 and its `get_tls_data` with status 2. -/
theorem slot_table_faults_witness :
    (∃ s1, tls_thread_alloc
        { tls_lock := ticketlock_init, g_tls := [{ thread_id := 5, data := 9 }] } 7
          = Outcome.exited 1 s1) ∧
    (∃ s1, get_tls_data
        { tls_lock := ticketlock_init, g_tls := [{ thread_id := 5, data := 9 }] } 7
          = Outcome.exited 2 s1) :=
  ⟨(slot_table_faults
      { tls_lock := ticketlock_init, g_tls := [{ thread_id := 5, data := 9 }] } 7 0 rfl).1.1.2
      (by decide),
    (slot_table_faults
      { tls_lock := ticketlock_init, g_tls := [{ thread_id := 5, data := 9 }] } 7 0 rfl).2.1.1.2
      (by decide)⟩

end Tls
namespace Tls

/-- Two tables whose slots hold `id` at the same indices are scanned alike. -/
theorem tls_find_congr (g g2 : List tls_data_t) (id : Int) (hl : g2.length = g.length)
    (h : ∀ k, k < g.length → ((slot g2 k).thread_id = id ↔ (slot g k).thread_id = id)) :
    find_slot g2 id = find_slot g id := by
  cases hf : find_slot g id with
  | none =>
      rw [tls_find_none] at hf ⊢
      intro x hx hxid
      obtain ⟨k, hk, rfl⟩ := tls_mem_slot g2 x hx
      rw [hl] at hk
      exact hf _ (tls_slot_mem g k hk) ((h k hk).1 hxid)
  | some i =>
      rw [tls_find_some] at hf ⊢
      obtain ⟨a, b, c⟩ := hf
      refine ⟨by rw [hl]; exact a, (h i a).2 b, ?_⟩
      intro j hj hjid
      exact c j hj ((h j (by omega)).1 hjid)

theorem tls_last_snoc (tid : Int) (h : List (Int × Call)) (c : Int × Call) :
    lastSet tid (h ++ [c]) = track tid (lastSet tid h) c := by
  simp [lastSet, List.foldl_append]

/-- A store that keeps the thread id of the slot keeps the scans. -/
theorem tls_find_store_data (g : List tls_data_t) (i : Nat) (f : tls_data_t → tls_data_t)
    (id : Int) (hi : i < g.length) (hf : (f (slot g i)).thread_id = (slot g i).thread_id) :
    find_slot (store g i f) id = find_slot g id := by
  refine tls_find_congr g _ id (tls_store_length g i f) ?_
  intro k _
  rw [tls_slot_store g i k f hi]
  split_ifs with hk
  · rw [hk, hf]
  · exact Iff.rfl

/-- A store that changes the thread id of the slot from `a` to `b` keeps the
scans for the other ids. -/
theorem tls_find_store_other (g : List tls_data_t) (i : Nat) (f : tls_data_t → tls_data_t)
    (id : Int) (hi : i < g.length) (ha : (slot g i).thread_id ≠ id)
    (hb : (f (slot g i)).thread_id ≠ id) :
    find_slot (store g i f) id = find_slot g id ∧
    owner_data (store g i f) id = owner_data g id := by
  have e : find_slot (store g i f) id = find_slot g id := by
    refine tls_find_congr g _ id (tls_store_length g i f) ?_
    intro k _
    rw [tls_slot_store g i k f hi]
    split_ifs with hk
    · rw [hk]; exact ⟨fun h => absurd h hb, fun h => absurd h ha⟩
    · exact Iff.rfl
  refine ⟨e, ?_⟩
  unfold owner_data
  rw [e]
  cases hf : find_slot g id with
  | none => rfl
  | some k =>
      have hk := ((tls_find_some g id k).1 hf).2.1
      have hki : k ≠ i := by rintro rfl; exact ha hk
      simp [tls_slot_store g i k f hi, hki]

end Tls
namespace Tls

theorem tls_slot_replicate (n i : Nat) :
    slot (List.replicate n { thread_id := -1, data := NULL }) i
      = { thread_id := -1, data := NULL } := by
  induction n generalizing i with
  | zero => rfl
  | succ n ih =>
      cases i with
      | zero => rfl
      | succ i => rw [List.replicate_succ, tls_slot_succ]; exact ih i

theorem tls_inv_init (n : Nat) : TlsInv [] (init_storage n) := by
  constructor
  · rfl
  · intro i j _ _ _ h
    simp [init_storage, tls_slot_replicate] at h
  · intro i _ _
    simp [init_storage, tls_slot_replicate]
  · intro tid htid
    have : find_slot (init_storage n).g_tls tid = none := by
      rw [tls_find_none]
      intro x hx
      simp [init_storage] at hx
      rw [hx.2]
      exact fun h => htid h.symm
    simp [owner_data, this, lastSet]

theorem tls_release_free (l : ticket_lock) (h : l.ticket = l.cur_ticket) :
    (ticketlock_release { ticket := l.ticket + 1, cur_ticket := l.cur_ticket }).ticket
      = (ticketlock_release { ticket := l.ticket + 1, cur_ticket := l.cur_ticket }).cur_ticket := by
  simp [ticketlock_release, h]

/-- The invariant after a call that leaves the table as it was and changes
what no thread is owed. -/
theorem tls_inv_same (h : List (Int × Call)) (s s1 : Storage) (c : Int × Call)
    (hinv : TlsInv h s) (hg : s1.g_tls = s.g_tls)
    (hl : s1.tls_lock.ticket = s1.tls_lock.cur_ticket)
    (ht : ∀ tid, tid ≠ -1 → track tid (lastSet tid h) c = lastSet tid h) :
    TlsInv (h ++ [c]) s1 := by
  obtain ⟨a, b, c1, d⟩ := hinv
  refine ⟨hl, ?_, ?_, ?_⟩
  · rw [hg]; exact b
  · rw [hg]; exact c1
  · intro tid htid
    rw [hg, tls_last_snoc, ht tid htid]
    exact d tid htid

theorem tls_inv_alloc (h : List (Int × Call)) (s s1 : Storage) (tid : Int) (htid : tid ≠ -1)
    (hinv : TlsInv h s) (hc : tls_thread_alloc s tid = Outcome.returned () s1) :
    TlsInv (h ++ [(tid, Call.alloc)]) s1 := by
  rcases tls_alloc_cases s tid hinv.lock_free with ⟨⟨i, hi⟩, e⟩ | ⟨h1, i, hi, e⟩ | ⟨-, -, e⟩
  · rw [e] at hc
    injection hc with _ hs
    subst hs
    refine tls_inv_same h s _ _ hinv rfl (tls_release_free _ hinv.lock_free) ?_
    intro t ht
    simp only [track]
    split_ifs with htt
    · have := hinv.owed tid htid
      simp only at htt
      subst htt
      cases hls : lastSet tid h with
      | none => rw [hls] at this; simp [owner_data, hi] at this
      | some p => rfl
    · rfl
  · rw [e] at hc
    injection hc with _ hs
    subst hs
    obtain ⟨a, b, c1, d⟩ := hinv
    obtain ⟨hilt, hifree, hifirst⟩ := (tls_find_some s.g_tls (-1) i).1 hi
    have hnone := (tls_find_none s.g_tls tid).1 h1
    have hno : ∀ k, k < s.g_tls.length → (slot s.g_tls k).thread_id ≠ tid :=
      fun k hk => hnone _ (tls_slot_mem _ k hk)
    refine ⟨tls_release_free _ a, ?_, ?_, ?_⟩
    · intro k j hk hj hkj hne
      simp only [tls_store_length] at hk hj
      simp only [tls_slot_store s.g_tls i _ _ hilt] at hkj hne
      split_ifs at hkj hne with h1 h2 h2
      · rw [h1, h2]
      · exact absurd hkj.symm (hno j hj)
      · exact absurd hkj (hno k hk)
      · exact b k j hk hj hkj hne
    · intro k hk hfree
      simp only [tls_store_length] at hk
      simp only [tls_slot_store s.g_tls i _ _ hilt] at hfree ⊢
      split_ifs at hfree ⊢ with h1
      · exact absurd hfree htid
      · exact c1 k hk hfree
    · intro t ht
      rw [tls_last_snoc]
      simp only [track]
      split_ifs with htt
      · simp only at htt
        subst htt
        have hown := d tid ht
        have hls : lastSet tid h = none := by
          rw [← hown]; simp [owner_data, h1]
        rw [hls]
        have hf : find_slot (store s.g_tls i fun x => { x with thread_id := tid }) tid
            = some i := by
          rw [tls_find_some]
          refine ⟨by rw [tls_store_length]; exact hilt, by simp [tls_slot_store _ _ _ _ hilt], ?_⟩
          intro j hj
          have hji : j ≠ i := by omega
          simp only [tls_slot_store _ _ _ _ hilt, hji, if_false]
          exact hno j (by omega)
        simp [owner_data, hf, tls_slot_store _ _ _ _ hilt, c1 i hilt hifree]
      · simp only at htt
        rw [← d t ht]
        exact (tls_find_store_other s.g_tls i _ t hilt (by rw [hifree]; exact fun h => ht h.symm)
          (fun h => htt h)).2
  · rw [e] at hc; cases hc

end Tls
namespace Tls

theorem tls_inv_get (h : List (Int × Call)) (s s1 : Storage) (tid : Int) (v : Nat)
    (hinv : TlsInv h s) (hc : get_tls_data s tid = Outcome.returned v s1) :
    TlsInv (h ++ [(tid, Call.get)]) s1 := by
  rcases tls_get_cases s tid hinv.lock_free with ⟨i, hi, e⟩ | ⟨-, e⟩
  · rw [e] at hc
    injection hc with _ hs
    subst hs
    refine tls_inv_same h s _ _ hinv rfl (tls_release_free _ hinv.lock_free) ?_
    intro t _
    simp only [track]
    split_ifs <;> rfl
  · rw [e] at hc; cases hc

theorem tls_inv_set (h : List (Int × Call)) (s s1 : Storage) (tid : Int) (data : Nat)
    (htid : tid ≠ -1) (hinv : TlsInv h s)
    (hc : set_tls_data s tid data = Outcome.returned () s1) :
    TlsInv (h ++ [(tid, Call.set data)]) s1 := by
  rcases tls_set_cases s tid data hinv.lock_free with ⟨i, hi, e⟩ | ⟨-, e⟩
  · rw [e] at hc
    injection hc with _ hs
    subst hs
    obtain ⟨a, b, c1, d⟩ := hinv
    obtain ⟨hilt, hiid, -⟩ := (tls_find_some s.g_tls tid i).1 hi
    refine ⟨tls_release_free _ a, ?_, ?_, ?_⟩
    · intro k j hk hj hkj hne
      simp only [tls_store_length] at hk hj
      simp only [tls_slot_store s.g_tls i _ _ hilt] at hkj hne
      refine b k j hk hj ?_ ?_
      · split_ifs at hkj with h1 h2 h2
        · rw [h1, h2]
        · rw [h1]; exact hkj
        · rw [h2]; exact hkj
        · exact hkj
      · split_ifs at hne with h1
        · rw [h1]; exact hne
        · exact hne
    · intro k hk hfree
      simp only [tls_store_length] at hk
      simp only [tls_slot_store s.g_tls i _ _ hilt] at hfree ⊢
      split_ifs at hfree ⊢ with h1
      · simp only at hfree
        rw [hiid] at hfree
        exact absurd hfree htid
      · exact c1 k hk hfree
    · intro t ht
      rw [tls_last_snoc]
      have hfs : ∀ id, find_slot (store s.g_tls i fun x => { x with data := data }) id
          = find_slot s.g_tls id :=
        fun id => tls_find_store_data s.g_tls i _ id hilt rfl
      simp only [track]
      split_ifs with htt
      · simp only at htt
        subst htt
        have hown := d tid ht
        simp only [owner_data, hi, Option.map_some'] at hown
        rw [← hown]
        simp [owner_data, hfs, hi, tls_slot_store _ _ _ _ hilt]
      · simp only at htt
        rw [← d t ht]
        unfold owner_data
        rw [hfs]
        cases hf : find_slot s.g_tls t with
        | none => rfl
        | some k =>
            have hk := ((tls_find_some s.g_tls t k).1 hf).2.1
            have hki : k ≠ i := by
              rintro rfl
              rw [hiid] at hk; exact htt hk
            simp [tls_slot_store _ _ _ _ hilt, hki]
  · rw [e] at hc; cases hc

theorem tls_inv_free (h : List (Int × Call)) (s s1 : Storage) (tid : Int)
    (htid : tid ≠ -1) (hinv : TlsInv h s)
    (hc : tls_thread_free s tid = Outcome.returned () s1) :
    TlsInv (h ++ [(tid, Call.free)]) s1 := by
  rcases tls_free_cases s tid hinv.lock_free with ⟨i, hi, e⟩ | ⟨-, e⟩
  · rw [e] at hc
    injection hc with _ hs
    subst hs
    obtain ⟨a, b, c1, d⟩ := hinv
    obtain ⟨hilt, hiid, -⟩ := (tls_find_some s.g_tls tid i).1 hi
    refine ⟨tls_release_free _ a, ?_, ?_, ?_⟩
    · intro k j hk hj hkj hne
      simp only [tls_store_length] at hk hj
      simp only [tls_slot_store s.g_tls i _ _ hilt] at hkj hne
      split_ifs at hkj hne with h1 h2 h2
      · rw [h1, h2]
      · exact absurd rfl hne
      · exact absurd hkj hne
      · exact b k j hk hj hkj hne
    · intro k hk hfree
      simp only [tls_store_length] at hk
      simp only [tls_slot_store s.g_tls i _ _ hilt] at hfree ⊢
      split_ifs at hfree ⊢ with h1
      · rfl
      · exact c1 k hk hfree
    · intro t ht
      rw [tls_last_snoc]
      simp only [track]
      split_ifs with htt
      · simp only at htt
        subst htt
        have hf : find_slot (store s.g_tls i fun _ => { thread_id := -1, data := NULL }) tid
            = none := by
          rw [tls_find_none]
          intro x hx hxid
          obtain ⟨k, hk, rfl⟩ := tls_mem_slot _ x hx
          rw [tls_store_length] at hk
          rw [tls_slot_store _ _ _ _ hilt] at hxid
          split_ifs at hxid with hki
          · exact htid hxid.symm
          · exact hki (b k i hk hilt (by rw [hxid, hiid]) (by rw [hxid]; exact htid))
        simp [owner_data, hf]
      · simp only at htt
        rw [← d t ht]
        exact (tls_find_store_other s.g_tls i _ t hilt (by rw [hiid]; exact htt)
          (fun h => ht h.symm)).2
  · rw [e] at hc; cases hc

/-- Every call of a thread other than -1 that returns keeps the invariant. -/
theorem tls_inv_call (h : List (Int × Call)) (s s1 : Storage) (tid : Int) (c : Call)
    (htid : tid ≠ -1) (hinv : TlsInv h s) (hc : call s tid c = some s1) :
    TlsInv (h ++ [(tid, c)]) s1 := by
  cases c with
  | alloc =>
      simp only [call] at hc
      cases ho : tls_thread_alloc s tid with
      | returned v s2 =>
          rw [ho] at hc; simp only [Outcome.after] at hc
          injection hc with hc; subst hc
          exact tls_inv_alloc h s s2 tid htid hinv ho
      | exited st s2 => rw [ho] at hc; cases hc
      | blocked => rw [ho] at hc; cases hc
  | set data =>
      simp only [call] at hc
      cases ho : set_tls_data s tid data with
      | returned v s2 =>
          rw [ho] at hc; simp only [Outcome.after] at hc
          injection hc with hc; subst hc
          exact tls_inv_set h s s2 tid data htid hinv ho
      | exited st s2 => rw [ho] at hc; cases hc
      | blocked => rw [ho] at hc; cases hc
  | get =>
      simp only [call] at hc
      cases ho : get_tls_data s tid with
      | returned v s2 =>
          rw [ho] at hc; simp only [Outcome.after] at hc
          injection hc with hc; subst hc
          exact tls_inv_get h s s2 tid v hinv ho
      | exited st s2 => rw [ho] at hc; cases hc
      | blocked => rw [ho] at hc; cases hc
  | free =>
      simp only [call] at hc
      cases ho : tls_thread_free s tid with
      | returned v s2 =>
          rw [ho] at hc; simp only [Outcome.after] at hc
          injection hc with hc; subst hc
          exact tls_inv_free h s s2 tid htid hinv ho
      | exited st s2 => rw [ho] at hc; cases hc
      | blocked => rw [ho] at hc; cases hc

theorem tls_inv_run (cs : List (Int × Call)) : ∀ (h : List (Int × Call)) (s s1 : Storage),
    (∀ c ∈ cs, c.1 ≠ -1) → TlsInv h s → runCalls s cs = some s1 → TlsInv (h ++ cs) s1 := by
  induction cs with
  | nil =>
      intro h s s1 _ hinv hr
      simp only [runCalls] at hr
      injection hr with hr
      subst hr
      simpa using hinv
  | cons c cs ih =>
      intro h s s1 hid hinv hr
      obtain ⟨tid, c⟩ := c
      simp only [runCalls] at hr
      cases hc : call s tid c with
      | none => rw [hc] at hr; cases hr
      | some s2 =>
          rw [hc] at hr
          have h2 := tls_inv_call h s s2 tid c (hid (tid, c) (List.mem_cons_self _ _)) hinv hc
          have := ih (h ++ [(tid, c)]) s2 s1
            (fun c' hc' => hid c' (List.mem_cons_of_mem _ hc')) h2 hr
          simpa using this

end Tls
namespace Tls

theorem tls_run_append (a b : List (Int × Call)) : ∀ (s s1 : Storage),
    runCalls s (a ++ b) = some s1 ↔ ∃ s0, runCalls s a = some s0 ∧ runCalls s0 b = some s1 := by
  induction a with
  | nil => intro s s1; simp [runCalls]
  | cons c a ih =>
      intro s s1
      obtain ⟨tid, c⟩ := c
      simp only [List.cons_append, runCalls]
      cases call s tid c with
      | none => simp
      | some s2 => exact ih s2 s1

/-- Calls of `tid` that neither set nor free, and calls of other threads, leave
what `tid` is owed, once it owns a slot. -/
theorem tls_track_quiet (tid : Int) (p : Nat) (mid : List (Int × Call))
    (hq : ∀ c ∈ mid, c.1 = tid → c.2 = Call.alloc ∨ c.2 = Call.get) :
    mid.foldl (track tid) (some p) = some p := by
  induction mid with
  | nil => rfl
  | cons c mid ih =>
      have h1 : track tid (some p) c = some p := by
        simp only [track]
        split_ifs with hc
        · rcases hq c (List.mem_cons_self _ _) hc with h | h <;> rw [h]
        · rfl
      rw [List.foldl_cons, h1]
      exact ih (fun c' hc' => hq c' (List.mem_cons_of_mem _ hc'))

/-- The thread `tid` finds the pointer `p` when it is owed `p`. -/
theorem tls_get_owed (h : List (Int × Call)) (s : Storage) (tid : Int) (p : Nat)
    (htid : tid ≠ -1) (hinv : TlsInv h s) (hp : lastSet tid h = some p) :
    ∃ s1, get_tls_data s tid = Outcome.returned p s1 ∧ s1.g_tls = s.g_tls := by
  have hown := hinv.owed tid htid
  rw [hp] at hown
  rcases tls_get_cases s tid hinv.lock_free with ⟨i, hi, e⟩ | ⟨hn, -⟩
  · simp only [owner_data, hi, Option.map_some'] at hown
    injection hown with hown
    rw [e, hown]
    exact ⟨_, rfl, rfl⟩
  · simp [owner_data, hn] at hown

/-- A thread owns a slot exactly when it is owed something. -/
theorem tls_owner_owed (h : List (Int × Call)) (s : Storage) (tid : Int)
    (htid : tid ≠ -1) (hinv : TlsInv h s) :
    (∃ x ∈ s.g_tls, x.thread_id = tid) ↔ ∃ p, lastSet tid h = some p := by
  have hown := hinv.owed tid htid
  have hn := tls_find_none s.g_tls tid
  cases hf : find_slot s.g_tls tid with
  | none =>
      have h0 : lastSet tid h = none := by rw [← hown]; simp [owner_data, hf]
      constructor
      · rintro ⟨x, hx, hxid⟩
        exact absurd hxid (hn.1 hf x hx)
      · rintro ⟨p, hp⟩
        rw [h0] at hp; cases hp
  | some i =>
      have h1 : lastSet tid h = some (slot s.g_tls i).data := by
        rw [← hown]; simp [owner_data, hf]
      obtain ⟨a, b, -⟩ := (tls_find_some s.g_tls tid i).1 hf
      exact ⟨fun _ => ⟨_, h1⟩, fun _ => ⟨_, tls_slot_mem _ i a, b⟩⟩

end Tls

namespace Tls

/-- C14: in every table state `s` reached from `init_storage` (any capacity `n`)
by calls `cs` that all returned, of threads whose ids differ from -1, and for
every thread `tid` other than -1.  (1) No thread id occupies two slots.  (2)
`tid` owns a slot exactly when, by the history alone, it has allocated and not
freed since.  (3) If `tid` owns a slot, a further `tls_thread_alloc` by `tid`
returns and leaves the table as it is, and `get_tls_data` by `tid` returns the
pointer it is owed by the history.  (4) In particular, if the history is
`pre`, then `set_tls_data(p)` by `tid`, then calls `mid` among which `tid`
neither sets nor frees (the other threads do what they want), `get_tls_data`
returns `p`; and if it is `pre`, after which `tid` owns no slot, then
`tls_thread_alloc` by `tid`, then such calls `mid`, `get_tls_data` returns
`NULL`.  (5) Every further call returns or exits: the lock is free. -/
theorem slot_table_round_trip (n : Nat) (cs : List (Int × Call)) (s : Storage) (tid : Int)
    (hids : ∀ c ∈ cs, c.1 ≠ -1) (hrun : runCalls (init_storage n) cs = some s)
    (htid : tid ≠ -1) :
    (∀ i j, i < s.g_tls.length → j < s.g_tls.length →
      (slot s.g_tls i).thread_id = (slot s.g_tls j).thread_id →
      (slot s.g_tls i).thread_id ≠ -1 → i = j) ∧
    ((∃ x ∈ s.g_tls, x.thread_id = tid) ↔ ∃ p, lastSet tid cs = some p) ∧
    ((∃ x ∈ s.g_tls, x.thread_id = tid) →
      (∃ s1, tls_thread_alloc s tid = Outcome.returned () s1 ∧ s1.g_tls = s.g_tls) ∧
      ∃ p s1, lastSet tid cs = some p ∧ get_tls_data s tid = Outcome.returned p s1 ∧
        s1.g_tls = s.g_tls) ∧
    (∀ pre p mid, cs = pre ++ (tid, Call.set p) :: mid →
      (∀ c ∈ mid, c.1 = tid → c.2 = Call.alloc ∨ c.2 = Call.get) →
      ∃ s1, get_tls_data s tid = Outcome.returned p s1 ∧ s1.g_tls = s.g_tls) ∧
    (∀ pre mid s0, cs = pre ++ (tid, Call.alloc) :: mid →
      runCalls (init_storage n) pre = some s0 → (∀ x ∈ s0.g_tls, x.thread_id ≠ tid) →
      (∀ c ∈ mid, c.1 = tid → c.2 = Call.alloc ∨ c.2 = Call.get) →
      ∃ s1, get_tls_data s tid = Outcome.returned NULL s1 ∧ s1.g_tls = s.g_tls) ∧
    (∀ (t : Int) (d : Nat), tls_thread_alloc s t ≠ Outcome.blocked ∧
      get_tls_data s t ≠ Outcome.blocked ∧ set_tls_data s t d ≠ Outcome.blocked ∧
      tls_thread_free s t ≠ Outcome.blocked) := by
  have hinv : TlsInv cs s := by
    have := tls_inv_run cs [] (init_storage n) s hids (tls_inv_init n) hrun
    simpa using this
  have hpre : ∀ pre c mid, cs = pre ++ c :: mid → ∃ s0, runCalls (init_storage n) pre = some s0 ∧
      TlsInv pre s0 ∧ ∃ s2, call s0 c.1 c.2 = some s2 := by
    intro pre c mid hcs
    rw [hcs] at hrun hids
    obtain ⟨s0, h0, h1⟩ := (tls_run_append pre (c :: mid) _ _).1 hrun
    have hi0 := tls_inv_run pre [] (init_storage n) s0
      (fun c' hc' => hids c' (List.mem_append_left _ hc')) (tls_inv_init n) h0
    refine ⟨s0, h0, by simpa using hi0, ?_⟩
    obtain ⟨t, c⟩ := c
    simp only [runCalls] at h1
    cases hc : call s0 t c with
    | none => rw [hc] at h1; cases h1
    | some s2 => exact ⟨s2, rfl⟩
  refine ⟨hinv.uniq, tls_owner_owed cs s tid htid hinv, ?_, ?_, ?_, ?_⟩
  · intro hown
    obtain ⟨p, hp⟩ := (tls_owner_owed cs s tid htid hinv).1 hown
    refine ⟨?_, ?_⟩
    · rcases tls_alloc_cases s tid hinv.lock_free with ⟨-, e⟩ | ⟨h1, -⟩ | ⟨h1, -⟩
      · exact ⟨_, e, rfl⟩
      · obtain ⟨x, hx, hxid⟩ := hown
        exact absurd hxid ((tls_find_none s.g_tls tid).1 h1 x hx)
      · obtain ⟨x, hx, hxid⟩ := hown
        exact absurd hxid ((tls_find_none s.g_tls tid).1 h1 x hx)
    · obtain ⟨s1, a, b⟩ := tls_get_owed cs s tid p htid hinv hp
      exact ⟨p, s1, hp, a, b⟩
  · intro pre p mid hcs hq
    obtain ⟨s0, -, hi0, s2, hc⟩ := hpre pre (tid, Call.set p) mid hcs
    have hq0 : ∃ q, lastSet tid pre = some q := by
      refine (tls_owner_owed pre s0 tid htid hi0).1 ?_
      simp only [call] at hc
      rcases tls_set_cases s0 tid p hi0.lock_free with ⟨i, hi, -⟩ | ⟨-, e⟩
      · obtain ⟨a, b, -⟩ := (tls_find_some s0.g_tls tid i).1 hi
        exact ⟨_, tls_slot_mem _ i a, b⟩
      · rw [e] at hc; cases hc
    obtain ⟨q, hq0⟩ := hq0
    have hl : lastSet tid cs = some p := by
      rw [hcs]
      simp only [lastSet, List.foldl_append, List.foldl_cons] at hq0 ⊢
      rw [hq0]
      simp only [track, if_true, Option.map_some']
      exact tls_track_quiet tid p mid hq
    exact tls_get_owed cs s tid p htid hinv hl
  · intro pre mid s0 hcs h0 hno hq
    obtain ⟨s0', h0', hi0, -⟩ := hpre pre (tid, Call.alloc) mid hcs
    rw [h0] at h0'
    injection h0' with h0'
    subst h0'
    have hq0 : lastSet tid pre = none := by
      cases hl : lastSet tid pre with
      | none => rfl
      | some q =>
          obtain ⟨x, hx, hxid⟩ := (tls_owner_owed pre s0 tid htid hi0).2 ⟨q, hl⟩
          exact absurd hxid (hno x hx)
    have hl : lastSet tid cs = some NULL := by
      rw [hcs]
      simp only [lastSet, List.foldl_append, List.foldl_cons] at hq0 ⊢
      rw [hq0]
      simp only [track, if_true]
      exact tls_track_quiet tid NULL mid hq
    exact tls_get_owed cs s tid NULL htid hinv hl
  · intro t d
    refine ⟨?_, ?_, ?_, ?_⟩
    · rcases tls_alloc_cases s t hinv.lock_free with ⟨-, e⟩ | ⟨-, i, -, e⟩ | ⟨-, -, e⟩ <;>
        rw [e] <;> exact fun h => by cases h
    · rcases tls_get_cases s t hinv.lock_free with ⟨i, -, e⟩ | ⟨-, e⟩ <;>
        rw [e] <;> exact fun h => by cases h
    · rcases tls_set_cases s t d hinv.lock_free with ⟨i, -, e⟩ | ⟨-, e⟩ <;>
        rw [e] <;> exact fun h => by cases h
    · rcases tls_free_cases s t hinv.lock_free with ⟨i, -, e⟩ | ⟨-, e⟩ <;>
        rw [e] <;> exact fun h => by cases h

end Tls
namespace Tls

/-- C14, at a concrete run on a table of two slots: thread 7 allocates and sets
42; thread 9 allocates, sets 5; thread 7 allocates again; thread 9 frees; then
`get_tls_data` by thread 7 returns 42. -/
theorem slot_table_round_trip_witness :
    ∃ s1, get_tls_data
        { tls_lock := { ticket := 6, cur_ticket := 6 },
          g_tls := [{ thread_id := 7, data := 42 }, { thread_id := -1, data := NULL }] } 7
        = Outcome.returned 42 s1 ∧
      s1.g_tls = [{ thread_id := 7, data := 42 }, { thread_id := -1, data := NULL }] :=
  (slot_table_round_trip 2
    [(7, Call.alloc), (7, Call.set 42), (9, Call.alloc), (9, Call.set 5), (7, Call.alloc),
      (9, Call.free)]
    { tls_lock := { ticket := 6, cur_ticket := 6 },
      g_tls := [{ thread_id := 7, data := 42 }, { thread_id := -1, data := NULL }] } 7
    (by decide) (by decide) (by decide)).2.2.2.1
    [(7, Call.alloc)] 42 [(9, Call.alloc), (9, Call.set 5), (7, Call.alloc), (9, Call.free)] rfl
    (by decide)

end Tls
